import Mathlib

/-!
Shallow embedding of `src/dynamics/joint/joint_set.rs` (rapier joint-set
orchestrator) together with its two load-bearing dependencies, the
generational slot arena (`crate::data::arena`) and the compacting
interaction graph (`crate::data::graph` / `InteractionGraph`), which are
not part of the provided sources and are therefore modelled from the
specification (spec.md §4.1, §4.2), as are the body-storage and
island-manager collaborators (spec.md §6).

Machine integers (`u32`, `usize`) are modelled as `Nat`; the sentinel
`INVALID_U32` is `u32::MAX = 4294967295`.
-/

namespace Rapier

/-- The sentinel `crate::INVALID_U32 = u32::MAX`. -/
def INVALID_U32 : Nat := 4294967295

/-! ### Generational slot arena

Modelled from the spec: `crate::data::arena::Arena` (spec.md §4.1
"Generational Slot Arena") is not among the provided source files.  A slot
is either free or occupied, each carrying a generation; `insert` reuses a
freed slot if one exists, incrementing its generation, else grows;
`remove` checks the generation, frees the slot and bumps its generation;
lookups are generation-checked. -/

/-- An arena index: `(slot index, generation)` pair
(`crate::data::arena::Index`). -/
structure Index where
  idx : Nat
  gen : Nat
deriving DecidableEq, Repr

/-- One arena slot: free or occupied, with its current generation. -/
inductive Slot (T : Type) where
  | free (gen : Nat)
  | occupied (gen : Nat) (val : T)
deriving DecidableEq, Repr

/-- Modelled from the spec: the generational slot arena (spec.md §4.1). -/
structure Arena (T : Type) where
  slots : List (Slot T)
  freeList : List Nat
deriving DecidableEq, Repr

namespace Arena

/-- The empty arena (`Arena::new`). -/
def new (T : Type) : Arena T := ⟨[], []⟩

/-- Generation-checked lookup (`Arena::get`). -/
def get (a : Arena T) (h : Index) : Option T :=
  match a.slots[h.idx]? with
  | some (.occupied g v) => if g = h.gen then some v else none
  | _ => none

/-- `Arena::contains`: does the handle resolve? -/
def contains (a : Arena T) (h : Index) : Bool :=
  (a.get h).isSome

/-- Modelled from the spec: `insert` reuses a freed slot if one exists
(incrementing its generation), else grows (spec.md §4.1). -/
def insert (a : Arena T) (v : T) : Arena T × Index :=
  match a.freeList with
  | [] => (⟨a.slots ++ [.occupied 0 v], []⟩, ⟨a.slots.length, 0⟩)
  | i :: rest =>
    match a.slots[i]? with
    | some (.free g) => (⟨a.slots.set i (.occupied (g + 1) v), rest⟩, ⟨i, g + 1⟩)
    | _ => (⟨a.slots ++ [.occupied 0 v], rest⟩, ⟨a.slots.length, 0⟩)

/-- Modelled from the spec: `remove` fails on generation mismatch or a free
slot; otherwise frees the slot, bumps its generation and returns the value
(spec.md §4.1). -/
def remove (a : Arena T) (h : Index) : Option T × Arena T :=
  match a.slots[h.idx]? with
  | some (.occupied g v) =>
    if g = h.gen then
      (some v, ⟨a.slots.set h.idx (.free (g + 1)), h.idx :: a.freeList⟩)
    else (none, a)
  | _ => (none, a)

/-- Generation-checked in-place update (the `IndexMut` used by
`self.joint_ids[handle] = id`); a mismatching handle leaves the arena
unchanged (the source would panic there, which is unreachable under the
maintained invariant). -/
def setVal (a : Arena T) (h : Index) (v : T) : Arena T :=
  match a.slots[h.idx]? with
  | some (.occupied g _) =>
    if g = h.gen then ⟨a.slots.set h.idx (.occupied g v), a.freeList⟩ else a
  | _ => a

end Arena

/-! ### Compacting interaction graph

Modelled from the spec: `crate::data::graph` / `InteractionGraph`
(spec.md §4.2 "Interaction Graph") is not among the provided source
files.  Nodes and edges live in two independently compacting arrays;
removal is swap-with-last-then-pop; `remove_node` reports the payload of
the relocated node. -/

/-- A graph edge: the two incident node positions and the payload. -/
structure Edge (E : Type) where
  a : Nat
  b : Nat
  weight : E
deriving DecidableEq, Repr

/-- A graph node: just its payload. -/
structure Node (N : Type) where
  weight : N
deriving DecidableEq, Repr

/-- Modelled from the spec: graph over two compacting arrays (spec.md §4.2). -/
structure Graph (N E : Type) where
  nodes : List (Node N)
  edges : List (Edge E)
deriving DecidableEq, Repr

/-- Swap-with-last-then-pop removal at position `i` (spec.md §4.2,
"swap-remove compaction"); out-of-range indices leave the list unchanged. -/
def swapRemove (l : List α) (i : Nat) : List α :=
  if i < l.length then
    match l.getLast? with
    | some last => (l.set i last).dropLast
    | none => l
  else l

namespace Graph

/-- The empty graph (`InteractionGraph::new`). -/
def new (N E : Type) : Graph N E := ⟨[], []⟩

/-- `add_node`: appends; returns the new node index. -/
def add_node (g : Graph N E) (w : N) : Graph N E × Nat :=
  (⟨g.nodes ++ [⟨w⟩], g.edges⟩, g.nodes.length)

/-- `add_edge`: appends; returns the new edge index. -/
def add_edge (g : Graph N E) (a b : Nat) (w : E) : Graph N E × Nat :=
  (⟨g.nodes, g.edges ++ [⟨a, b, w⟩]⟩, g.edges.length)

/-- `edge_weight`. -/
def edge_weight (g : Graph N E) (i : Nat) : Option E :=
  (g.edges[i]?).map Edge.weight

/-- `edge_endpoints`. -/
def edge_endpoints (g : Graph N E) (i : Nat) : Option (Nat × Nat) :=
  (g.edges[i]?).map (fun e => (e.a, e.b))

/-- `node_weight`. -/
def node_weight (g : Graph N E) (i : Nat) : Option N :=
  (g.nodes[i]?).map Node.weight

/-- Modelled from the spec: `remove_edge` is swap-with-last-then-pop and
returns the removed payload (spec.md §4.2). -/
def remove_edge (g : Graph N E) (i : Nat) : Option E × Graph N E :=
  match g.edges[i]? with
  | some e => (some e.weight, ⟨g.nodes, swapRemove g.edges i⟩)
  | none => (none, g)

/-- Modelled from the spec: `remove_node` (valid once no incident edge
remains) swap-removes the node, rewrites edge endpoints referencing the
relocated node, and returns the relocated node's payload so the caller can
repair that body's back-reference (spec.md §4.2). -/
def remove_node (g : Graph N E) (i : Nat) : Option N × Graph N E :=
  if i < g.nodes.length then
    if i = g.nodes.length - 1 then
      (none, ⟨g.nodes.dropLast, g.edges⟩)
    else
      match g.nodes[g.nodes.length - 1]? with
      | some m =>
        (some m.weight,
          ⟨(g.nodes.set i m).dropLast,
           g.edges.map (fun e =>
             ⟨if e.a = g.nodes.length - 1 then i else e.a,
              if e.b = g.nodes.length - 1 then i else e.b, e.weight⟩)⟩)
      | none => (none, g)
  else (none, g)

/-- Modelled from the spec: `interactions_with` enumerates the edges
incident to a node as `(node payload, node payload, edge payload)`
triples (spec.md §4.2). -/
def interactions_with (g : Graph N E) (i : Nat) : List (N × N × E) :=
  g.edges.filterMap (fun e =>
    if e.a = i ∨ e.b = i then
      match g.nodes[e.a]?, g.nodes[e.b]? with
      | some x, some y => some (x.weight, y.weight, e.weight)
      | _, _ => none
    else none)

end Graph

/-- `InteractionGraph::is_graph_index_valid`: the sentinel check. -/
def is_graph_index_valid (i : Nat) : Bool :=
  i != INVALID_U32

/-! ### External collaborators: body storage and island manager

Modelled from the spec: body storage and the island manager are external
collaborators accessed through a narrow capability interface
(spec.md §6); only the fields this core reads/writes are modelled:
body type (dynamic or not), activation (`sleeping`), `active_island_id`,
and the cached `joint_graph_index`. -/

/-- The body-storage record visible to this core (spec.md §6). -/
structure RigidBody where
  dynamic : Bool
  sleeping : Bool
  active_island_id : Nat
  joint_graph_index : Nat
deriving DecidableEq, Repr

/-- Body storage: partial map from body handle to record. -/
def BodyStore : Type := Nat → Option RigidBody

/-- Reading a body that is absent yields an inert default (the source
assumes valid body references; this keeps the embedding total). -/
def defaultBody : RigidBody := ⟨false, false, 0, INVALID_U32⟩

/-- `bodies.index(b)`: read a body record. -/
def getBody (bs : BodyStore) (b : Nat) : RigidBody :=
  (bs b).getD defaultBody

/-- `bodies.map_mut_internal(b, |ids| ids.joint_graph_index = i)`. -/
def setGraphIndex (bs : BodyStore) (b : Nat) (i : Nat) : BodyStore :=
  fun k => if k = b then (bs k).map (fun rb => { rb with joint_graph_index := i }) else bs k

/-- Modelled from the spec: `islands.wake_up(bodies, b, true)` marks the
body active (spec.md §6); only the body's `sleeping` flag matters here. -/
def setAwake (bs : BodyStore) (b : Nat) : BodyStore :=
  fun k => if k = b then (bs k).map (fun rb => { rb with sleeping := false }) else bs k

/-- Remove a body record from storage (the caller destroys the body
around `remove_rigid_body`). -/
def eraseBody (bs : BodyStore) (b : Nat) : BodyStore :=
  fun k => if k = b then none else bs k

/-! ### The joint set (`src/dynamics/joint/joint_set.rs`) -/

/-- `JointHandle`: newtype over the arena index. -/
def JointHandle : Type := Index

/-- The joint payload stored on each graph edge (`Joint`): its two body
handles, its own handle, and its parameters (opaque here). -/
structure Joint where
  body1 : Nat
  body2 : Nat
  handle : Index
  params : Nat
deriving DecidableEq, Repr

/-- `JointHandle::into_raw_parts`. -/
def into_raw_parts (h : Index) : Nat × Nat :=
  (h.idx, h.gen)

/-- `JointHandle::from_raw_parts`. -/
def from_raw_parts (id generation : Nat) : Index :=
  ⟨id, generation⟩

/-- `JointHandle::invalid`: the always-invalid sentinel handle. -/
def invalidHandle : Index :=
  ⟨INVALID_U32, INVALID_U32⟩

/-- `JointSet`: the arena mapping joint handles to edge indices, plus the
interaction graph whose nodes are body handles and whose edges are
joints. -/
structure JointSet where
  joint_ids : Arena Nat
  graph : Graph Nat Joint
deriving DecidableEq, Repr

namespace JointSet

/-- `JointSet::new`. -/
def new : JointSet := ⟨Arena.new Nat, Graph.new Nat Joint⟩

/-- `JointSet::len`. -/
def len (s : JointSet) : Nat := s.graph.edges.length

/-- `JointSet::contains`: consults only the arena. -/
def contains (s : JointSet) (h : Index) : Bool :=
  s.joint_ids.contains h

/-- `JointSet::get`: arena lookup, then edge-weight lookup. -/
def get (s : JointSet) (h : Index) : Option Joint :=
  (s.joint_ids.get h).bind (fun id => s.graph.edge_weight id)

/-- `JointSet::get_mut` resolves the joint exactly as `get` does. -/
def get_mut (s : JointSet) (h : Index) : Option Joint :=
  (s.joint_ids.get h).bind (fun id => s.graph.edge_weight id)

/-- `JointSet::insert`: allocate the arena slot, build the joint carrying
its own handle, lazily create graph nodes for bodies whose cached graph
index is invalid (writing the new index back into body storage), add the
edge, and store the edge index in the arena slot.  Both cached indices
are read before either node creation, as in the source. -/
def insert (s : JointSet) (bs : BodyStore) (body1 body2 : Nat) (params : Nat) :
    JointSet × BodyStore × Index :=
  let ar := s.joint_ids.insert 0
  let handle := ar.2
  let joint : Joint := ⟨body1, body2, handle, params⟩
  let gi1 := (getBody bs body1).joint_graph_index
  let gi2 := (getBody bs body2).joint_graph_index
  let step1 : Graph Nat Joint × Nat × BodyStore :=
    if is_graph_index_valid gi1 then (s.graph, gi1, bs)
    else
      let gn := s.graph.add_node body1
      (gn.1, gn.2, setGraphIndex bs body1 gn.2)
  let step2 : Graph Nat Joint × Nat × BodyStore :=
    if is_graph_index_valid gi2 then (step1.1, gi2, step1.2.2)
    else
      let gn := step1.1.add_node body2
      (gn.1, gn.2, setGraphIndex step1.2.2 body2 gn.2)
  let ge := step2.1.add_edge step1.2.1 step2.2.1 joint
  (⟨ar.1.setVal handle ge.2, ge.1⟩, step2.2.2, handle)

/-- Wake the body stored on a graph node, if the node exists
(`if let Some(rb_handle) = node_weight(..) { islands.wake_up(..) }`);
also records the woken body. -/
def wakeNode (g : Graph Nat Joint) (bs : BodyStore) (log : List Nat) (i : Nat) :
    BodyStore × List Nat :=
  match g.node_weight i with
  | some rb => (setAwake bs rb, log ++ [rb])
  | none => (bs, log)

/-- The arena repair shared by `remove` and the `remove_rigid_body`
loop: after the swap-remove, if an edge now occupies the freed index,
rewrite that edge's handle's arena entry to point there. -/
def repairAfterRemove (arena1 : Arena Nat) (g1 : Graph Nat Joint) (id : Nat) : Arena Nat :=
  match g1.edge_weight id with
  | some j => arena1.setVal j.handle id
  | none => arena1

/-- The common state change of removing the joint `h` whose arena entry
resolved to edge index `id`: free the arena slot, swap-remove the edge,
repair the relocated edge's arena entry. -/
def eraseEdge (s : JointSet) (h : Index) (id : Nat) : JointSet :=
  ⟨repairAfterRemove (s.joint_ids.remove h).2 (s.graph.remove_edge id).2 id,
   (s.graph.remove_edge id).2⟩

/-- `JointSet::remove`: remove the arena slot (absent handle yields
`none`), read the edge endpoints, optionally wake both endpoint bodies,
swap-remove the edge, and if another edge was relocated into the freed
index, rewrite that edge's handle's arena entry.  Returns the removed
joint, the new state, the body store, and the list of woken bodies. -/
def remove (s : JointSet) (bs : BodyStore) (h : Index) (wake_up : Bool) :
    Option Joint × JointSet × BodyStore × List Nat :=
  match (s.joint_ids.remove h).1 with
  | none => (none, s, bs, [])
  | some id =>
    match s.graph.edge_endpoints id with
    | none => (none, ⟨(s.joint_ids.remove h).2, s.graph⟩, bs, [])
    | some ep =>
      let w1 :=
        if wake_up then
          let wa := wakeNode s.graph bs [] ep.1
          wakeNode s.graph wa.1 wa.2 ep.2
        else (bs, [])
      ((s.graph.remove_edge id).1, eraseEdge s h id, w1.1, w1.2)

/-- One iteration of the `remove_rigid_body` deletion loop: remove the
arena slot of the collected handle (the source `unwrap`s there, which is
unreachable under the maintained invariant; an absent slot is a no-op
here), swap-remove the edge, repair the relocated edge's arena entry, and
wake both endpoint bodies. -/
def removeStep : JointSet × BodyStore × List Nat → Nat × Nat × Index →
    JointSet × BodyStore × List Nat
  | (s, bs, log), (h1, h2, hd) =>
    match (s.joint_ids.remove hd).1 with
    | none => (s, bs, log)
    | some id =>
      (eraseEdge s hd id, setAwake (setAwake bs h1) h2, log ++ [h1, h2])

/-- `JointSet::remove_rigid_body`: if the deleted body's graph index is
valid, collect the `(body1, body2, handle)` triples of all incident
edges, delete them one by one (repairing relocated arena entries and
waking both endpoint bodies), then remove the node; if node removal
relocated another node into the freed slot, write the freed index back
into that body's cached graph-index field. -/
def remove_rigid_body (s : JointSet) (bs : BodyStore) (deleted_id : Nat) :
    JointSet × BodyStore × List Nat :=
  if is_graph_index_valid deleted_id then
    let to_delete := (s.graph.interactions_with deleted_id).map
      (fun x => (x.1, x.2.1, x.2.2.handle))
    let r1 := to_delete.foldl removeStep (s, bs, [])
    let rn := r1.1.graph.remove_node deleted_id
    let bs2 :=
      match rn.1 with
      | some other => setGraphIndex r1.2.1 other deleted_id
      | none => r1.2.1
    (⟨r1.1.joint_ids, rn.2⟩, bs2, r1.2.2)
  else (s, bs, [])

/-- The qualification test of `select_active_interactions`, verbatim
from the source condition: at least one endpoint is dynamic and no
dynamic endpoint is sleeping. -/
def selCond (bs : BodyStore) (joint : Joint) : Bool :=
  (((getBody bs joint.body1).dynamic || (getBody bs joint.body2).dynamic) &&
    (!(getBody bs joint.body1).dynamic || !(getBody bs joint.body1).sleeping)) &&
    (!(getBody bs joint.body2).dynamic || !(getBody bs joint.body2).sleeping)

/-- The destination island of a qualifying joint: the first body's
active island when the first body is dynamic, else the second's. -/
def selIsland (bs : BodyStore) (joint : Joint) : Nat :=
  if !(getBody bs joint.body1).dynamic then (getBody bs joint.body2).active_island_id
  else (getBody bs joint.body1).active_island_id

/-- One scan step of `select_active_interactions`: push a qualifying
joint's index into its destination island's bucket. -/
def selStep (bs : BodyStore) (acc : List (List Nat)) (p : Nat × Edge Joint) :
    List (List Nat) :=
  if selCond bs p.2.weight then
    acc.set (selIsland bs p.2.weight) (acc.getD (selIsland bs p.2.weight) [] ++ [p.1])
  else acc

/-- `JointSet::select_active_interactions`: clear the first
`num_islands` output buckets, then scan all edges once, pushing each
qualifying joint's index into the bucket of its destination island. -/
def select_active_interactions (s : JointSet) (num_islands : Nat) (bs : BodyStore)
    (out : List (List Nat)) : List (List Nat) :=
  let cleared := out.enum.map (fun p => if p.1 < num_islands then [] else p.2)
  s.graph.edges.enum.foldl (selStep bs) cleared

end JointSet

/-! ### List helpers for swap-remove reasoning -/

theorem getElem?_dropLast_of_lt (l : List α) (k : Nat) (h : k < l.length - 1) :
    l.dropLast[k]? = l[k]? := by
  rw [List.dropLast_eq_take, List.getElem?_take]
  simp [h]

theorem getElem?_dropLast_of_ge (l : List α) (k : Nat) (h : l.length - 1 ≤ k) :
    l.dropLast[k]? = none := by
  apply List.getElem?_eq_none
  simp
  omega

theorem length_swapRemove (l : List α) (i : Nat) (h : i < l.length) :
    (swapRemove l i).length = l.length - 1 := by
  have hne : l ≠ [] := List.ne_nil_of_length_pos (Nat.lt_of_le_of_lt (Nat.zero_le _) h)
  unfold swapRemove
  rw [List.getLast?_eq_getLast l hne]
  simp [h]

theorem getElem?_swapRemove (l : List α) (i k : Nat) (hi : i < l.length) :
    (swapRemove l i)[k]? =
      if k + 1 < l.length then (if k = i then l[l.length - 1]? else l[k]?) else none := by
  have hne : l ≠ [] := List.ne_nil_of_length_pos (Nat.lt_of_le_of_lt (Nat.zero_le _) hi)
  unfold swapRemove
  rw [List.getLast?_eq_getLast l hne]
  simp only [hi, if_true]
  by_cases hk : k + 1 < l.length
  · rw [getElem?_dropLast_of_lt]
    · by_cases hki : k = i
      · subst hki
        rw [List.getElem?_set_self (by omega), if_pos rfl, if_pos hk]
        rw [List.getLast_eq_getElem]
        rw [List.getElem?_eq_getElem (by omega)]
      · rw [List.getElem?_set_ne (by omega), if_pos hk, if_neg hki]
    · simp; omega
  · rw [getElem?_dropLast_of_ge]
    · simp [hk]
    · simp; omega

theorem mem_swapRemove (l : List α) (i : Nat) (hi : i < l.length) (x : α)
    (hx : x ∈ swapRemove l i) : ∃ j, j ≠ i ∧ l[j]? = some x := by
  rcases List.getElem_of_mem hx with ⟨k, hk, hget⟩
  have hk' : (swapRemove l i)[k]? = some x := by
    rw [List.getElem?_eq_getElem hk, hget]
  rw [getElem?_swapRemove l i k hi] at hk'
  rw [length_swapRemove l i hi] at hk
  rw [if_pos (by omega)] at hk'
  by_cases hki : k = i
  · rw [if_pos hki] at hk'
    exact ⟨l.length - 1, by omega, hk'⟩
  · rw [if_neg hki] at hk'
    exact ⟨k, hki, hk'⟩

/-! ### Arena lemmas -/

namespace Arena

variable {T : Type}

/-- Characterization of a successful generation-checked lookup. -/
theorem get_some_iff (a : Arena T) (h : Index) (v : T) :
    a.get h = some v ↔ a.slots[h.idx]? = some (.occupied h.gen v) := by
  unfold get
  cases hs : a.slots[h.idx]? with
  | none => simp
  | some sl =>
    cases sl with
    | free g => simp
    | occupied g w =>
      by_cases hg : g = h.gen
      · subst hg
        simp
      · simp [hg]

/-- A lookup succeeds only within the slot array. -/
theorem get_some_lt (a : Arena T) (h : Index) (v : T) (hv : a.get h = some v) :
    h.idx < a.slots.length := by
  rw [get_some_iff] at hv
  exact (List.getElem?_eq_some_iff.mp hv).1

end Arena

/-- The generation stored on a slot. -/
def slotGen : Slot T → Nat
  | .free g => g
  | .occupied g _ => g

namespace Arena

variable {T : Type}

/-- The generation currently stored at slot `i`. -/
def genAt (a : Arena T) (i : Nat) : Option Nat :=
  (a.slots[i]?).map slotGen

/-- Slot generations never decrease (and slots never disappear): the key
fact behind permanent invalidity of removed handles. -/
def GenLe (a a' : Arena T) : Prop :=
  ∀ i g, a.genAt i = some g → ∃ g', a'.genAt i = some g' ∧ g ≤ g'

theorem GenLe.refl (a : Arena T) : GenLe a a :=
  fun _ g hg => ⟨g, hg, Nat.le_refl g⟩

theorem GenLe.trans {a b c : Arena T} (h1 : GenLe a b) (h2 : GenLe b c) : GenLe a c := by
  intro i g hg
  obtain ⟨g1, hg1, hle1⟩ := h1 i g hg
  obtain ⟨g2, hg2, hle2⟩ := h2 i g1 hg1
  exact ⟨g2, hg2, Nat.le_trans hle1 hle2⟩

/-- A handle whose generation is strictly below its slot's current
generation: it can never resolve again. -/
def dead (a : Arena T) (h : Index) : Prop :=
  ∃ g, a.genAt h.idx = some g ∧ h.gen < g

theorem dead.get_none {a : Arena T} {h : Index} (hd : a.dead h) : a.get h = none := by
  obtain ⟨g, hg, hlt⟩ := hd
  unfold genAt at hg
  unfold get
  cases hs : a.slots[h.idx]? with
  | none => rfl
  | some sl =>
    rw [hs, Option.map_some'] at hg
    injection hg with hg
    cases sl with
    | free g' => rfl
    | occupied g' v =>
      simp only [slotGen] at hg
      show (if g' = h.gen then some v else none) = none
      rw [if_neg (by omega)]

theorem dead.mono {a a' : Arena T} {h : Index} (hle : GenLe a a') (hd : a.dead h) :
    a'.dead h := by
  obtain ⟨g, hg, hlt⟩ := hd
  obtain ⟨g', hg', hle'⟩ := hle h.idx g hg
  exact ⟨g', hg', by omega⟩

/-- Arena well-formedness: the free list is duplicate-free and points at
free slots; slot generations keep a fixed parity (occupied even, free
odd), so the all-ones sentinel handle can never match an occupied slot. -/
structure WF (a : Arena T) : Prop where
  nodup : a.freeList.Nodup
  free_mem : ∀ i ∈ a.freeList, ∃ g, a.slots[i]? = some (Slot.free g)
  parity_free : ∀ (i g : Nat), a.slots[i]? = some (Slot.free g) → Odd g
  parity_occ : ∀ (i g : Nat) (v : T), a.slots[i]? = some (Slot.occupied g v) → Even g

theorem WF.empty (T : Type) : WF (Arena.new T) := by
  constructor <;> simp [Arena.new]

end Arena

/-- Lookup in a list extended by one element. -/
theorem getElem?_append_singleton (l : List α) (x : α) (k : Nat) :
    (l ++ [x])[k]? =
      if k < l.length then l[k]? else if k = l.length then some x else none := by
  by_cases hk : k < l.length
  · rw [List.getElem?_append_left hk, if_pos hk]
  · rw [List.getElem?_append_right (by omega), if_neg hk]
    by_cases hk' : k = l.length
    · subst hk'
      simp
    · rw [if_neg hk']
      have : k - l.length ≥ 1 := by omega
      match h : k - l.length, this with
      | n + 1, _ => simp

namespace Arena

variable {T : Type}

/-- Full specification of `insert` on a well-formed arena: the returned
handle is fresh, resolves to the inserted value, every other handle is
unaffected, well-formedness is preserved and generations never
decrease. -/
theorem insert_spec (a : Arena T) (v : T) (hwf : WF a) :
    WF (a.insert v).1 ∧ a.get (a.insert v).2 = none ∧
    (a.insert v).1.get (a.insert v).2 = some v ∧
    (∀ h, h ≠ (a.insert v).2 → (a.insert v).1.get h = a.get h) ∧
    GenLe a (a.insert v).1 := by
  unfold insert
  cases hfl : a.freeList with
  | nil =>
    refine ⟨?_, ?_, ?_, ?_, ?_⟩
    · constructor
      · simp
      · simp
      · intro i g hi
        rw [getElem?_append_singleton] at hi
        by_cases h1 : i < a.slots.length
        · rw [if_pos h1] at hi
          exact hwf.parity_free i g hi
        · rw [if_neg h1] at hi
          by_cases h2 : i = a.slots.length
          · rw [if_pos h2] at hi
            cases hi
          · rw [if_neg h2] at hi
            cases hi
      · intro i g w hi
        rw [getElem?_append_singleton] at hi
        by_cases h1 : i < a.slots.length
        · rw [if_pos h1] at hi
          exact hwf.parity_occ i g w hi
        · rw [if_neg h1] at hi
          by_cases h2 : i = a.slots.length
          · rw [if_pos h2] at hi
            cases hi
            exact even_zero
          · rw [if_neg h2] at hi
            cases hi
    · unfold get
      rw [List.getElem?_eq_none (by simp)]
    · rw [get_some_iff]
      simp [getElem?_append_singleton]
    · intro h hne
      unfold get
      rw [getElem?_append_singleton]
      by_cases h1 : h.idx < a.slots.length
      · rw [if_pos h1]
      · rw [if_neg h1]
        by_cases h2 : h.idx = a.slots.length
        · rw [if_pos h2]
          have hgen : h.gen ≠ 0 := by
            intro hg
            exact hne (by cases h; simp_all)
          rw [List.getElem?_eq_none (by omega)]
          simp [Ne.symm hgen]
        · rw [if_neg h2]
          rw [List.getElem?_eq_none (by omega)]
    · intro i g hg
      refine ⟨g, ?_, Nat.le_refl g⟩
      unfold genAt at hg ⊢
      rcases Option.map_eq_some'.mp hg with ⟨sl, hsl, hslg⟩
      have hi : i < a.slots.length := (List.getElem?_eq_some_iff.mp hsl).1
      rw [getElem?_append_singleton, if_pos hi, hsl, Option.map_some', hslg]
  | cons i rest =>
    have hfree := hwf.free_mem i (by rw [hfl]; exact List.mem_cons_self i rest)
    obtain ⟨g, hg⟩ := hfree
    simp only []
    rw [hg]
    simp only []
    have hilt : i < a.slots.length := (List.getElem?_eq_some_iff.mp hg).1
    have hodd : Odd g := hwf.parity_free i g hg
    refine ⟨?_, ?_, ?_, ?_, ?_⟩
    · constructor
      · have := hwf.nodup
        rw [hfl] at this
        exact this.of_cons
      · intro j hj
        have hjne : j ≠ i := by
          intro hji
          subst hji
          have := hwf.nodup
          rw [hfl] at this
          exact (List.nodup_cons.mp this).1 hj
        rw [List.getElem?_set_ne (Ne.symm hjne)]
        exact hwf.free_mem j (by rw [hfl]; exact List.mem_cons_of_mem i hj)
      · intro j g' hj
        by_cases hji : j = i
        · subst hji
          rw [List.getElem?_set_self hilt] at hj
          cases hj
        · rw [List.getElem?_set_ne (Ne.symm hji)] at hj
          exact hwf.parity_free j g' hj
      · intro j g' w hj
        by_cases hji : j = i
        · subst hji
          rw [List.getElem?_set_self hilt] at hj
          cases hj
          exact Odd.add_one hodd
        · rw [List.getElem?_set_ne (Ne.symm hji)] at hj
          exact hwf.parity_occ j g' w hj
    · unfold get
      rw [hg]
    · rw [get_some_iff]
      simp [List.getElem?_set_self hilt]
    · intro h hne
      unfold get
      by_cases hhi : h.idx = i
      · rw [hhi, List.getElem?_set_self hilt, hg]
        have hgen : h.gen ≠ g + 1 := by
          intro hgg
          exact hne (by cases h; simp_all)
        simp [Ne.symm hgen]
      · rw [List.getElem?_set_ne (Ne.symm hhi)]
    · intro j g' hg'
      unfold genAt at hg' ⊢
      by_cases hji : j = i
      · subst hji
        rw [hg] at hg'
        simp [slotGen] at hg'
        rw [List.getElem?_set_self hilt]
        exact ⟨g + 1, by simp [slotGen], by omega⟩
      · rw [List.getElem?_set_ne (Ne.symm hji)]
        exact ⟨g', hg', Nat.le_refl g'⟩

/-- `remove` on an absent or stale handle returns `none` and does not
change the arena. -/
theorem remove_none (a : Arena T) (h : Index) (hv : a.get h = none) :
    a.remove h = (none, a) := by
  unfold remove
  unfold get at hv
  cases hs : a.slots[h.idx]? with
  | none => rfl
  | some sl =>
    rw [hs] at hv
    cases sl with
    | free g => rfl
    | occupied g v =>
      simp only []
      rw [if_neg]
      intro hgen
      rw [show (match some (Slot.occupied g v) with
        | some (Slot.occupied g v) => if g = h.gen then some v else none
        | _ => none) = (if g = h.gen then some v else none) from rfl] at hv
      rw [if_pos hgen] at hv
      cases hv

/-- Full specification of `remove` on a live handle of a well-formed
arena: the stored value is returned, the handle goes permanently dead,
every other handle is unaffected, well-formedness is preserved and
generations never decrease. -/
theorem remove_spec (a : Arena T) (h : Index) (v : T) (hwf : WF a)
    (hv : a.get h = some v) :
    (a.remove h).1 = some v ∧
    WF (a.remove h).2 ∧
    (a.remove h).2.dead h ∧
    (∀ h', h' ≠ h → (a.remove h).2.get h' = a.get h') ∧
    GenLe a (a.remove h).2 := by
  have hocc := (get_some_iff a h v).mp hv
  have hlt : h.idx < a.slots.length := (List.getElem?_eq_some_iff.mp hocc).1
  have heven : Even h.gen := hwf.parity_occ h.idx h.gen v hocc
  have hrm : a.remove h =
      (some v, ⟨a.slots.set h.idx (.free (h.gen + 1)), h.idx :: a.freeList⟩) := by
    unfold remove
    rw [hocc]
    simp
  rw [hrm]
  have hnotin : h.idx ∉ a.freeList := by
    intro hmem
    obtain ⟨g, hg⟩ := hwf.free_mem h.idx hmem
    rw [hocc] at hg
    cases hg
  refine ⟨rfl, ?_, ?_, ?_, ?_⟩
  · constructor
    · exact List.nodup_cons.mpr ⟨hnotin, hwf.nodup⟩
    · intro j hj
      rcases List.mem_cons.mp hj with hji | hj
      · subst hji
        exact ⟨h.gen + 1, by rw [List.getElem?_set_self hlt]⟩
      · obtain ⟨g, hg⟩ := hwf.free_mem j hj
        have hjne : j ≠ h.idx := by
          intro hje
          subst hje
          rw [hocc] at hg
          cases hg
        rw [List.getElem?_set_ne (Ne.symm hjne)]
        exact ⟨g, hg⟩
    · intro j g hj
      by_cases hji : j = h.idx
      · subst hji
        rw [List.getElem?_set_self hlt] at hj
        cases hj
        exact Even.add_one heven
      · rw [List.getElem?_set_ne (Ne.symm hji)] at hj
        exact hwf.parity_free j g hj
    · intro j g w hj
      by_cases hji : j = h.idx
      · subst hji
        rw [List.getElem?_set_self hlt] at hj
        cases hj
      · rw [List.getElem?_set_ne (Ne.symm hji)] at hj
        exact hwf.parity_occ j g w hj
  · refine ⟨h.gen + 1, ?_, by omega⟩
    unfold genAt
    show ((a.slots.set h.idx (Slot.free (h.gen + 1)))[h.idx]?).map slotGen = _
    rw [List.getElem?_set_self hlt]
    rfl
  · intro h' hne
    unfold get
    by_cases hhi : h'.idx = h.idx
    · rw [hhi, List.getElem?_set_self hlt, hocc]
      have hgen : h'.gen ≠ h.gen := by
        intro hgg
        exact hne (by cases h; cases h'; simp_all)
      simp [Ne.symm hgen]
    · rw [List.getElem?_set_ne (Ne.symm hhi)]
  · intro j g hg
    unfold genAt at hg ⊢
    by_cases hji : j = h.idx
    · subst hji
      rw [hocc] at hg
      simp only [Option.map_some', slotGen] at hg
      injection hg with hg
      rw [List.getElem?_set_self hlt]
      exact ⟨h.gen + 1, by simp [slotGen], by omega⟩
    · rw [List.getElem?_set_ne (Ne.symm hji)]
      exact ⟨g, hg, Nat.le_refl g⟩

/-- `setVal` on an absent or stale handle does nothing. -/
theorem setVal_none (a : Arena T) (h : Index) (v : T) (hv : a.get h = none) :
    a.setVal h v = a := by
  unfold setVal
  unfold get at hv
  cases hs : a.slots[h.idx]? with
  | none => rfl
  | some sl =>
    rw [hs] at hv
    cases sl with
    | free g => rfl
    | occupied g w =>
      simp only []
      rw [if_neg]
      intro hgen
      rw [show (match some (Slot.occupied g w) with
        | some (Slot.occupied g v) => if g = h.gen then some v else none
        | _ => none) = (if g = h.gen then some w else none) from rfl] at hv
      rw [if_pos hgen] at hv
      cases hv

/-- Full specification of `setVal` on a live handle: the slot's value is
replaced, everything else (other handles, well-formedness, generations,
the free list) is unchanged. -/
theorem setVal_spec (a : Arena T) (h : Index) (v w : T) (hwf : WF a)
    (hv : a.get h = some w) :
    (a.setVal h v).get h = some v ∧
    (∀ h', h' ≠ h → (a.setVal h v).get h' = a.get h') ∧
    WF (a.setVal h v) ∧
    GenLe a (a.setVal h v) := by
  have hocc := (get_some_iff a h w).mp hv
  have hlt : h.idx < a.slots.length := (List.getElem?_eq_some_iff.mp hocc).1
  have hsv : a.setVal h v = ⟨a.slots.set h.idx (.occupied h.gen v), a.freeList⟩ := by
    unfold setVal
    rw [hocc]
    simp
  rw [hsv]
  refine ⟨?_, ?_, ?_, ?_⟩
  · rw [get_some_iff]
    show (a.slots.set h.idx (Slot.occupied h.gen v))[h.idx]? = _
    rw [List.getElem?_set_self hlt]
  · intro h' hne
    unfold get
    by_cases hhi : h'.idx = h.idx
    · rw [hhi, List.getElem?_set_self hlt, hocc]
      have hgen : h'.gen ≠ h.gen := by
        intro hgg
        exact hne (by cases h; cases h'; simp_all)
      simp [Ne.symm hgen]
    · rw [List.getElem?_set_ne (Ne.symm hhi)]
  · constructor
    · exact hwf.nodup
    · intro j hj
      obtain ⟨g, hg⟩ := hwf.free_mem j hj
      have hjne : j ≠ h.idx := by
        intro hje
        subst hje
        rw [hocc] at hg
        cases hg
      rw [List.getElem?_set_ne (Ne.symm hjne)]
      exact ⟨g, hg⟩
    · intro j g hj
      by_cases hji : j = h.idx
      · subst hji
        rw [List.getElem?_set_self hlt] at hj
        cases hj
      · rw [List.getElem?_set_ne (Ne.symm hji)] at hj
        exact hwf.parity_free j g hj
    · intro j g u hj
      by_cases hji : j = h.idx
      · subst hji
        rw [List.getElem?_set_self hlt] at hj
        cases hj
        exact hwf.parity_occ h.idx h.gen w hocc
      · rw [List.getElem?_set_ne (Ne.symm hji)] at hj
        exact hwf.parity_occ j g u hj
  · intro j g hg
    unfold genAt at hg ⊢
    by_cases hji : j = h.idx
    · subst hji
      rw [hocc] at hg
      simp only [Option.map_some', slotGen] at hg
      injection hg with hg
      rw [List.getElem?_set_self hlt]
      exact ⟨h.gen, by simp [slotGen], by omega⟩
    · rw [List.getElem?_set_ne (Ne.symm hji)]
      exact ⟨g, hg, Nat.le_refl g⟩

/-- The all-ones sentinel handle never resolves in a parity-well-formed
arena: occupied generations are even while the sentinel generation is
odd. -/
theorem get_invalid_none (a : Arena T) (hwf : WF a) :
    a.get invalidHandle = none := by
  unfold get
  cases hs : a.slots[invalidHandle.idx]? with
  | none => rfl
  | some sl =>
    cases sl with
    | free g => rfl
    | occupied g v =>
      have heven : Even g := hwf.parity_occ _ g v hs
      show (if g = invalidHandle.gen then some v else none) = none
      rw [if_neg]
      intro hgg
      rw [show invalidHandle.gen = INVALID_U32 from rfl] at hgg
      subst hgg
      rw [Nat.even_iff] at heven
      rw [show INVALID_U32 = 4294967295 from rfl] at heven
      omega

end Arena

/-! ### The joint-set consistency invariant -/

namespace JointSet

/-- Resolve a handle to the full graph edge through the arena. -/
def lookupEdge (s : JointSet) (h : Index) : Option (Edge Joint) :=
  (s.joint_ids.get h).bind (fun id => s.graph.edges[id]?)

theorem get_eq_lookupEdge (s : JointSet) (h : Index) :
    s.get h = (lookupEdge s h).map Edge.weight := by
  unfold JointSet.get lookupEdge Graph.edge_weight
  cases s.joint_ids.get h with
  | none => rfl
  | some id => rfl

/-- The bidirectional arena↔graph consistency invariant of the joint set
(spec.md §3, "Joint Set" invariant), together with arena
well-formedness: every occupied arena slot resolves to an edge carrying
its own handle, and every edge's handle resolves back to its index. -/
structure SetInv (s : JointSet) : Prop where
  wf : s.joint_ids.WF
  to_edge : ∀ (h : Index) (i : Nat), s.joint_ids.get h = some i →
    ∃ e, s.graph.edges[i]? = some e ∧ e.weight.handle = h
  from_edge : ∀ (i : Nat) (e : Edge Joint), s.graph.edges[i]? = some e →
    s.joint_ids.get e.weight.handle = some i

theorem SetInv.new : SetInv JointSet.new := by
  constructor
  · exact Arena.WF.empty Nat
  · intro h i hgi
    rw [show JointSet.new.joint_ids = Arena.new Nat from rfl] at hgi
    unfold Arena.get Arena.new at hgi
    simp at hgi
  · intro i e he
    rw [show JointSet.new.graph = Graph.new Nat Joint from rfl] at he
    unfold Graph.new at he
    simp at he

/-- Specification of the shared erase-and-repair state change: starting
from a consistent set in which handle `h` resolves to edge index `id`,
`eraseEdge` preserves consistency, leaves the nodes untouched, shortens
the edge array by one, kills `h` permanently, never decreases slot
generations, resolves every other handle to the same edge as before, and
keeps only edges of the original set not carrying `h`. -/
theorem eraseEdge_spec (s : JointSet) (h : Index) (id : Nat) (e_h : Edge Joint)
    (hinv : SetInv s) (hid : s.joint_ids.get h = some id)
    (he : s.graph.edges[id]? = some e_h) :
    SetInv (eraseEdge s h id) ∧
    (eraseEdge s h id).graph.nodes = s.graph.nodes ∧
    (eraseEdge s h id).graph.edges.length = s.graph.edges.length - 1 ∧
    (eraseEdge s h id).joint_ids.dead h ∧
    Arena.GenLe s.joint_ids (eraseEdge s h id).joint_ids ∧
    (∀ h', h' ≠ h → lookupEdge (eraseEdge s h id) h' = lookupEdge s h') ∧
    (∀ e' ∈ (eraseEdge s h id).graph.edges, e' ∈ s.graph.edges ∧ e'.weight.handle ≠ h) := by
  have hh : e_h.weight.handle = h := by
    obtain ⟨e0, he0, hh0⟩ := hinv.to_edge h id hid
    rw [he] at he0
    cases he0
    exact hh0
  have hlen : id < s.graph.edges.length := (List.getElem?_eq_some_iff.mp he).1
  have hre : s.graph.remove_edge id =
      (some e_h.weight, ⟨s.graph.nodes, swapRemove s.graph.edges id⟩) := by
    unfold Graph.remove_edge
    rw [he]
  obtain ⟨hfst1, hwf1, hdead1, hframe1, hgenle1⟩ :=
    Arena.remove_spec s.joint_ids h id hinv.wf hid
  have hE := fun k => getElem?_swapRemove s.graph.edges id k hlen
  have hmemfact : ∀ e' ∈ swapRemove s.graph.edges id,
      e' ∈ s.graph.edges ∧ e'.weight.handle ≠ h := by
    intro e' hmem
    obtain ⟨j, hjne, hj⟩ := mem_swapRemove s.graph.edges id hlen e' hmem
    refine ⟨List.getElem?_mem hj, ?_⟩
    intro heq
    have hfe := hinv.from_edge j e' hj
    rw [heq, hid] at hfe
    injection hfe with hfe
    exact hjne hfe.symm
  by_cases hB : id + 1 < s.graph.edges.length
  · -- relocation case: the last edge moves into position `id`
    have hn1 : s.graph.edges.length - 1 < s.graph.edges.length := by omega
    obtain ⟨e_last, hel⟩ : ∃ e, s.graph.edges[s.graph.edges.length - 1]? = some e :=
      ⟨_, List.getElem?_eq_getElem hn1⟩
    have hsome : (swapRemove s.graph.edges id)[id]? = some e_last := by
      rw [hE id, if_pos hB, if_pos rfl]
      exact hel
    have hfl : s.joint_ids.get e_last.weight.handle = some (s.graph.edges.length - 1) :=
      hinv.from_edge _ _ hel
    have hlne : e_last.weight.handle ≠ h := by
      intro heq
      rw [heq, hid] at hfl
      injection hfl with hfl
      omega
    have hA1l : (s.joint_ids.remove h).2.get e_last.weight.handle =
        some (s.graph.edges.length - 1) := by
      rw [hframe1 _ hlne]
      exact hfl
    obtain ⟨hsv_get, hsv_frame, hsv_wf, hsv_genle⟩ :=
      Arena.setVal_spec (s.joint_ids.remove h).2 e_last.weight.handle id _ hwf1 hA1l
    have hee : eraseEdge s h id =
        ⟨(s.joint_ids.remove h).2.setVal e_last.weight.handle id,
         ⟨s.graph.nodes, swapRemove s.graph.edges id⟩⟩ := by
      unfold eraseEdge repairAfterRemove
      rw [hre]
      unfold Graph.edge_weight
      simp only [hsome, Option.map_some']
    have hte : ∀ (h' : Index) (i' : Nat),
        ((s.joint_ids.remove h).2.setVal e_last.weight.handle id).get h' = some i' →
        ∃ e, (swapRemove s.graph.edges id)[i']? = some e ∧ e.weight.handle = h' := by
      intro h' i' hgi'
      by_cases hh' : h' = e_last.weight.handle
      · subst hh'
        rw [hsv_get] at hgi'
        injection hgi' with hgi'
        subst hgi'
        exact ⟨e_last, hsome, rfl⟩
      · rw [hsv_frame h' hh'] at hgi'
        have hne_h : h' ≠ h := by
          intro heq
          subst heq
          rw [Arena.dead.get_none hdead1] at hgi'
          cases hgi'
        rw [hframe1 h' hne_h] at hgi'
        obtain ⟨e', he', hh'e⟩ := hinv.to_edge h' i' hgi'
        have hi'len : i' < s.graph.edges.length := (List.getElem?_eq_some_iff.mp he').1
        have hi'id : i' ≠ id := by
          intro heq
          subst heq
          rw [he] at he'
          cases he'
          exact hne_h (hh'e.symm.trans hh)
        have hi'n1 : i' ≠ s.graph.edges.length - 1 := by
          intro heq
          subst heq
          rw [hel] at he'
          cases he'
          exact hh' hh'e.symm
        refine ⟨e', ?_, hh'e⟩
        rw [hE i', if_pos (by omega), if_neg hi'id]
        exact he'
    have hfe : ∀ (i' : Nat) (e' : Edge Joint),
        (swapRemove s.graph.edges id)[i']? = some e' →
        ((s.joint_ids.remove h).2.setVal e_last.weight.handle id).get e'.weight.handle
          = some i' := by
      intro i' e' he'
      rw [hE i'] at he'
      by_cases hi' : i' + 1 < s.graph.edges.length
      · rw [if_pos hi'] at he'
        by_cases hi'id : i' = id
        · subst hi'id
          rw [if_pos rfl, hel] at he'
          cases he'
          exact hsv_get
        · rw [if_neg hi'id] at he'
          have hpre := hinv.from_edge i' e' he'
          have hne_h : e'.weight.handle ≠ h := by
            intro heq
            rw [heq, hid] at hpre
            injection hpre with hp
            exact hi'id hp.symm
          have hne_l : e'.weight.handle ≠ e_last.weight.handle := by
            intro heq
            rw [heq, hfl] at hpre
            injection hpre with hp
            omega
          rw [hsv_frame _ hne_l, hframe1 _ hne_h]
          exact hpre
      · rw [if_neg hi'] at he'
        cases he'
    have hlu : ∀ (h' : Index), h' ≠ h →
        (((s.joint_ids.remove h).2.setVal e_last.weight.handle id).get h').bind
          (fun i => (swapRemove s.graph.edges id)[i]?) =
        (s.joint_ids.get h').bind (fun i => s.graph.edges[i]?) := by
      intro h' hne
      by_cases hh' : h' = e_last.weight.handle
      · subst hh'
        rw [hsv_get, hfl]
        simp only [Option.some_bind]
        rw [hsome, hel]
      · rw [hsv_frame _ hh', hframe1 _ hne]
        cases hs' : s.joint_ids.get h' with
        | none => rfl
        | some i' =>
          simp only [Option.some_bind]
          obtain ⟨e', he', hh'e⟩ := hinv.to_edge h' i' hs'
          have hi'len : i' < s.graph.edges.length := (List.getElem?_eq_some_iff.mp he').1
          have hi'id : i' ≠ id := by
            intro heq
            subst heq
            rw [he] at he'
            cases he'
            exact hne (hh'e.symm.trans hh)
          have hi'n1 : i' ≠ s.graph.edges.length - 1 := by
            intro heq
            subst heq
            rw [hel] at he'
            cases he'
            exact hh' hh'e.symm
          rw [hE i', if_pos (by omega), if_neg hi'id]
    rw [hee]
    exact ⟨⟨hsv_wf, hte, hfe⟩, rfl, length_swapRemove _ _ hlen, hdead1.mono hsv_genle,
      hgenle1.trans hsv_genle, hlu, hmemfact⟩
  · -- no relocation: the removed edge was the last one
    have hnone : (swapRemove s.graph.edges id)[id]? = none := by
      rw [hE id, if_neg hB]
    have hee : eraseEdge s h id =
        ⟨(s.joint_ids.remove h).2, ⟨s.graph.nodes, swapRemove s.graph.edges id⟩⟩ := by
      unfold eraseEdge repairAfterRemove
      rw [hre]
      unfold Graph.edge_weight
      simp only [hnone, Option.map_none']
    have hte : ∀ (h' : Index) (i' : Nat),
        (s.joint_ids.remove h).2.get h' = some i' →
        ∃ e, (swapRemove s.graph.edges id)[i']? = some e ∧ e.weight.handle = h' := by
      intro h' i' hgi'
      have hne_h : h' ≠ h := by
        intro heq
        subst heq
        rw [Arena.dead.get_none hdead1] at hgi'
        cases hgi'
      rw [hframe1 h' hne_h] at hgi'
      obtain ⟨e', he', hh'e⟩ := hinv.to_edge h' i' hgi'
      have hi'len : i' < s.graph.edges.length := (List.getElem?_eq_some_iff.mp he').1
      have hi'id : i' ≠ id := by
        intro heq
        subst heq
        rw [he] at he'
        cases he'
        exact hne_h (hh'e.symm.trans hh)
      refine ⟨e', ?_, hh'e⟩
      rw [hE i', if_pos (by omega), if_neg hi'id]
      exact he'
    have hfe : ∀ (i' : Nat) (e' : Edge Joint),
        (swapRemove s.graph.edges id)[i']? = some e' →
        (s.joint_ids.remove h).2.get e'.weight.handle = some i' := by
      intro i' e' he'
      rw [hE i'] at he'
      by_cases hi' : i' + 1 < s.graph.edges.length
      · rw [if_pos hi'] at he'
        have hi'id : i' ≠ id := by omega
        rw [if_neg hi'id] at he'
        have hpre := hinv.from_edge i' e' he'
        have hne_h : e'.weight.handle ≠ h := by
          intro heq
          rw [heq, hid] at hpre
          injection hpre with hp
          exact hi'id hp.symm
        rw [hframe1 _ hne_h]
        exact hpre
      · rw [if_neg hi'] at he'
        cases he'
    have hlu : ∀ (h' : Index), h' ≠ h →
        ((s.joint_ids.remove h).2.get h').bind
          (fun i => (swapRemove s.graph.edges id)[i]?) =
        (s.joint_ids.get h').bind (fun i => s.graph.edges[i]?) := by
      intro h' hne
      rw [hframe1 _ hne]
      cases hs' : s.joint_ids.get h' with
      | none => rfl
      | some i' =>
        simp only [Option.some_bind]
        obtain ⟨e', he', hh'e⟩ := hinv.to_edge h' i' hs'
        have hi'len : i' < s.graph.edges.length := (List.getElem?_eq_some_iff.mp he').1
        have hi'id : i' ≠ id := by
          intro heq
          subst heq
          rw [he] at he'
          cases he'
          exact hne (hh'e.symm.trans hh)
        rw [hE i', if_pos (by omega), if_neg hi'id, he']
    rw [hee]
    exact ⟨⟨hwf1, hte, hfe⟩, rfl, length_swapRemove _ _ hlen, hdead1, hgenle1,
      hlu, hmemfact⟩

end JointSet

namespace Arena

/-- The value returned by `Arena::remove` is exactly what `get` sees. -/

theorem remove_fst {T : Type} (a : Arena T) (h : Index) : (a.remove h).1 = a.get h := by
  unfold remove get
  cases hs : a.slots[h.idx]? with
  | none => rfl
  | some sl =>
    cases sl with
    | free g => rfl
    | occupied g v =>
      by_cases hg : g = h.gen
      · simp [hg]
      · simp [hg]

end Arena

namespace JointSet

/-- Component-wise description of `insert`: the returned handle is the
fresh arena handle, the arena stores the new edge index there, and the
edge array is extended with the new joint (whose endpoints depend on the
node-creation branches). -/
theorem insert_components (s : JointSet) (bs : BodyStore) (b1 b2 p : Nat) :
    (insert s bs b1 b2 p).2.2 = (s.joint_ids.insert 0).2 ∧
    (insert s bs b1 b2 p).1.joint_ids =
      (s.joint_ids.insert 0).1.setVal (s.joint_ids.insert 0).2 s.graph.edges.length ∧
    ∃ na nb, (insert s bs b1 b2 p).1.graph.edges =
      s.graph.edges ++ [⟨na, nb, ⟨b1, b2, (s.joint_ids.insert 0).2, p⟩⟩] := by
  unfold insert
  by_cases h1 : is_graph_index_valid (getBody bs b1).joint_graph_index <;>
    by_cases h2 : is_graph_index_valid (getBody bs b2).joint_graph_index <;>
      simp [h1, h2, Graph.add_edge, Graph.add_node]

/-- `insert` preserves the consistency invariant; the returned handle is
fresh, resolves to the new joint, all other handles resolve as before,
and slot generations never decrease. -/
theorem insert_setInv (s : JointSet) (bs : BodyStore) (b1 b2 p : Nat) (hinv : SetInv s) :
    SetInv (insert s bs b1 b2 p).1 ∧
    Arena.GenLe s.joint_ids (insert s bs b1 b2 p).1.joint_ids ∧
    s.joint_ids.get (insert s bs b1 b2 p).2.2 = none ∧
    (insert s bs b1 b2 p).1.get (insert s bs b1 b2 p).2.2 =
      some ⟨b1, b2, (insert s bs b1 b2 p).2.2, p⟩ ∧
    (∀ h', h' ≠ (insert s bs b1 b2 p).2.2 →
      lookupEdge (insert s bs b1 b2 p).1 h' = lookupEdge s h') := by
  obtain ⟨hhdl, hai, na, nb, hedg⟩ := insert_components s bs b1 b2 p
  obtain ⟨hwfA, hfreshA, hgetA, hframeA, hgenA⟩ := Arena.insert_spec s.joint_ids 0 hinv.wf
  obtain ⟨hsv_get, hsv_frame, hsv_wf, hsv_genle⟩ :=
    Arena.setVal_spec (s.joint_ids.insert 0).1 (s.joint_ids.insert 0).2
      s.graph.edges.length 0 hwfA hgetA
  have hlenE : ((insert s bs b1 b2 p).1.graph.edges).length = s.graph.edges.length + 1 := by
    rw [hedg]
    simp
  refine ⟨?_, ?_, ?_, ?_, ?_⟩
  · constructor
    · rw [hai]
      exact hsv_wf
    · intro h' i' hgi'
      rw [hai] at hgi'
      by_cases hh' : h' = (s.joint_ids.insert 0).2
      · subst hh'
        rw [hsv_get] at hgi'
        injection hgi' with hgi'
        subst hgi'
        refine ⟨⟨na, nb, ⟨b1, b2, (s.joint_ids.insert 0).2, p⟩⟩, ?_, rfl⟩
        rw [hedg, getElem?_append_singleton]
        simp
      · rw [hsv_frame h' hh', hframeA h' hh'] at hgi'
        obtain ⟨e', he', hh'e⟩ := hinv.to_edge h' i' hgi'
        have hi'len : i' < s.graph.edges.length := (List.getElem?_eq_some_iff.mp he').1
        refine ⟨e', ?_, hh'e⟩
        rw [hedg, getElem?_append_singleton, if_pos hi'len]
        exact he'
    · intro i' e' he'
      rw [hedg, getElem?_append_singleton] at he'
      rw [hai]
      by_cases hi1 : i' < s.graph.edges.length
      · rw [if_pos hi1] at he'
        have hpre := hinv.from_edge i' e' he'
        have hne : e'.weight.handle ≠ (s.joint_ids.insert 0).2 := by
          intro heq
          rw [heq, hfreshA] at hpre
          cases hpre
        rw [hsv_frame _ hne, hframeA _ hne]
        exact hpre
      · rw [if_neg hi1] at he'
        by_cases hi2 : i' = s.graph.edges.length
        · rw [if_pos hi2] at he'
          cases he'
          rw [hi2]
          exact hsv_get
        · rw [if_neg hi2] at he'
          cases he'
  · rw [hai]
    exact hgenA.trans hsv_genle
  · rw [hhdl]
    exact hfreshA
  · rw [get_eq_lookupEdge]
    unfold lookupEdge
    rw [hai, hhdl, hsv_get]
    simp only [Option.some_bind]
    rw [hedg, getElem?_append_singleton]
    simp
  · intro h' hne
    rw [hhdl] at hne
    unfold lookupEdge
    rw [hai, hsv_frame _ hne, hframeA _ hne]
    cases hs' : s.joint_ids.get h' with
    | none => rfl
    | some i' =>
      simp only [Option.some_bind]
      obtain ⟨e', he', hh'e⟩ := hinv.to_edge h' i' hs'
      have hi'len : i' < s.graph.edges.length := (List.getElem?_eq_some_iff.mp he').1
      rw [hedg, getElem?_append_singleton, if_pos hi'len]

/-- `remove` on an absent or stale handle: nothing happens. -/
theorem remove_eq_of_none (s : JointSet) (bs : BodyStore) (h : Index) (w : Bool)
    (hid : s.joint_ids.get h = none) :
    remove s bs h w = (none, s, bs, []) := by
  unfold remove
  rw [Arena.remove_fst, hid]

/-- `remove` on a live handle resolving to edge `id` holding `e_h`:
the edge's joint is returned and the state change is `eraseEdge`. -/
theorem remove_eq_of_some (s : JointSet) (bs : BodyStore) (h : Index) (w : Bool)
    (id : Nat) (e_h : Edge Joint)
    (hid : s.joint_ids.get h = some id) (he : s.graph.edges[id]? = some e_h) :
    (remove s bs h w).1 = some e_h.weight ∧
    (remove s bs h w).2.1 = eraseEdge s h id := by
  have hep : s.graph.edge_endpoints id = some (e_h.a, e_h.b) := by
    unfold Graph.edge_endpoints
    rw [he]
    rfl
  have hre1 : (s.graph.remove_edge id).1 = some e_h.weight := by
    unfold Graph.remove_edge
    rw [he]
  unfold remove
  rw [Arena.remove_fst, hid]
  simp only []
  rw [hep]
  exact ⟨hre1, rfl⟩

/-- One loop iteration on an absent handle is a no-op. -/
theorem removeStep_eq_none (s : JointSet) (bs : BodyStore) (log : List Nat)
    (h1 h2 : Nat) (hd : Index) (hg : s.joint_ids.get hd = none) :
    removeStep (s, bs, log) (h1, h2, hd) = (s, bs, log) := by
  unfold removeStep
  simp only []
  rw [Arena.remove_fst, hg]

/-- One loop iteration on a live handle erases its edge and wakes the two
collected bodies. -/
theorem removeStep_eq_some (s : JointSet) (bs : BodyStore) (log : List Nat)
    (h1 h2 : Nat) (hd : Index) (id : Nat) (hg : s.joint_ids.get hd = some id) :
    removeStep (s, bs, log) (h1, h2, hd) =
      (eraseEdge s hd id, setAwake (setAwake bs h1) h2, log ++ [h1, h2]) := by
  unfold removeStep
  simp only []
  rw [Arena.remove_fst, hg]

/-- The deletion loop of `remove_rigid_body` preserves the consistency
invariant and never decreases slot generations. -/
theorem foldl_removeStep_setInv (L : List (Nat × Nat × Index)) (s : JointSet)
    (bs : BodyStore) (log : List Nat) (hinv : SetInv s) :
    SetInv (L.foldl removeStep (s, bs, log)).1 ∧
    Arena.GenLe s.joint_ids (L.foldl removeStep (s, bs, log)).1.joint_ids := by
  induction L generalizing s bs log with
  | nil => exact ⟨hinv, Arena.GenLe.refl _⟩
  | cons item rest ih =>
    obtain ⟨h1, h2, hd⟩ := item
    rw [List.foldl_cons]
    cases hg : s.joint_ids.get hd with
    | none =>
      rw [removeStep_eq_none s bs log h1 h2 hd hg]
      exact ih s bs log hinv
    | some id =>
      obtain ⟨e_h, he, _⟩ := hinv.to_edge _ id hg
      rw [removeStep_eq_some s bs log h1 h2 hd id hg]
      obtain ⟨hinv', _, _, _, hgen', _, _⟩ := eraseEdge_spec s hd id e_h hinv hg he
      obtain ⟨ih1, ih2⟩ := ih _ _ _ hinv'
      exact ⟨ih1, hgen'.trans ih2⟩

/-- The consistency invariant only depends on the arena and the edge
weights: any graph with pointwise weight-equal edges keeps it. -/
theorem SetInv.with_graph (s : JointSet) (hinv : SetInv s) (nodes' : List (Node Nat))
    (edges' : List (Edge Joint))
    (hw : ∀ i : Nat, (edges'[i]?).map Edge.weight = (s.graph.edges[i]?).map Edge.weight) :
    SetInv ⟨s.joint_ids, ⟨nodes', edges'⟩⟩ := by
  constructor
  · exact hinv.wf
  · intro h i hgi
    obtain ⟨e, he, hh⟩ := hinv.to_edge h i hgi
    have := hw i
    rw [he] at this
    cases hx : edges'[i]? with
    | none =>
      rw [hx] at this
      cases this
    | some e' =>
      rw [hx] at this
      simp only [Option.map_some'] at this
      injection this with this
      exact ⟨e', rfl, by rw [this]; exact hh⟩
  · intro i e' he'
    have := hw i
    rw [he'] at this
    cases hx : s.graph.edges[i]? with
    | none =>
      rw [hx] at this
      cases this
    | some e =>
      rw [hx] at this
      simp only [Option.map_some'] at this
      injection this with this
      have hfe := hinv.from_edge i e hx
      show s.joint_ids.get e'.weight.handle = some i
      rw [this, hfe]

/-- Removing a node preserves the arena↔edge consistency invariant: node
removal rewrites only edge endpoints, never edge weights. -/
theorem setInv_remove_node (s : JointSet) (d : Nat) (hinv : SetInv s) :
    SetInv ⟨s.joint_ids, (s.graph.remove_node d).2⟩ := by
  unfold Graph.remove_node
  by_cases h1 : d < s.graph.nodes.length
  · rw [if_pos h1]
    by_cases h2 : d = s.graph.nodes.length - 1
    · rw [if_pos h2]
      exact hinv.with_graph _ _ _ (fun i => rfl)
    · rw [if_neg h2]
      cases hm : s.graph.nodes[s.graph.nodes.length - 1]? with
      | none => exact hinv
      | some m =>
        refine hinv.with_graph _ _ _ (fun i => ?_)
        rw [List.getElem?_map]
        cases s.graph.edges[i]? with
        | none => rfl
        | some e => rfl
  · rw [if_neg h1]
    exact hinv

/-- `remove_rigid_body` preserves the consistency invariant and never
decreases slot generations. -/
theorem remove_rigid_body_setInv (s : JointSet) (bs : BodyStore) (d : Nat)
    (hinv : SetInv s) :
    SetInv (remove_rigid_body s bs d).1 ∧
    Arena.GenLe s.joint_ids (remove_rigid_body s bs d).1.joint_ids := by
  unfold remove_rigid_body
  by_cases hv : is_graph_index_valid d
  · rw [if_pos hv]
    obtain ⟨hf1, hf2⟩ := foldl_removeStep_setInv
      ((s.graph.interactions_with d).map (fun x => (x.1, x.2.1, x.2.2.handle))) s bs [] hinv
    exact ⟨setInv_remove_node _ d hf1, hf2⟩
  · rw [if_neg hv]
    exact ⟨hinv, Arena.GenLe.refl _⟩

end JointSet

/-! ### Reachable states -/

/-- A joint-set state together with its body-storage collaborator. -/
structure SimState where
  set : JointSet
  bodies : BodyStore

/-- One mutating call on the joint set, as the simulation driver
performs them (spec.md §4.3): `insert` between two stored bodies (with
graph capacity for two more nodes, as the `u32`-indexed source assumes),
`remove` of an arbitrary handle, or `remove_rigid_body` on a stored
body's cached graph index followed by destruction of that body's
record. -/
inductive Step : SimState → SimState → Prop where
  | insert (st : SimState) (b1 b2 p : Nat) (rb1 rb2 : RigidBody)
      (hb1 : st.bodies b1 = some rb1) (hb2 : st.bodies b2 = some rb2)
      (hcap : st.set.graph.nodes.length + 2 ≤ INVALID_U32) :
      Step st ⟨(st.set.insert st.bodies b1 b2 p).1, (st.set.insert st.bodies b1 b2 p).2.1⟩
  | remove (st : SimState) (h : Index) (w : Bool) :
      Step st ⟨(st.set.remove st.bodies h w).2.1, (st.set.remove st.bodies h w).2.2.1⟩
  | remove_body (st : SimState) (b : Nat) (rb : RigidBody)
      (hb : st.bodies b = some rb) :
      Step st ⟨(st.set.remove_rigid_body st.bodies rb.joint_graph_index).1,
        eraseBody (st.set.remove_rigid_body st.bodies rb.joint_graph_index).2.1 b⟩

/-- The initial state: an empty joint set, and stored bodies that have
no graph presence yet (spec.md §3: a freshly-created body has the
sentinel cached index until its first joint). -/
def Init (st : SimState) : Prop :=
  st.set = JointSet.new ∧
  ∀ b rb, st.bodies b = some rb → rb.joint_graph_index = INVALID_U32

/-- A state reachable from some initial state by mutating calls. -/
def Reachable (st : SimState) : Prop :=
  ∃ st0, Init st0 ∧ Relation.ReflTransGen Step st0 st

/-- Every mutating call preserves the consistency invariant and never
decreases arena slot generations. -/
theorem Step.inv {st st' : SimState} (hs : Step st st')
    (hinv : JointSet.SetInv st.set) :
    JointSet.SetInv st'.set ∧ Arena.GenLe st.set.joint_ids st'.set.joint_ids := by
  cases hs with
  | insert b1 b2 p rb1 rb2 hb1 hb2 hcap =>
    obtain ⟨h1, h2, _, _, _⟩ := JointSet.insert_setInv st.set st.bodies b1 b2 p hinv
    exact ⟨h1, h2⟩
  | remove h w =>
    cases hg : st.set.joint_ids.get h with
    | none =>
      constructor
      · show JointSet.SetInv (st.set.remove st.bodies h w).2.1
        rw [JointSet.remove_eq_of_none st.set st.bodies h w hg]
        exact hinv
      · show Arena.GenLe st.set.joint_ids (st.set.remove st.bodies h w).2.1.joint_ids
        rw [JointSet.remove_eq_of_none st.set st.bodies h w hg]
        exact Arena.GenLe.refl _
    | some id =>
      obtain ⟨e_h, he, _⟩ := hinv.to_edge _ id hg
      obtain ⟨_, hset⟩ := JointSet.remove_eq_of_some st.set st.bodies h w id e_h hg he
      obtain ⟨hi, _, _, _, hgen, _, _⟩ := JointSet.eraseEdge_spec st.set h id e_h hinv hg he
      constructor
      · show JointSet.SetInv (st.set.remove st.bodies h w).2.1
        rw [hset]
        exact hi
      · show Arena.GenLe st.set.joint_ids (st.set.remove st.bodies h w).2.1.joint_ids
        rw [hset]
        exact hgen
  | remove_body b rb hb =>
    obtain ⟨h1, h2⟩ := JointSet.remove_rigid_body_setInv st.set st.bodies
      rb.joint_graph_index hinv
    exact ⟨h1, h2⟩

/-- Along any run, the invariant persists and generations never
decrease. -/
theorem steps_setInv {st st' : SimState} (h : Relation.ReflTransGen Step st st')
    (hinv : JointSet.SetInv st.set) :
    JointSet.SetInv st'.set ∧ Arena.GenLe st.set.joint_ids st'.set.joint_ids := by
  induction h with
  | refl => exact ⟨hinv, Arena.GenLe.refl _⟩
  | tail hsteps hstep ih =>
    obtain ⟨i1, g1⟩ := ih
    obtain ⟨i2, g2⟩ := hstep.inv i1
    exact ⟨i2, g1.trans g2⟩

/-- Every reachable state satisfies the consistency invariant. -/
theorem Reachable.setInv {st : SimState} (hr : Reachable st) :
    JointSet.SetInv st.set := by
  obtain ⟨st0, ⟨hinit, hbs⟩, hsteps⟩ := hr
  have h0 : JointSet.SetInv st0.set := by
    rw [hinit]
    exact JointSet.SetInv.new
  exact (steps_setInv hsteps h0).1

/-- Reachability is closed under runs. -/
theorem Reachable.extend {st st' : SimState} (hr : Reachable st)
    (h : Relation.ReflTransGen Step st st') : Reachable st' := by
  obtain ⟨st0, hinit, hsteps⟩ := hr
  exact ⟨st0, hinit, hsteps.trans h⟩


/-! ### A concrete run used by witnesses -/

/-- Four dynamic awake bodies with no graph presence. -/
def exampleBodies : BodyStore := fun b =>
  if b < 4 then some ⟨true, false, 0, INVALID_U32⟩ else none

/-- The initial example state. -/
def exampleInitState : SimState := ⟨JointSet.new, exampleBodies⟩

theorem exampleInit : Init exampleInitState := by
  constructor
  · rfl
  · intro b rb hb
    show rb.joint_graph_index = INVALID_U32
    have hbb : exampleBodies b = some rb := hb
    unfold exampleBodies at hbb
    by_cases hb4 : b < 4
    · rw [if_pos hb4] at hbb
      cases hbb
      rfl
    · rw [if_neg hb4] at hbb
      cases hbb

/-- The state after inserting one joint between bodies 0 and 1. -/
def exampleState1 : SimState :=
  ⟨(JointSet.new.insert exampleBodies 0 1 7).1,
   (JointSet.new.insert exampleBodies 0 1 7).2.1⟩

theorem exampleStep1 : Step exampleInitState exampleState1 :=
  Step.insert exampleInitState 0 1 7 ⟨true, false, 0, INVALID_U32⟩
    ⟨true, false, 0, INVALID_U32⟩ rfl rfl (by decide)

theorem exampleReachable1 : Reachable exampleState1 :=
  ⟨exampleInitState, exampleInit, Relation.ReflTransGen.single exampleStep1⟩

/-! ### Claim theorems -/

/-- C1: Bidirectional consistency invariant — in every state reachable
by any sequence of `insert`, `remove` and `remove_rigid_body` calls, for
every occupied arena slot mapping a handle `h` to an edge index `i`, the
graph edge stored at index `i` exists and its weight's handle field
equals `h`; this holds after every single mutating call, with no
eventually-consistent window. -/
theorem C1_bidirectional_consistency (st : SimState) (hr : Reachable st)
    (h : Index) (i : Nat) (hslot : st.set.joint_ids.get h = some i) :
    ∃ e, st.set.graph.edges[i]? = some e ∧ e.weight.handle = h :=
  hr.setInv.to_edge h i hslot

theorem C1_witness :
    Reachable exampleState1 ∧
    exampleState1.set.joint_ids.get ⟨0, 0⟩ = some 0 ∧
    ∃ e, exampleState1.set.graph.edges[0]? = some e ∧ e.weight.handle = ⟨0, 0⟩ :=
  ⟨exampleReachable1, by decide,
    C1_bidirectional_consistency exampleState1 exampleReachable1 ⟨0, 0⟩ 0 (by decide)⟩

/-- C10: `contains` and `get` agree on every handle in every reachable
state, even though `contains` consults only the arena while `get`
additionally requires the resolved graph edge to exist. -/
theorem C10_contains_agrees_get (st : SimState) (hr : Reachable st) (h : Index) :
    st.set.contains h = true ↔ (st.set.get h).isSome = true := by
  unfold JointSet.contains Arena.contains JointSet.get
  cases hg : st.set.joint_ids.get h with
  | none => simp
  | some i =>
    obtain ⟨e, he, _⟩ := hr.setInv.to_edge h i hg
    simp [Graph.edge_weight, he]

theorem C10_witness :
    Reachable exampleState1 ∧
    (exampleState1.set.contains ⟨0, 0⟩ = true ↔
      (exampleState1.set.get ⟨0, 0⟩).isSome = true) :=
  ⟨exampleReachable1, C10_contains_agrees_get exampleState1 exampleReachable1 ⟨0, 0⟩⟩

/-- C9: handle raw-parts round-trip — `from_raw_parts` applied to the
pair returned by `into_raw_parts` yields a structurally equal handle. -/
theorem C9_raw_parts_roundtrip (h : Index) :
    from_raw_parts (into_raw_parts h).1 (into_raw_parts h).2 = h := rfl

/-- C6: Idempotent absence — removing a live handle returns its joint
and an immediately following `remove` of the same handle returns `none`;
`get` on the invalid sentinel handle returns `none` in every reachable
state, and a generation-mismatching handle always yields `none`: absence
is an `Option` outcome, never a fatal error. -/
theorem C6_idempotent_absence (st : SimState) (hr : Reachable st)
    (bs' : BodyStore) (w w' : Bool) (h : Index) (j : Joint)
    (hlive : st.set.get h = some j) :
    (st.set.remove st.bodies h w).1 = some j ∧
    (((st.set.remove st.bodies h w).2.1).remove bs' h w').1 = none ∧
    st.set.get invalidHandle = none ∧
    (∀ (h' : Index) (g : Nat) (v : Nat),
      st.set.joint_ids.slots[h'.idx]? = some (Slot.occupied g v) → g ≠ h'.gen →
      st.set.get h' = none) := by
  have hinv := hr.setInv
  unfold JointSet.get at hlive
  cases hg : st.set.joint_ids.get h with
  | none =>
    rw [hg] at hlive
    cases hlive
  | some id =>
    rw [hg] at hlive
    simp only [Option.some_bind] at hlive
    unfold Graph.edge_weight at hlive
    cases he : st.set.graph.edges[id]? with
    | none =>
      rw [he] at hlive
      cases hlive
    | some e =>
      rw [he] at hlive
      simp only [Option.map_some'] at hlive
      injection hlive with hlive
      obtain ⟨hfst, hset⟩ := JointSet.remove_eq_of_some st.set st.bodies h w id e hg he
      obtain ⟨_, _, _, hdead, _, _, _⟩ := JointSet.eraseEdge_spec st.set h id e hinv hg he
      refine ⟨by rw [hfst, hlive], ?_, ?_, ?_⟩
      · rw [hset]
        have hnone : (st.set.eraseEdge h id).joint_ids.get h = none :=
          Arena.dead.get_none hdead
        rw [JointSet.remove_eq_of_none _ bs' h w' hnone]
      · unfold JointSet.get
        rw [Arena.get_invalid_none st.set.joint_ids hinv.wf]
        rfl
      · intro h' g v hslot hne
        unfold JointSet.get Arena.get
        rw [hslot]
        simp [hne]

theorem C6_witness :
    Reachable exampleState1 ∧
    exampleState1.set.get ⟨0, 0⟩ = some ⟨0, 1, ⟨0, 0⟩, 7⟩ ∧
    (exampleState1.set.remove exampleState1.bodies ⟨0, 0⟩ true).1 =
      some ⟨0, 1, ⟨0, 0⟩, 7⟩ ∧
    (((exampleState1.set.remove exampleState1.bodies ⟨0, 0⟩ true).2.1).remove
      exampleState1.bodies ⟨0, 0⟩ true).1 = none ∧
    exampleState1.set.get invalidHandle = none :=
  ⟨exampleReachable1, by decide,
    (C6_idempotent_absence exampleState1 exampleReachable1 exampleState1.bodies
      true true ⟨0, 0⟩ ⟨0, 1, ⟨0, 0⟩, 7⟩ (by decide)).1,
    (C6_idempotent_absence exampleState1 exampleReachable1 exampleState1.bodies
      true true ⟨0, 0⟩ ⟨0, 1, ⟨0, 0⟩, 7⟩ (by decide)).2.1,
    (C6_idempotent_absence exampleState1 exampleReachable1 exampleState1.bodies
      true true ⟨0, 0⟩ ⟨0, 1, ⟨0, 0⟩, 7⟩ (by decide)).2.2.1⟩

/-- The key permanence fact: a handle that once resolved and later does
not is dead — its slot generation has strictly advanced past the
handle's generation — so it can never resolve again. -/
theorem Arena.dead_of_gone {T : Type} {a a' : Arena T} {h : Index} {v : T}
    (hwa : a.WF) (hwa' : a'.WF) (hle : Arena.GenLe a a')
    (hget : a.get h = some v) (hget' : a'.get h = none) : a'.dead h := by
  rw [Arena.get_some_iff] at hget
  have hgen : a.genAt h.idx = some h.gen := by
    unfold Arena.genAt
    rw [hget]
    rfl
  have heven : Even h.gen := hwa.parity_occ h.idx h.gen v hget
  obtain ⟨g', hg', hle'⟩ := hle h.idx h.gen hgen
  by_cases hlt : h.gen < g'
  · exact ⟨g', hg', hlt⟩
  · have hgeq : g' = h.gen := by omega
    subst hgeq
    unfold Arena.genAt at hg'
    cases hs' : a'.slots[h.idx]? with
    | none =>
      rw [hs'] at hg'
      cases hg'
    | some sl =>
      rw [hs', Option.map_some'] at hg'
      injection hg' with hg'
      cases sl with
      | free g2 =>
        simp only [slotGen] at hg'
        have hodd : Odd g2 := hwa'.parity_free h.idx g2 hs'
        obtain ⟨k1, hk1⟩ := heven
        obtain ⟨k2, hk2⟩ := hodd
        exfalso
        omega
      | occupied g2 v2 =>
        simp only [slotGen] at hg'
        have hx : a'.get h = some v2 := by
          unfold Arena.get
          rw [hs']
          simp only []
          rw [if_pos hg']
        rw [hx] at hget'
        cases hget'

/-- The state after `remove_rigid_body` on body 0: its joint is gone,
body 1's node was relocated to index 0, and arena slot 0 was freed. -/
def exampleState2 : SimState :=
  ⟨(exampleState1.set.remove_rigid_body exampleState1.bodies 0).1,
   eraseBody (exampleState1.set.remove_rigid_body exampleState1.bodies 0).2.1 0⟩

theorem exampleStep2 : Step exampleState1 exampleState2 :=
  Step.remove_body exampleState1 0 ⟨true, false, 0, 0⟩ rfl

/-- The state after a further insert between bodies 1 and 2: it reuses
the freed arena slot 0, at generation 2. -/
def exampleState3 : SimState :=
  ⟨(exampleState2.set.insert exampleState2.bodies 1 2 9).1,
   (exampleState2.set.insert exampleState2.bodies 1 2 9).2.1⟩

theorem exampleStep3 : Step exampleState2 exampleState3 :=
  Step.insert exampleState2 1 2 9 ⟨true, false, 0, 0⟩ ⟨true, false, 0, INVALID_U32⟩
    rfl rfl (by decide)

/-- C5: Handle uniqueness over time — in every reachable state no two
live joints share a handle; once `remove` has returned a joint for a
handle, every later state (after any further calls, including slot
reuse) yields `none` for that handle from `get`, `get_mut` and `remove`;
and in general a handle that resolved at some reachable state and no
longer resolves at a later one — removed there by the explicit `remove`
or by `remove_rigid_body`'s cascading deletion, the only calls that kill
handles — yields `none` from `get`, `get_mut` and `remove` in every
state from then on, even after its slot index is reused. -/
theorem C5_handle_uniqueness (st : SimState) (hr : Reachable st) :
    (∀ (i j : Nat) (ei ej : Edge Joint), st.set.graph.edges[i]? = some ei →
      st.set.graph.edges[j]? = some ej → ei.weight.handle = ej.weight.handle → i = j) ∧
    (∀ (h : Index) (w : Bool) (j : Joint), (st.set.remove st.bodies h w).1 = some j →
      ∀ st', Relation.ReflTransGen Step
        ⟨(st.set.remove st.bodies h w).2.1, (st.set.remove st.bodies h w).2.2.1⟩ st' →
        st'.set.get h = none ∧ st'.set.get_mut h = none ∧
        (∀ (bs'' : BodyStore) (w'' : Bool), (st'.set.remove bs'' h w'').1 = none)) ∧
    (∀ (h : Index) (j : Joint) (st' st'' : SimState),
      st.set.get h = some j →
      Relation.ReflTransGen Step st st' →
      st'.set.get h = none →
      Relation.ReflTransGen Step st' st'' →
      st''.set.get h = none ∧ st''.set.get_mut h = none ∧
      (∀ (bs'' : BodyStore) (w'' : Bool), (st''.set.remove bs'' h w'').1 = none)) := by
  have hinv := hr.setInv
  refine ⟨?_, ?_, ?_⟩
  · intro i j ei ej hei hej hhe
    have h1 := hinv.from_edge i ei hei
    have h2 := hinv.from_edge j ej hej
    rw [hhe] at h1
    rw [h1] at h2
    injection h2 with h2
  · intro h w j hrm st' hsteps
    cases hg : st.set.joint_ids.get h with
    | none =>
      rw [JointSet.remove_eq_of_none st.set st.bodies h w hg] at hrm
      cases hrm
    | some id =>
      obtain ⟨e, he, _⟩ := hinv.to_edge h id hg
      obtain ⟨_, hset⟩ := JointSet.remove_eq_of_some st.set st.bodies h w id e hg he
      obtain ⟨hinv1, _, _, hdead, _, _, _⟩ :=
        JointSet.eraseEdge_spec st.set h id e hinv hg he
      have hst1 : Reachable ⟨(st.set.remove st.bodies h w).2.1,
          (st.set.remove st.bodies h w).2.2.1⟩ :=
        hr.extend (Relation.ReflTransGen.single (Step.remove st h w))
      have hgenle : Arena.GenLe (st.set.remove st.bodies h w).2.1.joint_ids
          st'.set.joint_ids := (steps_setInv hsteps hst1.setInv).2
      have hdead1 : (st.set.remove st.bodies h w).2.1.joint_ids.dead h := by
        rw [hset]
        exact hdead
      have hdead' : st'.set.joint_ids.dead h := hdead1.mono hgenle
      have hnone : st'.set.joint_ids.get h = none := Arena.dead.get_none hdead'
      refine ⟨?_, ?_, ?_⟩
      · unfold JointSet.get
        rw [hnone]
        rfl
      · unfold JointSet.get_mut
        rw [hnone]
        rfl
      · intro bs'' w''
        rw [JointSet.remove_eq_of_none st'.set bs'' h w'' hnone]
  · intro h j st' st'' hget hsteps1 hgone hsteps2
    have hst' : Reachable st' := hr.extend hsteps1
    have hinv' := hst'.setInv
    have hgenle1 : Arena.GenLe st.set.joint_ids st'.set.joint_ids :=
      (steps_setInv hsteps1 hinv).2
    obtain ⟨id, hg⟩ : ∃ id, st.set.joint_ids.get h = some id := by
      unfold JointSet.get at hget
      cases hg0 : st.set.joint_ids.get h with
      | none =>
        rw [hg0] at hget
        cases hget
      | some id => exact ⟨id, rfl⟩
    have hg' : st'.set.joint_ids.get h = none := by
      cases hg1 : st'.set.joint_ids.get h with
      | none => rfl
      | some id' =>
        obtain ⟨e, he, _⟩ := hinv'.to_edge h id' hg1
        have hx : st'.set.get h = some e.weight := by
          unfold JointSet.get
          rw [hg1]
          simp only [Option.some_bind]
          unfold Graph.edge_weight
          rw [he]
          rfl
        rw [hx] at hgone
        cases hgone
    have hdead' : st'.set.joint_ids.dead h :=
      Arena.dead_of_gone hinv.wf hinv'.wf hgenle1 hg hg'
    have hgenle2 : Arena.GenLe st'.set.joint_ids st''.set.joint_ids :=
      (steps_setInv hsteps2 hinv').2
    have hnone : st''.set.joint_ids.get h = none :=
      Arena.dead.get_none (hdead'.mono hgenle2)
    refine ⟨?_, ?_, ?_⟩
    · unfold JointSet.get
      rw [hnone]
      rfl
    · unfold JointSet.get_mut
      rw [hnone]
      rfl
    · intro bs'' w''
      rw [JointSet.remove_eq_of_none st''.set bs'' h w'' hnone]

theorem C5_witness :
    Reachable exampleState1 ∧
    (exampleState1.set.remove exampleState1.bodies ⟨0, 0⟩ false).1 =
      some ⟨0, 1, ⟨0, 0⟩, 7⟩ ∧
    ((⟨(exampleState1.set.remove exampleState1.bodies ⟨0, 0⟩ false).2.1,
       (exampleState1.set.remove exampleState1.bodies ⟨0, 0⟩ false).2.2.1⟩ :
       SimState).set.get ⟨0, 0⟩ = none) ∧
    exampleState1.set.get ⟨0, 0⟩ = some ⟨0, 1, ⟨0, 0⟩, 7⟩ ∧
    exampleState2.set.get ⟨0, 0⟩ = none ∧
    exampleState3.set.joint_ids.get ⟨0, 2⟩ = some 0 ∧
    exampleState3.set.get ⟨0, 0⟩ = none ∧
    exampleState3.set.get_mut ⟨0, 0⟩ = none ∧
    (∀ (bs'' : BodyStore) (w'' : Bool),
      (exampleState3.set.remove bs'' ⟨0, 0⟩ w'').1 = none) := by
  have happ := (C5_handle_uniqueness exampleState1 exampleReachable1).2.2 ⟨0, 0⟩
    ⟨0, 1, ⟨0, 0⟩, 7⟩ exampleState2 exampleState3 (by decide)
    (Relation.ReflTransGen.single exampleStep2) (by decide)
    (Relation.ReflTransGen.single exampleStep3)
  exact ⟨exampleReachable1, by decide,
    ((C5_handle_uniqueness exampleState1 exampleReachable1).2.1 ⟨0, 0⟩ false
      ⟨0, 1, ⟨0, 0⟩, 7⟩ (by decide) _ Relation.ReflTransGen.refl).1,
    by decide, by decide, by decide, happ.1, happ.2.1, happ.2.2⟩


/-! ### Island selection: characterization -/

namespace JointSet

theorem selStep_length (bs : BodyStore) (acc : List (List Nat)) (p : Nat × Edge Joint) :
    (selStep bs acc p).length = acc.length := by
  unfold selStep
  split
  · rw [List.length_set]
  · rfl

theorem select_foldl_length (bs : BodyStore) (l : List (Nat × Edge Joint))
    (acc : List (List Nat)) : (l.foldl (selStep bs) acc).length = acc.length := by
  induction l generalizing acc with
  | nil => rfl
  | cons p rest ih =>
    rw [List.foldl_cons, ih, selStep_length]

/-- Each bucket of the scan result is its starting contents followed by
the indices of the scanned joints that qualify and target it, in scan
order. -/
theorem select_foldl_getD (bs : BodyStore) (l : List (Nat × Edge Joint))
    (acc : List (List Nat)) (k : Nat)
    (hbound : ∀ p ∈ l, selCond bs p.2.weight = true → selIsland bs p.2.weight < acc.length) :
    (l.foldl (selStep bs) acc).getD k [] =
      acc.getD k [] ++
        (l.filter (fun p => selCond bs p.2.weight &&
          (selIsland bs p.2.weight == k))).map (fun p => p.1) := by
  induction l generalizing acc with
  | nil => simp
  | cons p rest ih =>
    rw [List.foldl_cons, List.filter_cons]
    by_cases hc : selCond bs p.2.weight = true
    · have hisl : selIsland bs p.2.weight < acc.length :=
        hbound p (List.mem_cons_self p rest) hc
      have hstep : selStep bs acc p =
          acc.set (selIsland bs p.2.weight)
            (acc.getD (selIsland bs p.2.weight) [] ++ [p.1]) := by
        unfold selStep
        rw [if_pos hc]
      rw [hstep, ih _ (fun q hq hcq => by
        rw [List.length_set]
        exact hbound q (List.mem_cons_of_mem p hq) hcq)]
      by_cases hk : selIsland bs p.2.weight = k
      · have hset : (acc.set (selIsland bs p.2.weight)
            (acc.getD (selIsland bs p.2.weight) [] ++ [p.1])).getD k [] =
            acc.getD k [] ++ [p.1] := by
          rw [← hk, List.getD_eq_getElem?_getD, List.getElem?_set_self hisl]
          rfl
        have hcond : (selCond bs p.2.weight && (selIsland bs p.2.weight == k)) = true := by
          rw [hc, hk]
          simp
        rw [hset, hcond, if_pos rfl, List.map_cons, List.append_assoc,
          List.singleton_append]
      · have hset : (acc.set (selIsland bs p.2.weight)
            (acc.getD (selIsland bs p.2.weight) [] ++ [p.1])).getD k [] =
            acc.getD k [] := by
          rw [List.getD_eq_getElem?_getD, List.getElem?_set_ne hk, List.getD_eq_getElem?_getD]
        have hcond : (selCond bs p.2.weight && (selIsland bs p.2.weight == k)) = false := by
          simp [hk]
        rw [hset, hcond, if_neg Bool.false_ne_true]
    · have hstep : selStep bs acc p = acc := by
        unfold selStep
        rw [if_neg hc]
      have hcf : selCond bs p.2.weight = false := by
        revert hc
        cases selCond bs p.2.weight <;> simp
      have hcond : (selCond bs p.2.weight && (selIsland bs p.2.weight == k)) = false := by
        rw [hcf]
        simp
      rw [hstep, hcond, if_neg Bool.false_ne_true]
      exact ih acc (fun q hq hcq => hbound q (List.mem_cons_of_mem p hq) hcq)

/-- The cleared prefix: buckets `0 .. num_islands-1` start empty. -/
theorem cleared_getD_lt (out : List (List Nat)) (ni k : Nat) (hk : k < ni) :
    ((out.enum.map (fun p => if p.1 < ni then [] else p.2)) :
      List (List Nat)).getD k [] = [] := by
  rw [List.getD_eq_getElem?_getD, List.getElem?_map, List.getElem?_enum]
  cases ho : out[k]? with
  | none => rfl
  | some v => simp [hk]

/-- Buckets at or beyond `num_islands` keep their prior contents in the
cleared list. -/
theorem cleared_getD_ge (out : List (List Nat)) (ni k : Nat) (hk : ni ≤ k) :
    ((out.enum.map (fun p => if p.1 < ni then [] else p.2)) :
      List (List Nat)).getD k [] = out.getD k [] := by
  rw [List.getD_eq_getElem?_getD, List.getElem?_map, List.getElem?_enum,
    List.getD_eq_getElem?_getD]
  cases ho : out[k]? with
  | none => rfl
  | some v => simp [Nat.not_lt.mpr hk]

end JointSet

/-- C2's qualification predicate, stated as the claim words it: at least
one of the two endpoint bodies is dynamic, and no dynamic endpoint is
sleeping. -/
def jointQualifies (bs : BodyStore) (j : Joint) : Prop :=
  ((getBody bs j.body1).dynamic = true ∨ (getBody bs j.body2).dynamic = true) ∧
  ((getBody bs j.body1).dynamic = true → (getBody bs j.body1).sleeping = false) ∧
  ((getBody bs j.body2).dynamic = true → (getBody bs j.body2).sleeping = false)

/-- C2's destination island, stated as the claim words it: the first
body's active island when the first body is dynamic, otherwise the
second body's. -/
def jointIsland (bs : BodyStore) (j : Joint) : Nat :=
  if (getBody bs j.body1).dynamic = true then (getBody bs j.body1).active_island_id
  else (getBody bs j.body2).active_island_id

theorem selCond_iff (bs : BodyStore) (j : Joint) :
    JointSet.selCond bs j = true ↔ jointQualifies bs j := by
  unfold JointSet.selCond jointQualifies
  cases h1 : (getBody bs j.body1).dynamic <;>
    cases h2 : (getBody bs j.body2).dynamic <;>
      cases h3 : (getBody bs j.body1).sleeping <;>
        cases h4 : (getBody bs j.body2).sleeping <;> simp

theorem selIsland_eq (bs : BodyStore) (j : Joint) :
    JointSet.selIsland bs j = jointIsland bs j := by
  unfold JointSet.selIsland jointIsland
  cases h1 : (getBody bs j.body1).dynamic <;> simp

/-- A body whose record reads as dynamic is actually stored. -/
theorem dynamic_is_stored (bs : BodyStore) (b : Nat)
    (hd : (getBody bs b).dynamic = true) : bs b = some (getBody bs b) := by
  unfold getBody at *
  cases hb : bs b with
  | none =>
    rw [hb] at hd
    simp [defaultBody] at hd
  | some rb => rfl

/-- Under the island-manager contract, a qualifying joint's destination
island is in range. -/
theorem selIsland_lt (bs : BodyStore) (j : Joint) (ni : Nat)
    (hisl : ∀ b rb, bs b = some rb → rb.active_island_id < ni)
    (hc : JointSet.selCond bs j = true) : JointSet.selIsland bs j < ni := by
  unfold JointSet.selIsland
  by_cases h1 : (getBody bs j.body1).dynamic = true
  · rw [h1]
    simp only [Bool.not_true, Bool.false_eq_true, if_false]
    exact hisl _ _ (dynamic_is_stored bs j.body1 h1)
  · have h1f : (getBody bs j.body1).dynamic = false := by
      revert h1
      cases (getBody bs j.body1).dynamic <;> simp
    have h2 : (getBody bs j.body2).dynamic = true := by
      unfold JointSet.selCond at hc
      rw [h1f] at hc
      revert hc
      cases (getBody bs j.body2).dynamic <;> simp
    rw [h1f]
    simp only [Bool.not_false, if_true]
    exact hisl _ _ (dynamic_is_stored bs j.body2 h2)

/-- The bucket contents of `select_active_interactions` for an in-range
island: exactly the qualifying joints targeting it, in edge order. -/
theorem select_bucket_eq (s : JointSet) (bs : BodyStore) (out : List (List Nat))
    (ni k : Nat) (hout : ni ≤ out.length) (hk : k < ni)
    (hisl : ∀ b rb, bs b = some rb → rb.active_island_id < ni) :
    (s.select_active_interactions ni bs out).getD k [] =
      (s.graph.edges.enum.filter (fun p => JointSet.selCond bs p.2.weight &&
        (JointSet.selIsland bs p.2.weight == k))).map (fun p => p.1) := by
  unfold JointSet.select_active_interactions
  rw [JointSet.select_foldl_getD bs _ _ k (fun p hp hc => by
    rw [List.length_map, List.enum_length]
    exact Nat.lt_of_lt_of_le (selIsland_lt bs p.2.weight ni hisl hc) hout)]
  rw [JointSet.cleared_getD_lt out ni k hk]
  rfl

/-- The example bodies all live in island 0. -/
theorem exampleIslBound : ∀ b rb, exampleBodies b = some rb → rb.active_island_id < 1 := by
  intro b rb hb
  have hbb : exampleBodies b = some rb := hb
  unfold exampleBodies at hbb
  by_cases h4 : b < 4
  · rw [if_pos h4] at hbb
    cases hbb
    decide
  · rw [if_neg h4] at hbb
    cases hbb

/-- C2: Island selection predicate — for every edge `e` at index `i`,
`select_active_interactions` puts `i` into bucket `k` (for any in-range
island `k`) precisely when the joint qualifies (at least one endpoint
body is dynamic and no dynamic endpoint is sleeping) and `k` is the
active-island id of the first body if the first body is dynamic,
otherwise of the second body. -/
theorem C2_island_selection (s : JointSet) (bs : BodyStore) (out : List (List Nat))
    (ni : Nat) (hout : ni ≤ out.length)
    (hisl : ∀ b rb, bs b = some rb → rb.active_island_id < ni)
    (i : Nat) (e : Edge Joint) (he : s.graph.edges[i]? = some e) (k : Nat) (hk : k < ni) :
    i ∈ (s.select_active_interactions ni bs out).getD k [] ↔
      (jointQualifies bs e.weight ∧ jointIsland bs e.weight = k) := by
  rw [select_bucket_eq s bs out ni k hout hk hisl]
  constructor
  · intro hmem
    obtain ⟨p, hp, hpi⟩ := List.mem_map.mp hmem
    obtain ⟨hpe, hpc⟩ := List.mem_filter.mp hp
    have hpget : s.graph.edges[p.1]? = some p.2 := List.mem_enum_iff_getElem?.mp hpe
    rw [hpi, he] at hpget
    injection hpget with hpe2
    rw [Bool.and_eq_true, beq_iff_eq] at hpc
    rw [hpe2]
    exact ⟨(selCond_iff bs p.2.weight).mp hpc.1, by rw [← selIsland_eq]; exact hpc.2⟩
  · rintro ⟨hq, hki⟩
    refine List.mem_map.mpr ⟨(i, e), List.mem_filter.mpr
      ⟨List.mem_enum_iff_getElem?.mpr he, ?_⟩, rfl⟩
    rw [Bool.and_eq_true, beq_iff_eq]
    exact ⟨(selCond_iff bs e.weight).mpr hq, by rw [selIsland_eq]; exact hki⟩

theorem C2_witness :
    (1 ≤ ([[5], [9]] : List (List Nat)).length) ∧
    exampleState1.set.graph.edges[0]? = some ⟨0, 1, ⟨0, 1, ⟨0, 0⟩, 7⟩⟩ ∧
    (0 ∈ (exampleState1.set.select_active_interactions 1 exampleBodies
        [[5], [9]]).getD 0 [] ↔
      (jointQualifies exampleBodies (⟨0, 1, ⟨0, 0⟩, 7⟩ : Joint) ∧
        jointIsland exampleBodies (⟨0, 1, ⟨0, 0⟩, 7⟩ : Joint) = 0)) :=
  ⟨by decide, by decide,
    C2_island_selection exampleState1.set exampleBodies [[5], [9]] 1 (by decide)
      exampleIslBound 0 ⟨0, 1, ⟨0, 1, ⟨0, 0⟩, 7⟩⟩ (by decide) 0 (by decide)⟩

/-- C8: Selection frame condition — `select_active_interactions` keeps
the output vector's length; buckets at positions at or beyond
`num_islands` keep their prior contents; buckets below `num_islands` are
cleared and repopulated, their final contents depending only on the
joint set and bodies, not on prior contents.  (The joint set itself is
untouched: the embedding's `select_active_interactions`, like the
source's `&self` receiver, returns only the output vector.) -/
theorem C8_selection_frame (s : JointSet) (bs : BodyStore) (out : List (List Nat))
    (ni : Nat) (hout : ni ≤ out.length)
    (hisl : ∀ b rb, bs b = some rb → rb.active_island_id < ni) :
    (s.select_active_interactions ni bs out).length = out.length ∧
    (∀ k, ni ≤ k →
      (s.select_active_interactions ni bs out).getD k [] = out.getD k []) ∧
    (∀ k, k < ni →
      (s.select_active_interactions ni bs out).getD k [] =
        (s.graph.edges.enum.filter (fun p => JointSet.selCond bs p.2.weight &&
          (JointSet.selIsland bs p.2.weight == k))).map (fun p => p.1)) := by
  refine ⟨?_, ?_, ?_⟩
  · unfold JointSet.select_active_interactions
    rw [JointSet.select_foldl_length]
    rw [List.length_map, List.enum_length]
  · intro k hk
    unfold JointSet.select_active_interactions
    rw [JointSet.select_foldl_getD bs _ _ k (fun p hp hc => by
      rw [List.length_map, List.enum_length]
      exact Nat.lt_of_lt_of_le (selIsland_lt bs p.2.weight ni hisl hc) hout)]
    rw [JointSet.cleared_getD_ge out ni k hk]
    have hfe : (s.graph.edges.enum.filter (fun p => JointSet.selCond bs p.2.weight &&
        (JointSet.selIsland bs p.2.weight == k))) = [] := by
      rw [List.filter_eq_nil_iff]
      intro p hp
      rw [Bool.and_eq_true, beq_iff_eq]
      rintro ⟨hc, hik⟩
      have := selIsland_lt bs p.2.weight ni hisl hc
      omega
    rw [hfe]
    simp
  · intro k hk
    exact select_bucket_eq s bs out ni k hout hk hisl

theorem C8_witness :
    (1 ≤ ([[5], [9]] : List (List Nat)).length) ∧
    (∀ b rb, exampleBodies b = some rb → rb.active_island_id < 1) ∧
    (exampleState1.set.select_active_interactions 1 exampleBodies [[5], [9]]).getD 1 [] =
      ([[5], [9]] : List (List Nat)).getD 1 [] :=
  ⟨by decide, exampleIslBound,
    (C8_selection_frame exampleState1.set exampleBodies [[5], [9]] 1 (by decide)
      exampleIslBound).2.1 1 (by decide)⟩


/-! ### Node creation and preservation facts -/

namespace Graph

theorem remove_edge_nodes {N E : Type} (g : Graph N E) (i : Nat) :
    (g.remove_edge i).2.nodes = g.nodes := by
  unfold remove_edge
  cases g.edges[i]? <;> rfl

theorem remove_node_length {N E : Type} (g : Graph N E) (i : Nat) :
    (g.remove_node i).2.nodes.length ≤ g.nodes.length := by
  unfold remove_node
  by_cases h1 : i < g.nodes.length
  · rw [if_pos h1]
    by_cases h2 : i = g.nodes.length - 1
    · rw [if_pos h2]
      simp
    · rw [if_neg h2]
      cases g.nodes[g.nodes.length - 1]? with
      | none => exact Nat.le_refl _
      | some m => simp
  · rw [if_neg h1]

end Graph

namespace JointSet

theorem eraseEdge_nodes (s : JointSet) (h : Index) (id : Nat) :
    (eraseEdge s h id).graph.nodes = s.graph.nodes := by
  unfold eraseEdge
  exact Graph.remove_edge_nodes s.graph id

/-- `remove` on an arena-resolved but graph-absent edge index (the
defensive second absence source of `get`): the arena slot is freed and
nothing else changes. -/
theorem remove_eq_of_noedge (s : JointSet) (bs : BodyStore) (h : Index) (w : Bool)
    (id : Nat) (hid : s.joint_ids.get h = some id)
    (he : s.graph.edges[id]? = none) :
    remove s bs h w = (none, ⟨(s.joint_ids.remove h).2, s.graph⟩, bs, []) := by
  have hep : s.graph.edge_endpoints id = none := by
    unfold Graph.edge_endpoints
    rw [he]
    rfl
  unfold remove
  rw [Arena.remove_fst, hid]
  simp only []
  rw [hep]

/-- `remove` never touches the node array. -/
theorem remove_nodes (s : JointSet) (bs : BodyStore) (h : Index) (w : Bool) :
    ((s.remove bs h w).2.1).graph.nodes = s.graph.nodes := by
  cases hg : s.joint_ids.get h with
  | none => rw [remove_eq_of_none s bs h w hg]
  | some id =>
    cases he : s.graph.edges[id]? with
    | none => rw [remove_eq_of_noedge s bs h w id hg he]
    | some e_h =>
      obtain ⟨_, hset⟩ := remove_eq_of_some s bs h w id e_h hg he
      rw [hset]
      exact eraseEdge_nodes s h id

/-- The deletion loop of `remove_rigid_body` never touches the node
array. -/
theorem foldl_removeStep_nodes (L : List (Nat × Nat × Index)) (s : JointSet)
    (bs : BodyStore) (log : List Nat) :
    (L.foldl removeStep (s, bs, log)).1.graph.nodes = s.graph.nodes := by
  induction L generalizing s bs log with
  | nil => rfl
  | cons item rest ih =>
    obtain ⟨h1, h2, hd⟩ := item
    rw [List.foldl_cons]
    cases hg : s.joint_ids.get hd with
    | none =>
      rw [removeStep_eq_none s bs log h1 h2 hd hg]
      exact ih s bs log
    | some id =>
      rw [removeStep_eq_some s bs log h1 h2 hd id hg]
      rw [ih _ _ _]
      exact eraseEdge_nodes s hd id

/-- `remove_rigid_body` never grows the node array. -/
theorem remove_rigid_body_nodes_le (s : JointSet) (bs : BodyStore) (d : Nat) :
    ((s.remove_rigid_body bs d).1).graph.nodes.length ≤ s.graph.nodes.length := by
  unfold remove_rigid_body
  by_cases hv : is_graph_index_valid d
  · rw [if_pos hv]
    show ((((s.graph.interactions_with d).map (fun x => (x.1, x.2.1, x.2.2.handle))).foldl
      removeStep (s, bs, [])).1.graph.remove_node d).2.nodes.length ≤ s.graph.nodes.length
    calc ((((s.graph.interactions_with d).map
            (fun x => (x.1, x.2.1, x.2.2.handle))).foldl removeStep
            (s, bs, [])).1.graph.remove_node d).2.nodes.length
        ≤ (((s.graph.interactions_with d).map (fun x => (x.1, x.2.1, x.2.2.handle))).foldl
            removeStep (s, bs, [])).1.graph.nodes.length :=
          Graph.remove_node_length _ d
      _ = s.graph.nodes.length := by rw [foldl_removeStep_nodes]
  · rw [if_neg hv]

end JointSet

/-- C7: Lazy node creation on insert — `insert` is total and returns the
freshly allocated handle; for each of the two bodies, a graph node is
appended exactly when that body's cached graph index is invalid, and the
new index is written back into that body's cached graph-index field
(bodies with a valid cached index get no new node and keep their
record); and no other operation creates graph nodes: `remove` leaves the
node array untouched and `remove_rigid_body` never grows it. -/
theorem C7_lazy_node_creation (s : JointSet) (bs : BodyStore) (b1 b2 p : Nat) :
    (s.insert bs b1 b2 p).2.2 = (s.joint_ids.insert 0).2 ∧
    (is_graph_index_valid (getBody bs b1).joint_graph_index = true →
      is_graph_index_valid (getBody bs b2).joint_graph_index = true →
      (s.insert bs b1 b2 p).1.graph.nodes = s.graph.nodes ∧
      (s.insert bs b1 b2 p).2.1 = bs) ∧
    (is_graph_index_valid (getBody bs b1).joint_graph_index = true →
      is_graph_index_valid (getBody bs b2).joint_graph_index = false →
      (s.insert bs b1 b2 p).1.graph.nodes = s.graph.nodes ++ [⟨b2⟩] ∧
      (s.insert bs b1 b2 p).2.1 = setGraphIndex bs b2 s.graph.nodes.length) ∧
    (is_graph_index_valid (getBody bs b1).joint_graph_index = false →
      is_graph_index_valid (getBody bs b2).joint_graph_index = true →
      (s.insert bs b1 b2 p).1.graph.nodes = s.graph.nodes ++ [⟨b1⟩] ∧
      (s.insert bs b1 b2 p).2.1 = setGraphIndex bs b1 s.graph.nodes.length) ∧
    (is_graph_index_valid (getBody bs b1).joint_graph_index = false →
      is_graph_index_valid (getBody bs b2).joint_graph_index = false →
      (s.insert bs b1 b2 p).1.graph.nodes = s.graph.nodes ++ [⟨b1⟩, ⟨b2⟩] ∧
      (s.insert bs b1 b2 p).2.1 =
        setGraphIndex (setGraphIndex bs b1 s.graph.nodes.length) b2
          (s.graph.nodes.length + 1)) ∧
    (∀ (bs' : BodyStore) (h : Index) (w : Bool),
      ((s.remove bs' h w).2.1).graph.nodes = s.graph.nodes) ∧
    (∀ (bs' : BodyStore) (d : Nat),
      ((s.remove_rigid_body bs' d).1).graph.nodes.length ≤ s.graph.nodes.length) := by
  refine ⟨?_, ?_, ?_, ?_, ?_,
    (fun bs' h w => JointSet.remove_nodes s bs' h w),
    (fun bs' d => JointSet.remove_rigid_body_nodes_le s bs' d)⟩
  · exact (JointSet.insert_components s bs b1 b2 p).1
  · intro h1 h2
    constructor <;>
      simp [JointSet.insert, h1, h2, Graph.add_node, Graph.add_edge]
  · intro h1 h2
    constructor <;>
      simp [JointSet.insert, h1, h2, Graph.add_node, Graph.add_edge]
  · intro h1 h2
    constructor <;>
      simp [JointSet.insert, h1, h2, Graph.add_node, Graph.add_edge]
  · intro h1 h2
    constructor <;>
      simp [JointSet.insert, h1, h2, Graph.add_node, Graph.add_edge]

theorem C7_witness :
    is_graph_index_valid (getBody exampleBodies 0).joint_graph_index = false ∧
    is_graph_index_valid (getBody exampleBodies 1).joint_graph_index = false ∧
    ((JointSet.new.insert exampleBodies 0 1 7).1.graph.nodes =
        JointSet.new.graph.nodes ++ [⟨0⟩, ⟨1⟩] ∧
      (JointSet.new.insert exampleBodies 0 1 7).2.1 =
        setGraphIndex (setGraphIndex exampleBodies 0 JointSet.new.graph.nodes.length) 1
          (JointSet.new.graph.nodes.length + 1)) :=
  ⟨by decide, by decide,
    (C7_lazy_node_creation JointSet.new exampleBodies 0 1 7).2.2.2.2.1
      (by decide) (by decide)⟩


/-- C3: Relocation repair — for any three joints A, B, C inserted in that
order into an empty `JointSet` (arbitrary bodies and parameters), after
removing B's handle, `get` on A's original handle returns joint A and
`get` on C's original handle returns joint C, despite the swap-remove
relocation of the last edge. -/
theorem C3_relocation_repair
    (bs0 bs1 bs2 bs3 : BodyStore) (s1 s2 s3 : JointSet)
    (hA hB hC : Index) (b1 b2 b3 b4 b5 b6 p1 p2 p3 : Nat) (w : Bool)
    (h1 : JointSet.new.insert bs0 b1 b2 p1 = (s1, bs1, hA))
    (h2 : s1.insert bs1 b3 b4 p2 = (s2, bs2, hB))
    (h3 : s2.insert bs2 b5 b6 p3 = (s3, bs3, hC)) :
    (s3.remove bs3 hB w).2.1.get hA = some ⟨b1, b2, hA, p1⟩ ∧
    (s3.remove bs3 hB w).2.1.get hC = some ⟨b5, b6, hC, p3⟩ := by
  obtain ⟨hh1, ha1, na1, nb1, he1⟩ := JointSet.insert_components JointSet.new bs0 b1 b2 p1
  rw [h1] at hh1 ha1 he1
  have hA_eq : hA = ⟨0, 0⟩ := hh1
  have ha1' : s1.joint_ids = (⟨[Slot.occupied 0 0], []⟩ : Arena Nat) := ha1
  have he1' : s1.graph.edges = [⟨na1, nb1, ⟨b1, b2, hA, p1⟩⟩] := by
    rw [hA_eq]
    exact he1
  obtain ⟨hh2, ha2, na2, nb2, he2⟩ := JointSet.insert_components s1 bs1 b3 b4 p2
  rw [h2] at hh2 ha2 he2
  have hB_eq : hB = ⟨1, 0⟩ := by
    have hx : hB = (s1.joint_ids.insert 0).2 := hh2
    rw [ha1'] at hx
    exact hx
  have ha2' : s2.joint_ids =
      (⟨[Slot.occupied 0 0, Slot.occupied 0 1], []⟩ : Arena Nat) := by
    have hx : s2.joint_ids =
        (s1.joint_ids.insert 0).1.setVal (s1.joint_ids.insert 0).2
          s1.graph.edges.length := ha2
    rw [ha1', he1'] at hx
    exact hx
  have he2' : s2.graph.edges =
      [⟨na1, nb1, ⟨b1, b2, hA, p1⟩⟩, ⟨na2, nb2, ⟨b3, b4, hB, p2⟩⟩] := by
    have hx : s2.graph.edges =
        s1.graph.edges ++ [⟨na2, nb2, ⟨b3, b4, (s1.joint_ids.insert 0).2, p2⟩⟩] := he2
    rw [he1', ha1'] at hx
    rw [hB_eq]
    exact hx
  obtain ⟨hh3, ha3, na3, nb3, he3⟩ := JointSet.insert_components s2 bs2 b5 b6 p3
  rw [h3] at hh3 ha3 he3
  have hC_eq : hC = ⟨2, 0⟩ := by
    have hx : hC = (s2.joint_ids.insert 0).2 := hh3
    rw [ha2'] at hx
    exact hx
  have ha3' : s3.joint_ids =
      (⟨[Slot.occupied 0 0, Slot.occupied 0 1, Slot.occupied 0 2], []⟩ : Arena Nat) := by
    have hx : s3.joint_ids =
        (s2.joint_ids.insert 0).1.setVal (s2.joint_ids.insert 0).2
          s2.graph.edges.length := ha3
    rw [ha2', he2'] at hx
    exact hx
  have he3' : s3.graph.edges =
      [⟨na1, nb1, ⟨b1, b2, hA, p1⟩⟩, ⟨na2, nb2, ⟨b3, b4, hB, p2⟩⟩,
        ⟨na3, nb3, ⟨b5, b6, hC, p3⟩⟩] := by
    have hx : s3.graph.edges =
        s2.graph.edges ++ [⟨na3, nb3, ⟨b5, b6, (s2.joint_ids.insert 0).2, p3⟩⟩] := he3
    rw [he2', ha2'] at hx
    rw [hC_eq]
    exact hx
  have hget : s3.joint_ids.get hB = some 1 := by
    rw [hB_eq, ha3']
    rfl
  have hedge : s3.graph.edges[1]? = some ⟨na2, nb2, ⟨b3, b4, hB, p2⟩⟩ := by
    rw [he3']
    rfl
  obtain ⟨_, hset⟩ := JointSet.remove_eq_of_some s3 bs3 hB w 1 _ hget hedge
  rw [hset]
  have hea : (s3.eraseEdge hB 1).joint_ids =
      (⟨[Slot.occupied 0 0, Slot.free 1, Slot.occupied 0 1], [1]⟩ : Arena Nat) := by
    show (JointSet.repairAfterRemove (s3.joint_ids.remove hB).2
      (s3.graph.remove_edge 1).2 1) = _
    unfold JointSet.repairAfterRemove Graph.remove_edge Graph.edge_weight
    rw [hB_eq, ha3', he3', hC_eq]
    rfl
  have heg : (s3.eraseEdge hB 1).graph.edges =
      [⟨na1, nb1, ⟨b1, b2, hA, p1⟩⟩, ⟨na3, nb3, ⟨b5, b6, hC, p3⟩⟩] := by
    show (s3.graph.remove_edge 1).2.edges = _
    unfold Graph.remove_edge
    rw [he3']
    rfl
  constructor
  · show ((s3.eraseEdge hB 1).joint_ids.get hA).bind
      (fun id => (s3.eraseEdge hB 1).graph.edge_weight id) = _
    unfold Graph.edge_weight
    rw [hea, heg, hA_eq]
    rfl
  · show ((s3.eraseEdge hB 1).joint_ids.get hC).bind
      (fun id => (s3.eraseEdge hB 1).graph.edge_weight id) = _
    unfold Graph.edge_weight
    rw [hea, heg, hC_eq]
    rfl

theorem C3_witness :
    (JointSet.new.insert exampleBodies 0 1 10 =
      ((JointSet.new.insert exampleBodies 0 1 10).1,
       (JointSet.new.insert exampleBodies 0 1 10).2.1,
       (JointSet.new.insert exampleBodies 0 1 10).2.2)) ∧
    (((JointSet.new.insert exampleBodies 0 1 10).1.remove
        (JointSet.new.insert exampleBodies 0 1 10).2.1 ⟨9, 9⟩ false).2.1 =
      ((JointSet.new.insert exampleBodies 0 1 10).1.remove
        (JointSet.new.insert exampleBodies 0 1 10).2.1 ⟨9, 9⟩ false).2.1) ∧
    (let r1 := JointSet.new.insert exampleBodies 0 1 10
     let r2 := r1.1.insert r1.2.1 1 2 20
     let r3 := r2.1.insert r2.2.1 2 3 30
     (r3.1.remove r3.2.1 r2.2.2 true).2.1.get r1.2.2 = some ⟨0, 1, r1.2.2, 10⟩ ∧
     (r3.1.remove r3.2.1 r2.2.2 true).2.1.get r3.2.2 = some ⟨2, 3, r3.2.2, 30⟩) :=
  ⟨rfl, rfl,
    C3_relocation_repair exampleBodies _ _ _ _ _ _ _ _ _ 0 1 1 2 2 3 10 20 30 true
      rfl rfl rfl⟩


/-! ### Graph-side invariants for cascading deletion -/

/-- Body-store changes that keep every body's existence and cached graph
index (only activation or similar fields may differ). -/
def SameIdx (bs bs' : BodyStore) : Prop :=
  ∀ b, (bs' b).map RigidBody.joint_graph_index = (bs b).map RigidBody.joint_graph_index

theorem SameIdx.rfl (bs : BodyStore) : SameIdx bs bs := fun _ => Eq.refl _

theorem SameIdx.comp {bs1 bs2 bs3 : BodyStore} (h1 : SameIdx bs1 bs2)
    (h2 : SameIdx bs2 bs3) : SameIdx bs1 bs3 :=
  fun b => (h2 b).trans (h1 b)

theorem setAwake_sameIdx (bs : BodyStore) (b : Nat) : SameIdx bs (setAwake bs b) := by
  intro b'
  unfold setAwake
  by_cases hb : b' = b
  · rw [if_pos hb]
    cases bs b' <;> rfl
  · rw [if_neg hb]

/-- The graph-side invariant of reachable states (distinct-body runs):
edge endpoints point at nodes carrying the edge's own body handles; a
valid cached graph index points at a node carrying that body; node
payloads are pairwise distinct; a body with no graph presence has no
node; and every node's payload is a stored body. -/
structure GraphInv (st : SimState) : Prop where
  endpoints : ∀ e ∈ st.set.graph.edges,
    ∃ na nb, st.set.graph.nodes[e.a]? = some na ∧ st.set.graph.nodes[e.b]? = some nb ∧
      na.weight = e.weight.body1 ∧ nb.weight = e.weight.body2
  cache : ∀ (b : Nat) (rb : RigidBody), st.bodies b = some rb →
    is_graph_index_valid rb.joint_graph_index = true →
    ∃ n, st.set.graph.nodes[rb.joint_graph_index]? = some n ∧ n.weight = b
  node_inj : ∀ (i j : Nat) (ni nj : Node Nat), st.set.graph.nodes[i]? = some ni →
    st.set.graph.nodes[j]? = some nj → ni.weight = nj.weight → i = j
  fresh : ∀ (b : Nat) (rb : RigidBody), st.bodies b = some rb →
    is_graph_index_valid rb.joint_graph_index = false →
    ∀ (i : Nat) (n : Node Nat), st.set.graph.nodes[i]? = some n → n.weight ≠ b
  node_live : ∀ (i : Nat) (n : Node Nat), st.set.graph.nodes[i]? = some n →
    ∃ rb, st.bodies n.weight = some rb

/-- The body-dependent parts of `GraphInv` transfer across index- and
domain-preserving body updates. -/
theorem GraphInv.sameIdx {st : SimState} (hgi : GraphInv st) (bs' : BodyStore)
    (hsi : SameIdx st.bodies bs') : GraphInv ⟨st.set, bs'⟩ := by
  constructor
  · exact hgi.endpoints
  · intro b rb hb hv
    have hmap := hsi b
    have hbx : bs' b = some rb := hb
    rw [hbx] at hmap
    cases hb0 : st.bodies b with
    | none =>
      rw [hb0] at hmap
      cases hmap
    | some rb0 =>
      rw [hb0] at hmap
      simp only [Option.map_some'] at hmap
      injection hmap with hmap
      obtain ⟨n, hn, hw⟩ := hgi.cache b rb0 hb0 (by rw [← hmap]; exact hv)
      refine ⟨n, ?_, hw⟩
      show st.set.graph.nodes[rb.joint_graph_index]? = some n
      rw [hmap]
      exact hn
  · exact hgi.node_inj
  · intro b rb hb hv i n hn
    have hmap := hsi b
    have hbx : bs' b = some rb := hb
    rw [hbx] at hmap
    cases hb0 : st.bodies b with
    | none =>
      rw [hb0] at hmap
      cases hmap
    | some rb0 =>
      rw [hb0] at hmap
      simp only [Option.map_some'] at hmap
      injection hmap with hmap
      exact hgi.fresh b rb0 hb0 (by rw [← hmap]; exact hv) i n hn
  · intro i n hn
    obtain ⟨rb, hrb⟩ := hgi.node_live i n hn
    have hmap := hsi n.weight
    rw [hrb] at hmap
    cases hb' : bs' n.weight with
    | none =>
      rw [hb'] at hmap
      cases hmap
    | some rb' => exact ⟨rb', hb'⟩

/-- The graph-structure parts of `GraphInv` transfer when nodes are kept
and edges only shrink (value-wise). -/
theorem GraphInv.shrinkEdges {st : SimState} (hgi : GraphInv st) (s' : JointSet)
    (hnodes : s'.graph.nodes = st.set.graph.nodes)
    (hedges : ∀ e ∈ s'.graph.edges, e ∈ st.set.graph.edges) :
    GraphInv ⟨s', st.bodies⟩ := by
  constructor
  · intro e he
    rw [hnodes]
    exact hgi.endpoints e (hedges e he)
  · intro b rb hb hv
    rw [hnodes]
    exact hgi.cache b rb hb hv
  · intro i j ni nj hi hj hw
    rw [hnodes] at hi hj
    exact hgi.node_inj i j ni nj hi hj hw
  · intro b rb hb hv i n hn
    rw [hnodes] at hn
    exact hgi.fresh b rb hb hv i n hn
  · intro i n hn
    rw [hnodes] at hn
    exact hgi.node_live i n hn

/-- Mutating calls restricted to joints between two distinct bodies (a
joint is a pairwise constraint between two bodies, spec.md §1); the
graph-side invariant is stated over runs of these. -/
inductive StepD : SimState → SimState → Prop where
  | insert (st : SimState) (b1 b2 p : Nat) (rb1 rb2 : RigidBody)
      (hne : b1 ≠ b2)
      (hb1 : st.bodies b1 = some rb1) (hb2 : st.bodies b2 = some rb2)
      (hcap : st.set.graph.nodes.length + 2 ≤ INVALID_U32) :
      StepD st ⟨(st.set.insert st.bodies b1 b2 p).1, (st.set.insert st.bodies b1 b2 p).2.1⟩
  | remove (st : SimState) (h : Index) (w : Bool) :
      StepD st ⟨(st.set.remove st.bodies h w).2.1, (st.set.remove st.bodies h w).2.2.1⟩
  | remove_body (st : SimState) (b : Nat) (rb : RigidBody)
      (hb : st.bodies b = some rb) :
      StepD st ⟨(st.set.remove_rigid_body st.bodies rb.joint_graph_index).1,
        eraseBody (st.set.remove_rigid_body st.bodies rb.joint_graph_index).2.1 b⟩

/-- Distinct-body steps are steps. -/
theorem StepD.toStep {st st' : SimState} (h : StepD st st') : Step st st' := by
  cases h with
  | insert b1 b2 p rb1 rb2 hne hb1 hb2 hcap => exact Step.insert st b1 b2 p rb1 rb2 hb1 hb2 hcap
  | remove h w => exact Step.remove st h w
  | remove_body b rb hb => exact Step.remove_body st b rb hb

/-- A state reachable from an initial state by distinct-body calls. -/
def ReachableD (st : SimState) : Prop :=
  ∃ st0, Init st0 ∧ Relation.ReflTransGen StepD st0 st

theorem ReachableD.toReachable {st : SimState} (hr : ReachableD st) : Reachable st := by
  obtain ⟨st0, hinit, hsteps⟩ := hr
  refine ⟨st0, hinit, ?_⟩
  induction hsteps with
  | refl => exact Relation.ReflTransGen.refl
  | tail hsteps hstep ih => exact Relation.ReflTransGen.tail ih hstep.toStep


/-! ### Insert: branch equations and graph-invariant preservation -/

theorem getBody_eq_of_some {bs : BodyStore} {b : Nat} {rb : RigidBody}
    (hb : bs b = some rb) : getBody bs b = rb := by
  unfold getBody
  rw [hb]
  rfl

theorem setGraphIndex_self (bs : BodyStore) (b i : Nat) :
    (setGraphIndex bs b i) b = (bs b).map (fun rb => { rb with joint_graph_index := i }) := by
  unfold setGraphIndex
  rw [if_pos rfl]

theorem setGraphIndex_other (bs : BodyStore) (b i b' : Nat) (hne : b' ≠ b) :
    (setGraphIndex bs b i) b' = bs b' := by
  unfold setGraphIndex
  rw [if_neg hne]

theorem valid_of_lt_invalid {n : Nat} (h : n < INVALID_U32) :
    is_graph_index_valid n = true := by
  unfold is_graph_index_valid
  simp
  omega

theorem getElem?_append_pair (l : List α) (x y : α) (k : Nat) :
    (l ++ [x, y])[k]? =
      if k < l.length then l[k]?
      else if k = l.length then some x
      else if k = l.length + 1 then some y else none := by
  have hxy : l ++ [x, y] = (l ++ [x]) ++ [y] := by
    rw [List.append_assoc]
    rfl
  rw [hxy, getElem?_append_singleton, getElem?_append_singleton]
  by_cases h1 : k < l.length
  · rw [if_pos (by simp; omega), if_pos h1, if_pos h1]
  · by_cases h2 : k = l.length
    · rw [if_pos (by simp; omega), if_neg h1, if_pos h2, if_neg h1, if_pos h2]
    · by_cases h3 : k = l.length + 1
      · rw [if_neg (by simp; omega), if_pos (by simp; omega), if_neg h1, if_neg h2, if_pos h3]
      · rw [if_neg (by simp; omega), if_neg (by simp; omega), if_neg h1, if_neg h2, if_neg h3]

namespace JointSet

theorem insert_eq_tt (s : JointSet) (bs : BodyStore) (b1 b2 p : Nat)
    (h1 : is_graph_index_valid (getBody bs b1).joint_graph_index = true)
    (h2 : is_graph_index_valid (getBody bs b2).joint_graph_index = true) :
    (s.insert bs b1 b2 p).1.graph.nodes = s.graph.nodes ∧
    (s.insert bs b1 b2 p).2.1 = bs ∧
    (s.insert bs b1 b2 p).1.graph.edges = s.graph.edges ++
      [⟨(getBody bs b1).joint_graph_index, (getBody bs b2).joint_graph_index,
        ⟨b1, b2, (s.joint_ids.insert 0).2, p⟩⟩] := by
  refine ⟨?_, ?_, ?_⟩ <;> simp [insert, h1, h2, Graph.add_node, Graph.add_edge]

theorem insert_eq_tf (s : JointSet) (bs : BodyStore) (b1 b2 p : Nat)
    (h1 : is_graph_index_valid (getBody bs b1).joint_graph_index = true)
    (h2 : is_graph_index_valid (getBody bs b2).joint_graph_index = false) :
    (s.insert bs b1 b2 p).1.graph.nodes = s.graph.nodes ++ [⟨b2⟩] ∧
    (s.insert bs b1 b2 p).2.1 = setGraphIndex bs b2 s.graph.nodes.length ∧
    (s.insert bs b1 b2 p).1.graph.edges = s.graph.edges ++
      [⟨(getBody bs b1).joint_graph_index, s.graph.nodes.length,
        ⟨b1, b2, (s.joint_ids.insert 0).2, p⟩⟩] := by
  refine ⟨?_, ?_, ?_⟩ <;> simp [insert, h1, h2, Graph.add_node, Graph.add_edge]

theorem insert_eq_ft (s : JointSet) (bs : BodyStore) (b1 b2 p : Nat)
    (h1 : is_graph_index_valid (getBody bs b1).joint_graph_index = false)
    (h2 : is_graph_index_valid (getBody bs b2).joint_graph_index = true) :
    (s.insert bs b1 b2 p).1.graph.nodes = s.graph.nodes ++ [⟨b1⟩] ∧
    (s.insert bs b1 b2 p).2.1 = setGraphIndex bs b1 s.graph.nodes.length ∧
    (s.insert bs b1 b2 p).1.graph.edges = s.graph.edges ++
      [⟨s.graph.nodes.length, (getBody bs b2).joint_graph_index,
        ⟨b1, b2, (s.joint_ids.insert 0).2, p⟩⟩] := by
  refine ⟨?_, ?_, ?_⟩ <;> simp [insert, h1, h2, Graph.add_node, Graph.add_edge]

theorem insert_eq_ff (s : JointSet) (bs : BodyStore) (b1 b2 p : Nat)
    (h1 : is_graph_index_valid (getBody bs b1).joint_graph_index = false)
    (h2 : is_graph_index_valid (getBody bs b2).joint_graph_index = false) :
    (s.insert bs b1 b2 p).1.graph.nodes = s.graph.nodes ++ [⟨b1⟩, ⟨b2⟩] ∧
    (s.insert bs b1 b2 p).2.1 =
      setGraphIndex (setGraphIndex bs b1 s.graph.nodes.length) b2
        (s.graph.nodes.length + 1) ∧
    (s.insert bs b1 b2 p).1.graph.edges = s.graph.edges ++
      [⟨s.graph.nodes.length, s.graph.nodes.length + 1,
        ⟨b1, b2, (s.joint_ids.insert 0).2, p⟩⟩] := by
  refine ⟨?_, ?_, ?_⟩ <;> simp [insert, h1, h2, Graph.add_node, Graph.add_edge]

end JointSet


/-! ### Node-payload injectivity machinery -/

/-- Pairwise-distinct node payloads, phrased positionally. -/
def NodesInj (l : List (Node Nat)) : Prop :=
  ∀ (i j : Nat) (ni nj : Node Nat), l[i]? = some ni → l[j]? = some nj →
    ni.weight = nj.weight → i = j

theorem NodesInj.append (l ext : List (Node Nat)) (h1 : NodesInj l) (h2 : NodesInj ext)
    (hd : ∀ n ∈ ext, ∀ m ∈ l, (m : Node Nat).weight ≠ n.weight) :
    NodesInj (l ++ ext) := by
  intro i j ni nj hi hj hw
  by_cases hil : i < l.length
  · rw [List.getElem?_append_left hil] at hi
    by_cases hjl : j < l.length
    · rw [List.getElem?_append_left hjl] at hj
      exact h1 i j ni nj hi hj hw
    · rw [List.getElem?_append_right (by omega)] at hj
      exact absurd hw (hd nj (List.getElem?_mem hj) ni (List.getElem?_mem hi))
  · rw [List.getElem?_append_right (by omega)] at hi
    by_cases hjl : j < l.length
    · rw [List.getElem?_append_left hjl] at hj
      exact absurd hw.symm (hd ni (List.getElem?_mem hi) nj (List.getElem?_mem hj))
    · rw [List.getElem?_append_right (by omega)] at hj
      have := h2 (i - l.length) (j - l.length) ni nj hi hj hw
      omega

theorem NodesInj.singleton (n : Node Nat) : NodesInj [n] := by
  intro i j ni nj hi hj hw
  have hi' : i < 1 := (List.getElem?_eq_some_iff.mp hi).1
  have hj' : j < 1 := (List.getElem?_eq_some_iff.mp hj).1
  omega

theorem NodesInj.pair (x y : Node Nat) (hxy : x.weight ≠ y.weight) :
    NodesInj [x, y] := by
  intro i j ni nj hi hj hw
  have hi' : i < 2 := (List.getElem?_eq_some_iff.mp hi).1
  have hj' : j < 2 := (List.getElem?_eq_some_iff.mp hj).1
  match i, hi' with
  | 0, _ =>
    cases hi
    match j, hj' with
    | 0, _ => rfl
    | 1, _ =>
      cases hj
      exact absurd hw hxy
  | 1, _ =>
    cases hi
    match j, hj' with
    | 0, _ =>
      cases hj
      exact absurd hw.symm hxy
    | 1, _ => rfl


/-- `insert` between two distinct stored bodies preserves the graph-side
invariant. -/
theorem insert_graphInv (st : SimState) (b1 b2 p : Nat) (rb1 rb2 : RigidBody)
    (hne : b1 ≠ b2) (hb1 : st.bodies b1 = some rb1) (hb2 : st.bodies b2 = some rb2)
    (hcap : st.set.graph.nodes.length + 2 ≤ INVALID_U32)
    (hgi : GraphInv st) :
    GraphInv ⟨(st.set.insert st.bodies b1 b2 p).1, (st.set.insert st.bodies b1 b2 p).2.1⟩ := by
  have hg1 : getBody st.bodies b1 = rb1 := getBody_eq_of_some hb1
  have hg2 : getBody st.bodies b2 = rb2 := getBody_eq_of_some hb2
  have hvlen : is_graph_index_valid st.set.graph.nodes.length = true :=
    valid_of_lt_invalid (by omega)
  have hvlen1 : is_graph_index_valid (st.set.graph.nodes.length + 1) = true :=
    valid_of_lt_invalid (by omega)
  have hinj : NodesInj st.set.graph.nodes := fun i j ni nj hi hj hw =>
    hgi.node_inj i j ni nj hi hj hw
  by_cases hv1 : is_graph_index_valid (getBody st.bodies b1).joint_graph_index = true <;>
    by_cases hv2 : is_graph_index_valid (getBody st.bodies b2).joint_graph_index = true
  · -- both caches valid: no new nodes
    obtain ⟨hn, hbse, hedg⟩ := JointSet.insert_eq_tt st.set st.bodies b1 b2 p hv1 hv2
    obtain ⟨n1, hn1, hw1⟩ := hgi.cache b1 rb1 hb1 (by rw [hg1] at hv1; exact hv1)
    obtain ⟨n2, hn2, hw2⟩ := hgi.cache b2 rb2 hb2 (by rw [hg2] at hv2; exact hv2)
    constructor
    · intro e he
      rw [hedg] at he
      rw [hn]
      rcases List.mem_append.mp he with hold | hnew
      · exact hgi.endpoints e hold
      · rw [List.mem_singleton] at hnew
        subst hnew
        refine ⟨n1, n2, ?_, ?_, hw1, hw2⟩
        · rw [hg1]
          exact hn1
        · rw [hg2]
          exact hn2
    · intro b rb hb hv
      have hbx : (st.set.insert st.bodies b1 b2 p).2.1 b = some rb := hb
      rw [hbse] at hbx
      rw [hn]
      exact hgi.cache b rb hbx hv
    · intro i j ni nj hi hj hw
      rw [hn] at hi hj
      exact hgi.node_inj i j ni nj hi hj hw
    · intro b rb hb hv i n hni
      have hbx : (st.set.insert st.bodies b1 b2 p).2.1 b = some rb := hb
      rw [hbse] at hbx
      rw [hn] at hni
      exact hgi.fresh b rb hbx hv i n hni
    · intro i n hni
      rw [hn] at hni
      show ∃ rb, (st.set.insert st.bodies b1 b2 p).2.1 n.weight = some rb
      rw [hbse]
      exact hgi.node_live i n hni
  · -- body2's cache invalid: one node appended for body2
    have hv2f : is_graph_index_valid (getBody st.bodies b2).joint_graph_index = false := by
      revert hv2
      cases is_graph_index_valid (getBody st.bodies b2).joint_graph_index <;> simp
    obtain ⟨hn, hbse, hedg⟩ := JointSet.insert_eq_tf st.set st.bodies b1 b2 p hv1 hv2f
    obtain ⟨n1, hn1, hw1⟩ := hgi.cache b1 rb1 hb1 (by rw [hg1] at hv1; exact hv1)
    have hfresh2 : ∀ (k : Nat) (n : Node Nat), st.set.graph.nodes[k]? = some n →
        n.weight ≠ b2 :=
      hgi.fresh b2 rb2 hb2 (by rw [hg2] at hv2f; exact hv2f)
    have hstab : ∀ (k : Nat) (n : Node Nat), st.set.graph.nodes[k]? = some n →
        (st.set.insert st.bodies b1 b2 p).1.graph.nodes[k]? = some n := by
      intro k n hk
      rw [hn, List.getElem?_append_left (List.getElem?_eq_some_iff.mp hk).1]
      exact hk
    have hlast : (st.set.insert st.bodies b1 b2 p).1.graph.nodes[st.set.graph.nodes.length]?
        = some ⟨b2⟩ := by
      rw [hn, getElem?_append_singleton, if_neg (by omega), if_pos rfl]
    constructor
    · intro e he
      rw [hedg] at he
      rcases List.mem_append.mp he with hold | hnew
      · obtain ⟨na, nb, ha, hbn, hwa, hwb⟩ := hgi.endpoints e hold
        exact ⟨na, nb, hstab _ _ ha, hstab _ _ hbn, hwa, hwb⟩
      · rw [List.mem_singleton] at hnew
        subst hnew
        refine ⟨n1, ⟨b2⟩, ?_, hlast, hw1, rfl⟩
        rw [hg1]
        exact hstab _ _ hn1
    · intro b rb hb hv
      have hbx : (st.set.insert st.bodies b1 b2 p).2.1 b = some rb := hb
      rw [hbse] at hbx
      by_cases hbb : b = b2
      · subst hbb
        rw [setGraphIndex_self, hb2] at hbx
        simp only [Option.map_some'] at hbx
        injection hbx with hbx
        subst hbx
        exact ⟨⟨b⟩, hlast, rfl⟩
      · rw [setGraphIndex_other _ _ _ _ hbb] at hbx
        obtain ⟨n, hnn, hwn⟩ := hgi.cache b rb hbx hv
        exact ⟨n, hstab _ _ hnn, hwn⟩
    · intro i j ni nj hi hj hw
      rw [hn] at hi hj
      refine NodesInj.append st.set.graph.nodes [⟨b2⟩] hinj (NodesInj.singleton _)
        ?_ i j ni nj hi hj hw
      intro n hn' m hm
      rw [List.mem_singleton] at hn'
      subst hn'
      obtain ⟨k, hk, hkm⟩ := List.getElem_of_mem hm
      exact hfresh2 k m (by rw [List.getElem?_eq_getElem hk, hkm])
    · intro b rb hb hv i n hni
      have hbx : (st.set.insert st.bodies b1 b2 p).2.1 b = some rb := hb
      rw [hbse] at hbx
      by_cases hbb : b = b2
      · subst hbb
        rw [setGraphIndex_self, hb2] at hbx
        simp only [Option.map_some'] at hbx
        injection hbx with hbx
        subst hbx
        rw [hvlen] at hv
        cases hv
      · rw [setGraphIndex_other _ _ _ _ hbb] at hbx
        rw [hn, getElem?_append_singleton] at hni
        by_cases hil : i < st.set.graph.nodes.length
        · rw [if_pos hil] at hni
          exact hgi.fresh b rb hbx hv i n hni
        · rw [if_neg hil] at hni
          by_cases hie : i = st.set.graph.nodes.length
          · rw [if_pos hie] at hni
            cases hni
            exact fun hc => hbb hc.symm
          · rw [if_neg hie] at hni
            cases hni
    · intro i n hni
      rw [hn, getElem?_append_singleton] at hni
      show ∃ rb, (st.set.insert st.bodies b1 b2 p).2.1 n.weight = some rb
      rw [hbse]
      by_cases hil : i < st.set.graph.nodes.length
      · rw [if_pos hil] at hni
        obtain ⟨rb, hrb⟩ := hgi.node_live i n hni
        by_cases hbb : n.weight = b2
        · rw [hbb, setGraphIndex_self, hb2]
          exact ⟨_, rfl⟩
        · rw [setGraphIndex_other _ _ _ _ hbb, hrb]
          exact ⟨rb, rfl⟩
      · rw [if_neg hil] at hni
        by_cases hie : i = st.set.graph.nodes.length
        · rw [if_pos hie] at hni
          cases hni
          rw [setGraphIndex_self, hb2]
          exact ⟨_, rfl⟩
        · rw [if_neg hie] at hni
          cases hni
  · -- body1's cache invalid: one node appended for body1
    have hv1f : is_graph_index_valid (getBody st.bodies b1).joint_graph_index = false := by
      revert hv1
      cases is_graph_index_valid (getBody st.bodies b1).joint_graph_index <;> simp
    obtain ⟨hn, hbse, hedg⟩ := JointSet.insert_eq_ft st.set st.bodies b1 b2 p hv1f hv2
    obtain ⟨n2, hn2, hw2⟩ := hgi.cache b2 rb2 hb2 (by rw [hg2] at hv2; exact hv2)
    have hfresh1 : ∀ (k : Nat) (n : Node Nat), st.set.graph.nodes[k]? = some n →
        n.weight ≠ b1 :=
      hgi.fresh b1 rb1 hb1 (by rw [hg1] at hv1f; exact hv1f)
    have hstab : ∀ (k : Nat) (n : Node Nat), st.set.graph.nodes[k]? = some n →
        (st.set.insert st.bodies b1 b2 p).1.graph.nodes[k]? = some n := by
      intro k n hk
      rw [hn, List.getElem?_append_left (List.getElem?_eq_some_iff.mp hk).1]
      exact hk
    have hlast : (st.set.insert st.bodies b1 b2 p).1.graph.nodes[st.set.graph.nodes.length]?
        = some ⟨b1⟩ := by
      rw [hn, getElem?_append_singleton, if_neg (by omega), if_pos rfl]
    constructor
    · intro e he
      rw [hedg] at he
      rcases List.mem_append.mp he with hold | hnew
      · obtain ⟨na, nb, ha, hbn, hwa, hwb⟩ := hgi.endpoints e hold
        exact ⟨na, nb, hstab _ _ ha, hstab _ _ hbn, hwa, hwb⟩
      · rw [List.mem_singleton] at hnew
        subst hnew
        refine ⟨⟨b1⟩, n2, hlast, ?_, rfl, hw2⟩
        rw [hg2]
        exact hstab _ _ hn2
    · intro b rb hb hv
      have hbx : (st.set.insert st.bodies b1 b2 p).2.1 b = some rb := hb
      rw [hbse] at hbx
      by_cases hbb : b = b1
      · subst hbb
        rw [setGraphIndex_self, hb1] at hbx
        simp only [Option.map_some'] at hbx
        injection hbx with hbx
        subst hbx
        exact ⟨⟨b⟩, hlast, rfl⟩
      · rw [setGraphIndex_other _ _ _ _ hbb] at hbx
        obtain ⟨n, hnn, hwn⟩ := hgi.cache b rb hbx hv
        exact ⟨n, hstab _ _ hnn, hwn⟩
    · intro i j ni nj hi hj hw
      rw [hn] at hi hj
      refine NodesInj.append st.set.graph.nodes [⟨b1⟩] hinj (NodesInj.singleton _)
        ?_ i j ni nj hi hj hw
      intro n hn' m hm
      rw [List.mem_singleton] at hn'
      subst hn'
      obtain ⟨k, hk, hkm⟩ := List.getElem_of_mem hm
      exact hfresh1 k m (by rw [List.getElem?_eq_getElem hk, hkm])
    · intro b rb hb hv i n hni
      have hbx : (st.set.insert st.bodies b1 b2 p).2.1 b = some rb := hb
      rw [hbse] at hbx
      by_cases hbb : b = b1
      · subst hbb
        rw [setGraphIndex_self, hb1] at hbx
        simp only [Option.map_some'] at hbx
        injection hbx with hbx
        subst hbx
        rw [hvlen] at hv
        cases hv
      · rw [setGraphIndex_other _ _ _ _ hbb] at hbx
        rw [hn, getElem?_append_singleton] at hni
        by_cases hil : i < st.set.graph.nodes.length
        · rw [if_pos hil] at hni
          exact hgi.fresh b rb hbx hv i n hni
        · rw [if_neg hil] at hni
          by_cases hie : i = st.set.graph.nodes.length
          · rw [if_pos hie] at hni
            cases hni
            exact fun hc => hbb hc.symm
          · rw [if_neg hie] at hni
            cases hni
    · intro i n hni
      rw [hn, getElem?_append_singleton] at hni
      show ∃ rb, (st.set.insert st.bodies b1 b2 p).2.1 n.weight = some rb
      rw [hbse]
      by_cases hil : i < st.set.graph.nodes.length
      · rw [if_pos hil] at hni
        obtain ⟨rb, hrb⟩ := hgi.node_live i n hni
        by_cases hbb : n.weight = b1
        · rw [hbb, setGraphIndex_self, hb1]
          exact ⟨_, rfl⟩
        · rw [setGraphIndex_other _ _ _ _ hbb, hrb]
          exact ⟨rb, rfl⟩
      · rw [if_neg hil] at hni
        by_cases hie : i = st.set.graph.nodes.length
        · rw [if_pos hie] at hni
          cases hni
          rw [setGraphIndex_self, hb1]
          exact ⟨_, rfl⟩
        · rw [if_neg hie] at hni
          cases hni
  · -- both caches invalid: two nodes appended
    have hv1f : is_graph_index_valid (getBody st.bodies b1).joint_graph_index = false := by
      revert hv1
      cases is_graph_index_valid (getBody st.bodies b1).joint_graph_index <;> simp
    have hv2f : is_graph_index_valid (getBody st.bodies b2).joint_graph_index = false := by
      revert hv2
      cases is_graph_index_valid (getBody st.bodies b2).joint_graph_index <;> simp
    obtain ⟨hn, hbse, hedg⟩ := JointSet.insert_eq_ff st.set st.bodies b1 b2 p hv1f hv2f
    have hfresh1 : ∀ (k : Nat) (n : Node Nat), st.set.graph.nodes[k]? = some n →
        n.weight ≠ b1 :=
      hgi.fresh b1 rb1 hb1 (by rw [hg1] at hv1f; exact hv1f)
    have hfresh2 : ∀ (k : Nat) (n : Node Nat), st.set.graph.nodes[k]? = some n →
        n.weight ≠ b2 :=
      hgi.fresh b2 rb2 hb2 (by rw [hg2] at hv2f; exact hv2f)
    have hstab : ∀ (k : Nat) (n : Node Nat), st.set.graph.nodes[k]? = some n →
        (st.set.insert st.bodies b1 b2 p).1.graph.nodes[k]? = some n := by
      intro k n hk
      rw [hn]
      have hkl : k < st.set.graph.nodes.length := (List.getElem?_eq_some_iff.mp hk).1
      rw [getElem?_append_pair, if_pos hkl]
      exact hk
    have hat1 : (st.set.insert st.bodies b1 b2 p).1.graph.nodes[st.set.graph.nodes.length]?
        = some ⟨b1⟩ := by
      rw [hn, getElem?_append_pair, if_neg (by omega), if_pos rfl]
    have hat2 : (st.set.insert st.bodies b1 b2 p).1.graph.nodes[st.set.graph.nodes.length + 1]?
        = some ⟨b2⟩ := by
      rw [hn, getElem?_append_pair, if_neg (by omega), if_neg (by omega), if_pos rfl]
    constructor
    · intro e he
      rw [hedg] at he
      rcases List.mem_append.mp he with hold | hnew
      · obtain ⟨na, nb, ha, hbn, hwa, hwb⟩ := hgi.endpoints e hold
        exact ⟨na, nb, hstab _ _ ha, hstab _ _ hbn, hwa, hwb⟩
      · rw [List.mem_singleton] at hnew
        subst hnew
        exact ⟨⟨b1⟩, ⟨b2⟩, hat1, hat2, rfl, rfl⟩
    · intro b rb hb hv
      have hbx : (st.set.insert st.bodies b1 b2 p).2.1 b = some rb := hb
      rw [hbse] at hbx
      by_cases hbb2 : b = b2
      · subst hbb2
        rw [setGraphIndex_self, setGraphIndex_other _ _ _ _ (fun hc => hne hc.symm),
          hb2] at hbx
        simp only [Option.map_some'] at hbx
        injection hbx with hbx
        subst hbx
        exact ⟨⟨b⟩, hat2, rfl⟩
      · rw [setGraphIndex_other _ _ _ _ hbb2] at hbx
        by_cases hbb1 : b = b1
        · subst hbb1
          rw [setGraphIndex_self, hb1] at hbx
          simp only [Option.map_some'] at hbx
          injection hbx with hbx
          subst hbx
          exact ⟨⟨b⟩, hat1, rfl⟩
        · rw [setGraphIndex_other _ _ _ _ hbb1] at hbx
          obtain ⟨n, hnn, hwn⟩ := hgi.cache b rb hbx hv
          exact ⟨n, hstab _ _ hnn, hwn⟩
    · intro i j ni nj hi hj hw
      rw [hn] at hi hj
      refine NodesInj.append st.set.graph.nodes [⟨b1⟩, ⟨b2⟩] hinj
        (NodesInj.pair _ _ hne) ?_ i j ni nj hi hj hw
      intro n hn' m hm
      obtain ⟨k, hk, hkm⟩ := List.getElem_of_mem hm
      have hmk : st.set.graph.nodes[k]? = some m := by
        rw [List.getElem?_eq_getElem hk, hkm]
      rcases List.mem_cons.mp hn' with h | h
      · subst h
        exact hfresh1 k m hmk
      · rw [List.mem_singleton] at h
        subst h
        exact hfresh2 k m hmk
    · intro b rb hb hv i n hni
      have hbx : (st.set.insert st.bodies b1 b2 p).2.1 b = some rb := hb
      rw [hbse] at hbx
      by_cases hbb2 : b = b2
      · subst hbb2
        rw [setGraphIndex_self, setGraphIndex_other _ _ _ _ (fun hc => hne hc.symm),
          hb2] at hbx
        simp only [Option.map_some'] at hbx
        injection hbx with hbx
        subst hbx
        rw [hvlen1] at hv
        cases hv
      · rw [setGraphIndex_other _ _ _ _ hbb2] at hbx
        by_cases hbb1 : b = b1
        · subst hbb1
          rw [setGraphIndex_self, hb1] at hbx
          simp only [Option.map_some'] at hbx
          injection hbx with hbx
          subst hbx
          rw [hvlen] at hv
          cases hv
        · rw [setGraphIndex_other _ _ _ _ hbb1] at hbx
          rw [hn, getElem?_append_pair] at hni
          by_cases hil : i < st.set.graph.nodes.length
          · rw [if_pos hil] at hni
            exact hgi.fresh b rb hbx hv i n hni
          · rw [if_neg hil] at hni
            by_cases hie : i = st.set.graph.nodes.length
            · rw [if_pos hie] at hni
              cases hni
              exact fun hc => hbb1 hc.symm
            · rw [if_neg hie] at hni
              by_cases hie2 : i = st.set.graph.nodes.length + 1
              · rw [if_pos hie2] at hni
                cases hni
                exact fun hc => hbb2 hc.symm
              · rw [if_neg hie2] at hni
                cases hni
    · intro i n hni
      rw [hn, getElem?_append_pair] at hni
      show ∃ rb, (st.set.insert st.bodies b1 b2 p).2.1 n.weight = some rb
      rw [hbse]
      by_cases hil : i < st.set.graph.nodes.length
      · rw [if_pos hil] at hni
        obtain ⟨rb, hrb⟩ := hgi.node_live i n hni
        by_cases hbb2 : n.weight = b2
        · rw [hbb2, setGraphIndex_self, setGraphIndex_other _ _ _ _
            (fun hc => hne hc.symm), hb2]
          exact ⟨_, rfl⟩
        · rw [setGraphIndex_other _ _ _ _ hbb2]
          by_cases hbb1 : n.weight = b1
          · rw [hbb1, setGraphIndex_self, hb1]
            exact ⟨_, rfl⟩
          · rw [setGraphIndex_other _ _ _ _ hbb1, hrb]
            exact ⟨rb, rfl⟩
      · rw [if_neg hil] at hni
        by_cases hie : i = st.set.graph.nodes.length
        · rw [if_pos hie] at hni
          cases hni
          rw [setGraphIndex_other _ _ _ _ hne, setGraphIndex_self, hb1]
          exact ⟨_, rfl⟩
        · rw [if_neg hie] at hni
          by_cases hie2 : i = st.set.graph.nodes.length + 1
          · rw [if_pos hie2] at hni
            cases hni
            rw [setGraphIndex_self, setGraphIndex_other _ _ _ _
              (fun hc => hne hc.symm), hb2]
            exact ⟨_, rfl⟩
          · rw [if_neg hie2] at hni
            cases hni


/-! ### The deletion loop of remove_rigid_body -/

namespace JointSet

/-- Distinct live edges carry distinct handles (positionally). -/
theorem edges_handles_nodup (s : JointSet) (hinv : SetInv s) :
    (s.graph.edges.map (fun e => e.weight.handle)).Nodup := by
  rw [List.nodup_iff_getElem?_ne_getElem?]
  intro i j hij hj
  rw [List.length_map] at hj
  rw [List.getElem?_map, List.getElem?_map]
  have hi : i < s.graph.edges.length := by omega
  obtain ⟨ei, hei⟩ : ∃ e, s.graph.edges[i]? = some e := ⟨_, List.getElem?_eq_getElem hi⟩
  obtain ⟨ej, hej⟩ : ∃ e, s.graph.edges[j]? = some e := ⟨_, List.getElem?_eq_getElem hj⟩
  rw [hei, hej]
  simp only [Option.map_some', ne_eq, Option.some_inj]
  intro heq
  have h1 := hinv.from_edge i ei hei
  have h2 := hinv.from_edge j ej hej
  rw [heq] at h1
  rw [h2] at h1
  injection h1 with h1
  omega

end JointSet

/-- A `filterMap` that acts as filter-then-map on its support. -/
theorem filterMap_eq_filter_map {α β : Type} (l : List α) (F : α → Option β)
    (c : α → Bool) (G : α → β)
    (h : ∀ a ∈ l, F a = if c a then some (G a) else none) :
    l.filterMap F = (l.filter c).map G := by
  induction l with
  | nil => rfl
  | cons a t ih =>
    rw [List.filterMap_cons, List.filter_cons, h a (List.mem_cons_self a t)]
    by_cases hc : c a = true
    · rw [if_pos hc, if_pos hc, List.map_cons,
        ih (fun x hx => h x (List.mem_cons_of_mem a hx))]
    · rw [if_neg hc, if_neg hc, ih (fun x hx => h x (List.mem_cons_of_mem a hx))]

/-- Under the endpoint invariant, `interactions_with` enumerates exactly
the incident edges, reporting each edge's own body handles. -/
theorem interactions_with_eq (g : Graph Nat Joint) (d : Nat)
    (hB : ∀ e ∈ g.edges, ∃ na nb, g.nodes[e.a]? = some na ∧ g.nodes[e.b]? = some nb ∧
      (na : Node Nat).weight = e.weight.body1 ∧ (nb : Node Nat).weight = e.weight.body2) :
    g.interactions_with d = (g.edges.filter (fun e => decide (e.a = d ∨ e.b = d))).map
      (fun e => (e.weight.body1, e.weight.body2, e.weight)) := by
  unfold Graph.interactions_with
  apply filterMap_eq_filter_map
  intro e he
  obtain ⟨na, nb, hna, hnb, hwa, hwb⟩ := hB e he
  by_cases hc : e.a = d ∨ e.b = d
  · rw [if_pos hc, hna, hnb]
    simp only []
    rw [hwa, hwb]
    simp [hc]
  · rw [if_neg hc]
    simp [hc]

/-- Full specification of the `remove_rigid_body` deletion loop, given
that the work list covers exactly the edges incident to node `d`. -/
theorem foldl_removeStep_spec (d : Nat) (L : List (Nat × Nat × Index)) (s : JointSet)
    (bs : BodyStore) (log : List Nat)
    (hinv : JointSet.SetInv s)
    (hnd : (L.map (fun t => t.2.2)).Nodup)
    (hres : ∀ t ∈ L, ∃ e, JointSet.lookupEdge s t.2.2 = some e ∧
      (e : Edge Joint).weight.handle = t.2.2 ∧ (e.a = d ∨ e.b = d) ∧
      e.weight.body1 = t.1 ∧ e.weight.body2 = t.2.1)
    (hcompl : ∀ e ∈ s.graph.edges, (e.a = d ∨ e.b = d) →
      e.weight.handle ∈ L.map (fun t => t.2.2)) :
    JointSet.SetInv (L.foldl JointSet.removeStep (s, bs, log)).1 ∧
    (L.foldl JointSet.removeStep (s, bs, log)).1.graph.nodes = s.graph.nodes ∧
    (∀ e ∈ (L.foldl JointSet.removeStep (s, bs, log)).1.graph.edges,
      e ∈ s.graph.edges ∧ ¬(e.a = d ∨ e.b = d)) ∧
    (L.foldl JointSet.removeStep (s, bs, log)).1.graph.edges.length + L.length =
      s.graph.edges.length ∧
    (∀ t ∈ L, (L.foldl JointSet.removeStep (s, bs, log)).1.joint_ids.get t.2.2 = none ∧
      t.1 ∈ (L.foldl JointSet.removeStep (s, bs, log)).2.2 ∧
      t.2.1 ∈ (L.foldl JointSet.removeStep (s, bs, log)).2.2) ∧
    SameIdx bs (L.foldl JointSet.removeStep (s, bs, log)).2.1 ∧
    (∀ z ∈ log, z ∈ (L.foldl JointSet.removeStep (s, bs, log)).2.2) ∧
    Arena.GenLe s.joint_ids (L.foldl JointSet.removeStep (s, bs, log)).1.joint_ids := by
  induction L generalizing s bs log with
  | nil =>
    refine ⟨hinv, rfl, ?_, rfl, ?_, SameIdx.rfl bs, fun z hz => hz, Arena.GenLe.refl _⟩
    · intro e he
      refine ⟨he, ?_⟩
      intro htouch
      have := hcompl e he htouch
      simp at this
    · intro t ht
      cases ht
  | cons t rest ih =>
    obtain ⟨x, y, hd⟩ := t
    obtain ⟨e_h, hlk, hhdl, htouch, hx, hy⟩ := hres (x, y, hd) (List.mem_cons_self _ _)
    unfold JointSet.lookupEdge at hlk
    cases hg : s.joint_ids.get hd with
    | none =>
      rw [hg] at hlk
      cases hlk
    | some id =>
      rw [hg] at hlk
      simp only [Option.some_bind] at hlk
      rw [List.foldl_cons, JointSet.removeStep_eq_some s bs log x y hd id hg]
      obtain ⟨hinv', hnodes', hlen', hdead', hgenle', hframe', hmem'⟩ :=
        JointSet.eraseEdge_spec s hd id e_h hinv hg hlk
      have hhd_notin : hd ∉ rest.map (fun t => t.2.2) := by
        have := hnd
        rw [List.map_cons, List.nodup_cons] at this
        exact this.1
      have hnd' : (rest.map (fun t => t.2.2)).Nodup := by
        have := hnd
        rw [List.map_cons, List.nodup_cons] at this
        exact this.2
      have hres' : ∀ t ∈ rest, ∃ e, JointSet.lookupEdge (s.eraseEdge hd id) t.2.2 = some e ∧
          (e : Edge Joint).weight.handle = t.2.2 ∧ (e.a = d ∨ e.b = d) ∧
          e.weight.body1 = t.1 ∧ e.weight.body2 = t.2.1 := by
        intro t' ht'
        obtain ⟨e', hlk', hrest⟩ := hres t' (List.mem_cons_of_mem _ ht')
        refine ⟨e', ?_, hrest⟩
        rw [hframe' t'.2.2 ?_]
        · exact hlk'
        · intro heq
          exact hhd_notin (heq ▸ List.mem_map_of_mem (fun t => t.2.2) ht')
      have hcompl' : ∀ e ∈ (s.eraseEdge hd id).graph.edges, (e.a = d ∨ e.b = d) →
          e.weight.handle ∈ rest.map (fun t => t.2.2) := by
        intro e he ht
        obtain ⟨hmem0, hne0⟩ := hmem' e he
        have := hcompl e hmem0 ht
        rw [List.map_cons, List.mem_cons] at this
        rcases this with h | h
        · exact absurd h hne0
        · exact h
      obtain ⟨ih1, ih2, ih3, ih4, ih5, ih6, ih7, ih8⟩ :=
        ih (s.eraseEdge hd id) (setAwake (setAwake bs x) y) (log ++ [x, y])
          hinv' hnd' hres' hcompl'
      refine ⟨ih1, ih2.trans hnodes', ?_, ?_, ?_, ?_, ?_, hgenle'.trans ih8⟩
      · intro e he
        obtain ⟨hm, hnt⟩ := ih3 e he
        exact ⟨(hmem' e hm).1, hnt⟩
      · have hlen0 : id < s.graph.edges.length := (List.getElem?_eq_some_iff.mp hlk).1
        rw [List.length_cons]
        omega
      · intro t' ht'
        rcases List.mem_cons.mp ht' with h | h
        · subst h
          refine ⟨?_, ?_, ?_⟩
          · have hdeadF : (rest.foldl JointSet.removeStep
                (s.eraseEdge hd id, setAwake (setAwake bs x) y, log ++ [x, y])).1.joint_ids.dead hd :=
              hdead'.mono ih8
            exact Arena.dead.get_none hdeadF
          · exact ih7 x (by simp)
          · exact ih7 y (by simp)
        · exact ih5 t' h
      · exact ((setAwake_sameIdx bs x).comp (setAwake_sameIdx (setAwake bs x) y)).comp ih6
      · intro z hz
        exact ih7 z (by rw [List.mem_append]; exact Or.inl hz)


/-! ### Node removal equations -/

namespace Graph

theorem remove_node_eq_last {N E : Type} (g : Graph N E) (d : Nat)
    (h1 : d < g.nodes.length) (h2 : d = g.nodes.length - 1) :
    g.remove_node d = (none, ⟨g.nodes.dropLast, g.edges⟩) := by
  unfold remove_node
  rw [if_pos h1, if_pos h2]

theorem remove_node_eq_move {N E : Type} (g : Graph N E) (d : Nat) (m : Node N)
    (h1 : d < g.nodes.length) (h2 : ¬d = g.nodes.length - 1)
    (hm : g.nodes[g.nodes.length - 1]? = some m) :
    g.remove_node d = (some m.weight, ⟨(g.nodes.set d m).dropLast,
      g.edges.map (fun e => ⟨if e.a = g.nodes.length - 1 then d else e.a,
        if e.b = g.nodes.length - 1 then d else e.b, e.weight⟩)⟩) := by
  unfold remove_node
  rw [if_pos h1, if_neg h2, hm]

theorem remove_node_length_eq {N E : Type} (g : Graph N E) (d : Nat)
    (h1 : d < g.nodes.length) :
    (g.remove_node d).2.nodes.length + 1 = g.nodes.length := by
  by_cases h2 : d = g.nodes.length - 1
  · rw [remove_node_eq_last g d h1 h2]
    simp
    omega
  · have hlast : g.nodes.length - 1 < g.nodes.length := by omega
    obtain ⟨m, hm⟩ : ∃ m, g.nodes[g.nodes.length - 1]? = some m :=
      ⟨_, List.getElem?_eq_getElem hlast⟩
    rw [remove_node_eq_move g d m h1 h2 hm]
    simp
    omega

end Graph

namespace JointSet

/-- Component equation of `remove_rigid_body` on a valid graph index. -/
theorem remove_rigid_body_components (s : JointSet) (bs : BodyStore) (d : Nat)
    (hv : is_graph_index_valid d = true) :
    s.remove_rigid_body bs d =
      (⟨(((s.graph.interactions_with d).map (fun x => (x.1, x.2.1, x.2.2.handle))).foldl
          removeStep (s, bs, [])).1.joint_ids,
        ((((s.graph.interactions_with d).map (fun x => (x.1, x.2.1, x.2.2.handle))).foldl
          removeStep (s, bs, [])).1.graph.remove_node d).2⟩,
       (match ((((s.graph.interactions_with d).map (fun x => (x.1, x.2.1, x.2.2.handle))).foldl
          removeStep (s, bs, [])).1.graph.remove_node d).1 with
        | some other => setGraphIndex
            (((s.graph.interactions_with d).map (fun x => (x.1, x.2.1, x.2.2.handle))).foldl
              removeStep (s, bs, [])).2.1 other d
        | none => (((s.graph.interactions_with d).map (fun x => (x.1, x.2.1, x.2.2.handle))).foldl
            removeStep (s, bs, [])).2.1),
       (((s.graph.interactions_with d).map (fun x => (x.1, x.2.1, x.2.2.handle))).foldl
          removeStep (s, bs, [])).2.2) := by
  unfold remove_rigid_body
  rw [if_pos hv]

end JointSet

/-- Waking a node's body (if present) preserves existence and cached
indices. -/
theorem wakeNode_sameIdx (g : Graph Nat Joint) (bs : BodyStore) (log : List Nat) (i : Nat) :
    SameIdx bs (JointSet.wakeNode g bs log i).1 := by
  unfold JointSet.wakeNode
  cases g.node_weight i with
  | none => exact SameIdx.rfl bs
  | some rb => exact setAwake_sameIdx bs rb

/-- `remove` preserves the graph-side invariant. -/
theorem remove_graphInv (st : SimState) (h : Index) (w : Bool)
    (hsi : JointSet.SetInv st.set) (hgi : GraphInv st) :
    GraphInv ⟨(st.set.remove st.bodies h w).2.1, (st.set.remove st.bodies h w).2.2.1⟩ := by
  cases hg : st.set.joint_ids.get h with
  | none =>
    rw [JointSet.remove_eq_of_none st.set st.bodies h w hg]
    exact ⟨hgi.endpoints, hgi.cache, hgi.node_inj, hgi.fresh, hgi.node_live⟩
  | some id =>
    cases he : st.set.graph.edges[id]? with
    | none =>
      rw [JointSet.remove_eq_of_noedge st.set st.bodies h w id hg he]
      exact ⟨hgi.endpoints, hgi.cache, hgi.node_inj, hgi.fresh, hgi.node_live⟩
    | some e_h =>
      obtain ⟨_, hset⟩ := JointSet.remove_eq_of_some st.set st.bodies h w id e_h hg he
      obtain ⟨_, hnodes, _, _, _, _, hmem⟩ :=
        JointSet.eraseEdge_spec st.set h id e_h hsi hg he
      have hbodies : SameIdx st.bodies (st.set.remove st.bodies h w).2.2.1 := by
        have hep : st.set.graph.edge_endpoints id = some (e_h.a, e_h.b) := by
          unfold Graph.edge_endpoints
          rw [he]
          rfl
        have hrm : (st.set.remove st.bodies h w).2.2.1 =
            (if w then
              JointSet.wakeNode st.set.graph
                (JointSet.wakeNode st.set.graph st.bodies [] e_h.a).1
                (JointSet.wakeNode st.set.graph st.bodies [] e_h.a).2 e_h.b
            else (st.bodies, [])).1 := by
          unfold JointSet.remove
          rw [Arena.remove_fst, hg]
          simp only []
          rw [hep]
        rw [hrm]
        by_cases hw : w = true
        · rw [if_pos hw]
          exact (wakeNode_sameIdx st.set.graph st.bodies [] e_h.a).comp
            (wakeNode_sameIdx st.set.graph _ _ e_h.b)
        · rw [if_neg hw]
          exact SameIdx.rfl st.bodies
      have hstep1 : GraphInv ⟨(st.set.remove st.bodies h w).2.1, st.bodies⟩ := by
        rw [hset]
        exact hgi.shrinkEdges (st.set.eraseEdge h id) hnodes
          (fun e hme => (hmem e hme).1)
      exact hstep1.sameIdx _ hbodies


/-! ### Node removal preserves the graph-side invariant -/

theorem getElem?_set_dropLast {α : Type} (l : List α) (d : Nat) (m : α) (k : Nat) :
    ((l.set d m).dropLast)[k]? =
      if k < l.length - 1 then (if k = d then some m else l[k]?) else none := by
  by_cases h1 : k < l.length - 1
  · rw [if_pos h1, getElem?_dropLast_of_lt _ k (by rw [List.length_set]; exact h1)]
    by_cases h2 : k = d
    · subst h2
      rw [if_pos rfl, List.getElem?_set_self (by omega)]
    · rw [if_neg h2, List.getElem?_set_ne (fun hdk => h2 hdk.symm)]
  · rw [if_neg h1, getElem?_dropLast_of_ge _ k (by rw [List.length_set]; omega)]

/-- Removing the node of body `b` with no incident edges left keeps the
graph-side invariant, with `b` erased from the store and the relocation
writeback applied (the final phase of `remove_rigid_body`). -/
theorem GraphInv.remove_node (st : SimState) (hgi : GraphInv st) (d b : Nat) (nd : Node Nat)
    (hvd : is_graph_index_valid d = true)
    (hd : st.set.graph.nodes[d]? = some nd) (hndw : nd.weight = b)
    (hnoedge : ∀ e ∈ st.set.graph.edges, ¬(e.a = d ∨ e.b = d)) :
    GraphInv ⟨⟨st.set.joint_ids, (st.set.graph.remove_node d).2⟩,
      eraseBody (match (st.set.graph.remove_node d).1 with
        | some other => setGraphIndex st.bodies other d
        | none => st.bodies) b⟩ := by
  have hd_lt : d < st.set.graph.nodes.length := (List.getElem?_eq_some_iff.mp hd).1
  by_cases hcase : d = st.set.graph.nodes.length - 1
  · rw [Graph.remove_node_eq_last st.set.graph d hd_lt hcase]
    simp only []
    refine ⟨?_, ?_, ?_, ?_, ?_⟩
    · intro e he
      simp only [] at he ⊢
      obtain ⟨na, nb, hna, hnb, hwa, hwb⟩ := hgi.endpoints e he
      have hea : e.a ≠ d := fun h => hnoedge e he (Or.inl h)
      have heb : e.b ≠ d := fun h => hnoedge e he (Or.inr h)
      have hea_lt : e.a < st.set.graph.nodes.length := (List.getElem?_eq_some_iff.mp hna).1
      have heb_lt : e.b < st.set.graph.nodes.length := (List.getElem?_eq_some_iff.mp hnb).1
      refine ⟨na, nb, ?_, ?_, hwa, hwb⟩
      · rw [getElem?_dropLast_of_lt _ _ (by omega)]
        exact hna
      · rw [getElem?_dropLast_of_lt _ _ (by omega)]
        exact hnb
    · intro b' rb' hb' hv'
      simp only [] at hb' ⊢
      unfold eraseBody at hb'
      by_cases hbb : b' = b
      · rw [if_pos hbb] at hb'
        cases hb'
      · rw [if_neg hbb] at hb'
        obtain ⟨n, hn, hnw⟩ := hgi.cache b' rb' hb' hv'
        have hc_lt : rb'.joint_graph_index < st.set.graph.nodes.length :=
          (List.getElem?_eq_some_iff.mp hn).1
        have hc_ne : rb'.joint_graph_index ≠ d := by
          intro h
          rw [h, hd] at hn
          injection hn with hn
          exact hbb (by rw [← hnw, ← hn, hndw])
        refine ⟨n, ?_, hnw⟩
        rw [getElem?_dropLast_of_lt _ _ (by omega)]
        exact hn
    · intro i j ni nj hi hj hw
      simp only [] at hi hj
      have hi_lt : i < st.set.graph.nodes.length - 1 := by
        by_contra hcon
        rw [getElem?_dropLast_of_ge _ _ (by omega)] at hi
        cases hi
      have hj_lt : j < st.set.graph.nodes.length - 1 := by
        by_contra hcon
        rw [getElem?_dropLast_of_ge _ _ (by omega)] at hj
        cases hj
      rw [getElem?_dropLast_of_lt _ _ hi_lt] at hi
      rw [getElem?_dropLast_of_lt _ _ hj_lt] at hj
      exact hgi.node_inj i j ni nj hi hj hw
    · intro b' rb' hb' hv' i n hn
      simp only [] at hb' hn
      unfold eraseBody at hb'
      by_cases hbb : b' = b
      · rw [if_pos hbb] at hb'
        cases hb'
      · rw [if_neg hbb] at hb'
        have hi_lt : i < st.set.graph.nodes.length - 1 := by
          by_contra hcon
          rw [getElem?_dropLast_of_ge _ _ (by omega)] at hn
          cases hn
        rw [getElem?_dropLast_of_lt _ _ hi_lt] at hn
        exact hgi.fresh b' rb' hb' hv' i n hn
    · intro i n hn
      simp only [] at hn ⊢
      have hi_lt : i < st.set.graph.nodes.length - 1 := by
        by_contra hcon
        rw [getElem?_dropLast_of_ge _ _ (by omega)] at hn
        cases hn
      rw [getElem?_dropLast_of_lt _ _ hi_lt] at hn
      obtain ⟨rb0, hrb0⟩ := hgi.node_live i n hn
      have hnwb : n.weight ≠ b := by
        intro h
        have := hgi.node_inj i d n nd hn hd (by rw [h, hndw])
        omega
      refine ⟨rb0, ?_⟩
      unfold eraseBody
      rw [if_neg hnwb]
      exact hrb0
  · have hlast_lt : st.set.graph.nodes.length - 1 < st.set.graph.nodes.length := by omega
    obtain ⟨m, hm⟩ : ∃ m, st.set.graph.nodes[st.set.graph.nodes.length - 1]? = some m :=
      ⟨_, List.getElem?_eq_getElem hlast_lt⟩
    rw [Graph.remove_node_eq_move st.set.graph d m hd_lt hcase hm]
    simp only []
    have hmw_ne_b : m.weight ≠ b := by
      intro h
      have := hgi.node_inj (st.set.graph.nodes.length - 1) d m nd hm hd (by rw [h, hndw])
      omega
    have hchar : ∀ k, ((st.set.graph.nodes.set d m).dropLast)[k]? =
        if k < st.set.graph.nodes.length - 1 then
          (if k = d then some m else st.set.graph.nodes[k]?) else none :=
      fun k => getElem?_set_dropLast st.set.graph.nodes d m k
    refine ⟨?_, ?_, ?_, ?_, ?_⟩
    · intro e' he'
      simp only [] at he' ⊢
      rw [List.mem_map] at he'
      obtain ⟨e, he, rfl⟩ := he'
      obtain ⟨na, nb, hna, hnb, hwa, hwb⟩ := hgi.endpoints e he
      have hea : e.a ≠ d := fun h => hnoedge e he (Or.inl h)
      have heb : e.b ≠ d := fun h => hnoedge e he (Or.inr h)
      have hpoint : ∀ i ni, st.set.graph.nodes[i]? = some ni → i ≠ d →
          ((st.set.graph.nodes.set d m).dropLast)[if i = st.set.graph.nodes.length - 1
            then d else i]? =
          some (if i = st.set.graph.nodes.length - 1 then m else ni) := by
        intro i ni hni hid
        have hi_lt : i < st.set.graph.nodes.length := (List.getElem?_eq_some_iff.mp hni).1
        by_cases hi : i = st.set.graph.nodes.length - 1
        · rw [if_pos hi, if_pos hi, hchar d, if_pos (by omega), if_pos rfl]
        · rw [if_neg hi, if_neg hi, hchar i, if_pos (by omega), if_neg hid]
          exact hni
      refine ⟨if e.a = st.set.graph.nodes.length - 1 then m else na,
        if e.b = st.set.graph.nodes.length - 1 then m else nb,
        hpoint e.a na hna hea, hpoint e.b nb hnb heb, ?_, ?_⟩
      · by_cases ha : e.a = st.set.graph.nodes.length - 1
        · rw [if_pos ha]
          rw [ha, hm] at hna
          injection hna with hna
          rw [hna]
          exact hwa
        · rw [if_neg ha]
          exact hwa
      · by_cases hbc : e.b = st.set.graph.nodes.length - 1
        · rw [if_pos hbc]
          rw [hbc, hm] at hnb
          injection hnb with hnb
          rw [hnb]
          exact hwb
        · rw [if_neg hbc]
          exact hwb
    · intro b' rb' hb' hv'
      simp only [] at hb' ⊢
      unfold eraseBody at hb'
      by_cases hbb : b' = b
      · rw [if_pos hbb] at hb'
        cases hb'
      · rw [if_neg hbb] at hb'
        unfold setGraphIndex at hb'
        by_cases hbm : b' = m.weight
        · rw [if_pos hbm] at hb'
          cases hbs : st.bodies b' with
          | none =>
            rw [hbs] at hb'
            cases hb'
          | some rb0 =>
            rw [hbs] at hb'
            simp only [Option.map_some'] at hb'
            injection hb' with hb'
            subst hb'
            refine ⟨m, ?_, hbm.symm⟩
            simp only []
            rw [hchar d, if_pos (by omega), if_pos rfl]
        · rw [if_neg hbm] at hb'
          obtain ⟨n, hn, hnw⟩ := hgi.cache b' rb' hb' hv'
          have hc_lt : rb'.joint_graph_index < st.set.graph.nodes.length :=
            (List.getElem?_eq_some_iff.mp hn).1
          have hc_ne_d : rb'.joint_graph_index ≠ d := by
            intro h
            rw [h, hd] at hn
            injection hn with hn
            exact hbb (by rw [← hnw, ← hn, hndw])
          have hc_ne_l : rb'.joint_graph_index ≠ st.set.graph.nodes.length - 1 := by
            intro h
            rw [h, hm] at hn
            injection hn with hn
            exact hbm (by rw [← hnw, ← hn])
          refine ⟨n, ?_, hnw⟩
          rw [hchar, if_pos (by omega), if_neg hc_ne_d]
          exact hn
    · intro i j ni nj hi hj hw
      simp only [] at hi hj
      rw [hchar] at hi hj
      have hi' : i < st.set.graph.nodes.length - 1 ∧
          ((i = d ∧ ni = m) ∨ (i ≠ d ∧ st.set.graph.nodes[i]? = some ni)) := by
        by_cases h1 : i < st.set.graph.nodes.length - 1
        · rw [if_pos h1] at hi
          by_cases h2 : i = d
          · rw [if_pos h2] at hi
            exact ⟨h1, Or.inl ⟨h2, (Option.some.inj hi).symm⟩⟩
          · rw [if_neg h2] at hi
            exact ⟨h1, Or.inr ⟨h2, hi⟩⟩
        · rw [if_neg h1] at hi
          cases hi
      have hj' : j < st.set.graph.nodes.length - 1 ∧
          ((j = d ∧ nj = m) ∨ (j ≠ d ∧ st.set.graph.nodes[j]? = some nj)) := by
        by_cases h1 : j < st.set.graph.nodes.length - 1
        · rw [if_pos h1] at hj
          by_cases h2 : j = d
          · rw [if_pos h2] at hj
            exact ⟨h1, Or.inl ⟨h2, (Option.some.inj hj).symm⟩⟩
          · rw [if_neg h2] at hj
            exact ⟨h1, Or.inr ⟨h2, hj⟩⟩
        · rw [if_neg h1] at hj
          cases hj
      obtain ⟨hilt, hio⟩ := hi'
      obtain ⟨hjlt, hjo⟩ := hj'
      have hoi : st.set.graph.nodes[if i = d then st.set.graph.nodes.length - 1 else i]? =
          some ni := by
        rcases hio with ⟨h2, rfl⟩ | ⟨h2, h3⟩
        · rw [if_pos h2]
          exact hm
        · rw [if_neg h2]
          exact h3
      have hoj : st.set.graph.nodes[if j = d then st.set.graph.nodes.length - 1 else j]? =
          some nj := by
        rcases hjo with ⟨h2, rfl⟩ | ⟨h2, h3⟩
        · rw [if_pos h2]
          exact hm
        · rw [if_neg h2]
          exact h3
      have hmain := hgi.node_inj _ _ ni nj hoi hoj hw
      by_cases h2 : i = d <;> by_cases h3 : j = d
      · rw [h2, h3]
      · rw [if_pos h2, if_neg h3] at hmain
        omega
      · rw [if_neg h2, if_pos h3] at hmain
        omega
      · rw [if_neg h2, if_neg h3] at hmain
        exact hmain
    · intro b' rb' hb' hv' i n hn
      simp only [] at hb' hn
      unfold eraseBody at hb'
      by_cases hbb : b' = b
      · rw [if_pos hbb] at hb'
        cases hb'
      · rw [if_neg hbb] at hb'
        unfold setGraphIndex at hb'
        by_cases hbm : b' = m.weight
        · rw [if_pos hbm] at hb'
          cases hbs : st.bodies b' with
          | none =>
            rw [hbs] at hb'
            cases hb'
          | some rb0 =>
            rw [hbs] at hb'
            simp only [Option.map_some'] at hb'
            injection hb' with hb'
            rw [← hb'] at hv'
            simp only [] at hv'
            rw [hvd] at hv'
            exact Bool.noConfusion hv'
        · rw [if_neg hbm] at hb'
          rw [hchar] at hn
          by_cases h1 : i < st.set.graph.nodes.length - 1
          · rw [if_pos h1] at hn
            by_cases h2 : i = d
            · rw [if_pos h2] at hn
              injection hn with hn
              intro hcon
              exact hbm (by rw [← hcon, ← hn])
            · rw [if_neg h2] at hn
              exact hgi.fresh b' rb' hb' hv' i n hn
          · rw [if_neg h1] at hn
            cases hn
    · intro i n hn
      simp only [] at hn ⊢
      rw [hchar] at hn
      by_cases h1 : i < st.set.graph.nodes.length - 1
      · rw [if_pos h1] at hn
        by_cases h2 : i = d
        · rw [if_pos h2] at hn
          injection hn with hn
          obtain ⟨rb0, hrb0⟩ := hgi.node_live (st.set.graph.nodes.length - 1) m hm
          refine ⟨{rb0 with joint_graph_index := d}, ?_⟩
          rw [← hn]
          unfold eraseBody setGraphIndex
          rw [if_neg hmw_ne_b, if_pos rfl, hrb0]
          rfl
        · rw [if_neg h2] at hn
          obtain ⟨rb0, hrb0⟩ := hgi.node_live i n hn
          have hnwb : n.weight ≠ b := by
            intro h
            have := hgi.node_inj i d n nd hn hd (by rw [h, hndw])
            omega
          unfold eraseBody setGraphIndex
          rw [if_neg hnwb]
          by_cases hbm : n.weight = m.weight
          · rw [if_pos hbm]
            exact ⟨{rb0 with joint_graph_index := d}, by rw [hrb0]; rfl⟩
          · rw [if_neg hbm]
            exact ⟨rb0, hrb0⟩
      · rw [if_neg h1] at hn
        cases hn


/-! ### Full specification of remove_rigid_body -/

theorem JointSet.get_none_of_arena (s : JointSet) (h : Index)
    (hg : s.joint_ids.get h = none) : s.get h = none := by
  unfold JointSet.get
  rw [hg]
  rfl

/-- `remove_rigid_body` on an invalid cached index is a no-op. -/
theorem JointSet.remove_rigid_body_invalid (s : JointSet) (bs : BodyStore) (d : Nat)
    (hvf : is_graph_index_valid d = false) :
    s.remove_rigid_body bs d = (s, bs, []) := by
  unfold JointSet.remove_rigid_body
  rw [if_neg (by rw [hvf]; exact Bool.false_ne_true)]

/-- Erasing a body whose cached index is invalid keeps the graph-side
invariant (its freshness guarantees it has no node). -/
theorem remove_body_graphInv_invalid (st : SimState) (b : Nat) (rb : RigidBody)
    (hb : st.bodies b = some rb)
    (hvf : is_graph_index_valid rb.joint_graph_index = false)
    (hgi : GraphInv st) :
    GraphInv ⟨(st.set.remove_rigid_body st.bodies rb.joint_graph_index).1,
      eraseBody (st.set.remove_rigid_body st.bodies rb.joint_graph_index).2.1 b⟩ := by
  rw [JointSet.remove_rigid_body_invalid st.set st.bodies rb.joint_graph_index hvf]
  refine ⟨hgi.endpoints, ?_, hgi.node_inj, ?_, ?_⟩
  · intro b' rb' hb' hv'
    have hb'' : eraseBody st.bodies b b' = some rb' := hb'
    unfold eraseBody at hb''
    by_cases hbb : b' = b
    · rw [if_pos hbb] at hb''
      cases hb''
    · rw [if_neg hbb] at hb''
      exact hgi.cache b' rb' hb'' hv'
  · intro b' rb' hb' hv' i n hn
    have hb'' : eraseBody st.bodies b b' = some rb' := hb'
    unfold eraseBody at hb''
    by_cases hbb : b' = b
    · rw [if_pos hbb] at hb''
      cases hb''
    · rw [if_neg hbb] at hb''
      exact hgi.fresh b' rb' hb'' hv' i n hn
  · intro i n hn
    obtain ⟨rb0, hrb0⟩ := hgi.node_live i n hn
    have hnwb : n.weight ≠ b := fun h => hgi.fresh b rb hb hvf i n hn h
    refine ⟨rb0, ?_⟩
    show eraseBody st.bodies b n.weight = some rb0
    unfold eraseBody
    rw [if_neg hnwb]
    exact hrb0

/-- Full specification of `remove_rigid_body` on a stored body with a
valid cached graph index: both invariants persist, no surviving joint
references the body, every incident joint's handle is dead and both of
its endpoint bodies appear in the wake log, the node count drops by one,
the edge count drops by the number of incident joints, the relocated
node's body (if any) gets the freed index written back, and arena
generations never decrease. -/
theorem remove_rigid_body_spec (st : SimState) (b : Nat) (rb : RigidBody)
    (hsi : JointSet.SetInv st.set) (hgi : GraphInv st)
    (hb : st.bodies b = some rb)
    (hv : is_graph_index_valid rb.joint_graph_index = true) :
    JointSet.SetInv (st.set.remove_rigid_body st.bodies rb.joint_graph_index).1 ∧
    GraphInv ⟨(st.set.remove_rigid_body st.bodies rb.joint_graph_index).1,
      eraseBody (st.set.remove_rigid_body st.bodies rb.joint_graph_index).2.1 b⟩ ∧
    (∀ e ∈ (st.set.remove_rigid_body st.bodies rb.joint_graph_index).1.graph.edges,
      e.weight.body1 ≠ b ∧ e.weight.body2 ≠ b) ∧
    (∀ e ∈ st.set.graph.edges,
      (e.a = rb.joint_graph_index ∨ e.b = rb.joint_graph_index) →
      (st.set.remove_rigid_body st.bodies rb.joint_graph_index).1.get e.weight.handle = none ∧
      e.weight.body1 ∈ (st.set.remove_rigid_body st.bodies rb.joint_graph_index).2.2 ∧
      e.weight.body2 ∈ (st.set.remove_rigid_body st.bodies rb.joint_graph_index).2.2) ∧
    (st.set.remove_rigid_body st.bodies rb.joint_graph_index).1.graph.nodes.length + 1 =
      st.set.graph.nodes.length ∧
    (st.set.remove_rigid_body st.bodies rb.joint_graph_index).1.graph.edges.length +
      (st.set.graph.edges.filter
        (fun e => decide (e.a = rb.joint_graph_index ∨ e.b = rb.joint_graph_index))).length =
      st.set.graph.edges.length ∧
    (rb.joint_graph_index + 1 ≠ st.set.graph.nodes.length →
      ∃ m, st.set.graph.nodes[st.set.graph.nodes.length - 1]? = some m ∧
        ((st.set.remove_rigid_body st.bodies rb.joint_graph_index).2.1 m.weight).map
          RigidBody.joint_graph_index = some rb.joint_graph_index) ∧
    Arena.GenLe st.set.joint_ids
      (st.set.remove_rigid_body st.bodies rb.joint_graph_index).1.joint_ids := by
  obtain ⟨nd, hnd, hndw⟩ := hgi.cache b rb hb hv
  have hd_lt : rb.joint_graph_index < st.set.graph.nodes.length :=
    (List.getElem?_eq_some_iff.mp hnd).1
  have hIW := interactions_with_eq st.set.graph rb.joint_graph_index hgi.endpoints
  have hL : (st.set.graph.interactions_with rb.joint_graph_index).map
      (fun x => (x.1, x.2.1, x.2.2.handle)) =
      (st.set.graph.edges.filter
        (fun e => decide (e.a = rb.joint_graph_index ∨ e.b = rb.joint_graph_index))).map
      (fun e => (e.weight.body1, e.weight.body2, e.weight.handle)) := by
    rw [hIW, List.map_map]
    rfl
  have hndp : (((st.set.graph.interactions_with rb.joint_graph_index).map
      (fun x => (x.1, x.2.1, x.2.2.handle))).map (fun t => t.2.2)).Nodup := by
    rw [hL, List.map_map]
    exact List.Nodup.sublist ((List.filter_sublist _).map _)
      (JointSet.edges_handles_nodup st.set hsi)
  have hres : ∀ t ∈ (st.set.graph.interactions_with rb.joint_graph_index).map
      (fun x => (x.1, x.2.1, x.2.2.handle)),
      ∃ e, JointSet.lookupEdge st.set t.2.2 = some e ∧
        (e : Edge Joint).weight.handle = t.2.2 ∧
        (e.a = rb.joint_graph_index ∨ e.b = rb.joint_graph_index) ∧
        e.weight.body1 = t.1 ∧ e.weight.body2 = t.2.1 := by
    intro t ht
    rw [hL, List.mem_map] at ht
    obtain ⟨e, he, rfl⟩ := ht
    have hef := List.mem_filter.mp he
    obtain ⟨i, hi⟩ := List.mem_iff_getElem?.mp hef.1
    refine ⟨e, ?_, rfl, of_decide_eq_true hef.2, rfl, rfl⟩
    show JointSet.lookupEdge st.set e.weight.handle = some e
    unfold JointSet.lookupEdge
    rw [hsi.from_edge i e hi]
    simp only [Option.some_bind]
    exact hi
  have hcompl : ∀ e ∈ st.set.graph.edges,
      (e.a = rb.joint_graph_index ∨ e.b = rb.joint_graph_index) →
      e.weight.handle ∈ ((st.set.graph.interactions_with rb.joint_graph_index).map
        (fun x => (x.1, x.2.1, x.2.2.handle))).map (fun t => t.2.2) := by
    intro e he ht
    rw [hL, List.map_map]
    exact List.mem_map_of_mem _ (List.mem_filter.mpr ⟨he, decide_eq_true ht⟩)
  obtain ⟨F1, F2, F3, F4, F5, F6, F7, F8⟩ :=
    foldl_removeStep_spec rb.joint_graph_index
      ((st.set.graph.interactions_with rb.joint_graph_index).map
        (fun x => (x.1, x.2.1, x.2.2.handle)))
      st.set st.bodies [] hsi hndp hres hcompl
  have hrc := JointSet.remove_rigid_body_components st.set st.bodies rb.joint_graph_index hv
  set F := (((st.set.graph.interactions_with rb.joint_graph_index).map
      (fun x => (x.1, x.2.1, x.2.2.handle))).foldl
      JointSet.removeStep (st.set, st.bodies, [])) with hF
  have hR1 : (st.set.remove_rigid_body st.bodies rb.joint_graph_index).1 =
      ⟨F.1.joint_ids, (F.1.graph.remove_node rb.joint_graph_index).2⟩ := by
    rw [hrc]
  have hR21 : (st.set.remove_rigid_body st.bodies rb.joint_graph_index).2.1 =
      (match (F.1.graph.remove_node rb.joint_graph_index).1 with
       | some other => setGraphIndex F.2.1 other rb.joint_graph_index
       | none => F.2.1) := by
    rw [hrc]
  have hR22 : (st.set.remove_rigid_body st.bodies rb.joint_graph_index).2.2 = F.2.2 := by
    rw [hrc]
  have htriple : ∀ e ∈ st.set.graph.edges,
      (e.a = rb.joint_graph_index ∨ e.b = rb.joint_graph_index) →
      (e.weight.body1, e.weight.body2, e.weight.handle) ∈
        (st.set.graph.interactions_with rb.joint_graph_index).map
          (fun x => (x.1, x.2.1, x.2.2.handle)) := by
    intro e he ht
    rw [hL]
    exact List.mem_map_of_mem _ (List.mem_filter.mpr ⟨he, decide_eq_true ht⟩)
  have hnob : ∀ e ∈ F.1.graph.edges, e.weight.body1 ≠ b ∧ e.weight.body2 ≠ b := by
    intro e he
    obtain ⟨hmem, hnt⟩ := F3 e he
    obtain ⟨na, nb, hna, hnb, hwa, hwb⟩ := hgi.endpoints e hmem
    constructor
    · intro hcon
      apply hnt
      left
      exact hgi.node_inj e.a rb.joint_graph_index na nd hna hnd (by rw [hwa, hcon, hndw])
    · intro hcon
      apply hnt
      right
      exact hgi.node_inj e.b rb.joint_graph_index nb nd hnb hnd (by rw [hwb, hcon, hndw])
  have hgi1 : GraphInv ⟨F.1, F.2.1⟩ :=
    (hgi.shrinkEdges F.1 F2 (fun e he => (F3 e he).1)).sameIdx F.2.1 F6
  have hd1 : F.1.graph.nodes[rb.joint_graph_index]? = some nd := by
    rw [F2]
    exact hnd
  have hnoe : ∀ e ∈ F.1.graph.edges,
      ¬(e.a = rb.joint_graph_index ∨ e.b = rb.joint_graph_index) :=
    fun e he => (F3 e he).2
  have hgi2 : GraphInv ⟨⟨F.1.joint_ids, (F.1.graph.remove_node rb.joint_graph_index).2⟩,
      eraseBody (match (F.1.graph.remove_node rb.joint_graph_index).1 with
        | some other => setGraphIndex F.2.1 other rb.joint_graph_index
        | none => F.2.1) b⟩ :=
    GraphInv.remove_node ⟨F.1, F.2.1⟩ hgi1 rb.joint_graph_index b nd hv hd1 hndw hnoe
  have hnlen : (F.1.graph.remove_node rb.joint_graph_index).2.nodes.length + 1 =
      st.set.graph.nodes.length := by
    have h := Graph.remove_node_length_eq F.1.graph rb.joint_graph_index
      (by rw [F2]; exact hd_lt)
    rw [F2] at h
    exact h
  have hedges2 : (F.1.graph.remove_node rb.joint_graph_index).2.edges.length =
      F.1.graph.edges.length ∧
      ∀ e' ∈ (F.1.graph.remove_node rb.joint_graph_index).2.edges,
        ∃ e ∈ F.1.graph.edges, e'.weight = e.weight := by
    by_cases hcase : rb.joint_graph_index = F.1.graph.nodes.length - 1
    · rw [Graph.remove_node_eq_last F.1.graph _ (by rw [F2]; exact hd_lt) hcase]
      exact ⟨rfl, fun e' he' => ⟨e', he', rfl⟩⟩
    · obtain ⟨m, hm⟩ : ∃ m, F.1.graph.nodes[F.1.graph.nodes.length - 1]? = some m :=
        ⟨_, List.getElem?_eq_getElem (by rw [F2]; omega)⟩
      rw [Graph.remove_node_eq_move F.1.graph _ m (by rw [F2]; exact hd_lt) hcase hm]
      simp only []
      refine ⟨by rw [List.length_map], ?_⟩
      intro e' he'
      rw [List.mem_map] at he'
      obtain ⟨e, he, rfl⟩ := he'
      exact ⟨e, he, rfl⟩
  have hreloc : rb.joint_graph_index + 1 ≠ st.set.graph.nodes.length →
      ∃ m, st.set.graph.nodes[st.set.graph.nodes.length - 1]? = some m ∧
        ((match (F.1.graph.remove_node rb.joint_graph_index).1 with
          | some other => setGraphIndex F.2.1 other rb.joint_graph_index
          | none => F.2.1) m.weight).map RigidBody.joint_graph_index =
          some rb.joint_graph_index := by
    intro hne
    have hcase : ¬rb.joint_graph_index = F.1.graph.nodes.length - 1 := by
      rw [F2]
      omega
    obtain ⟨m, hm⟩ : ∃ m, F.1.graph.nodes[F.1.graph.nodes.length - 1]? = some m :=
      ⟨_, List.getElem?_eq_getElem (by rw [F2]; omega)⟩
    rw [Graph.remove_node_eq_move F.1.graph _ m (by rw [F2]; exact hd_lt) hcase hm]
    simp only []
    have hm0 : st.set.graph.nodes[st.set.graph.nodes.length - 1]? = some m := by
      rw [← F2]
      exact hm
    refine ⟨m, hm0, ?_⟩
    obtain ⟨rb0, hrb0⟩ := hgi.node_live (st.set.graph.nodes.length - 1) m hm0
    have hsame := F6 m.weight
    rw [hrb0] at hsame
    cases hF21 : F.2.1 m.weight with
    | none =>
      rw [hF21] at hsame
      simp only [Option.map_none', Option.map_some'] at hsame
      exact Option.noConfusion hsame
    | some rb1 =>
      unfold setGraphIndex
      rw [if_pos rfl, hF21]
      rfl
  refine ⟨?_, ?_, ?_, ?_, ?_, ?_, ?_, ?_⟩
  · rw [hR1]
    exact JointSet.setInv_remove_node F.1 rb.joint_graph_index F1
  · rw [hR1, hR21]
    exact hgi2
  · intro e he
    rw [hR1] at he
    have he' : e ∈ (F.1.graph.remove_node rb.joint_graph_index).2.edges := he
    obtain ⟨e0, he0, hw⟩ := hedges2.2 e he'
    rw [hw]
    exact hnob e0 he0
  · intro e he ht
    have h5 := F5 (e.weight.body1, e.weight.body2, e.weight.handle) (htriple e he ht)
    refine ⟨?_, ?_, ?_⟩
    · have hgn : (st.set.remove_rigid_body st.bodies rb.joint_graph_index).1.joint_ids.get
          e.weight.handle = none := by
        rw [hR1]
        exact h5.1
      exact JointSet.get_none_of_arena _ _ hgn
    · rw [hR22]
      exact h5.2.1
    · rw [hR22]
      exact h5.2.2
  · rw [hR1]
    have hx : (⟨F.1.joint_ids, (F.1.graph.remove_node rb.joint_graph_index).2⟩ :
        JointSet).graph.nodes.length =
        (F.1.graph.remove_node rb.joint_graph_index).2.nodes.length := rfl
    omega
  · rw [hR1]
    have hL4 := F4
    rw [hL, List.length_map] at hL4
    have hx : (⟨F.1.joint_ids, (F.1.graph.remove_node rb.joint_graph_index).2⟩ :
        JointSet).graph.edges.length =
        (F.1.graph.remove_node rb.joint_graph_index).2.edges.length := rfl
    have hy := hedges2.1
    omega
  · rw [hR21]
    exact hreloc
  · have hx : (st.set.remove_rigid_body st.bodies rb.joint_graph_index).1.joint_ids =
        F.1.joint_ids := by
      rw [hR1]
    rw [hx]
    exact F8


/-! ### The graph-side invariant along distinct-body runs -/

theorem StepD.invD {st st' : SimState} (h : StepD st st')
    (hsi : JointSet.SetInv st.set) (hgi : GraphInv st) : GraphInv st' := by
  cases h with
  | insert b1 b2 p rb1 rb2 hne hb1 hb2 hcap =>
    exact insert_graphInv st b1 b2 p rb1 rb2 hne hb1 hb2 hcap hgi
  | remove h w => exact remove_graphInv st h w hsi hgi
  | remove_body b rb hb =>
    cases hv : is_graph_index_valid rb.joint_graph_index with
    | true => exact (remove_rigid_body_spec st b rb hsi hgi hb hv).2.1
    | false => exact remove_body_graphInv_invalid st b rb hb hv hgi

theorem Init.graphInv0 {st : SimState} (hinit : Init st) : GraphInv st := by
  obtain ⟨hset, hbs⟩ := hinit
  constructor
  · intro e he
    rw [hset] at he
    cases he
  · intro b rb hb hvv
    rw [hbs b rb hb] at hvv
    exact absurd hvv (by decide)
  · intro i j ni nj hi hj hw
    rw [hset] at hi
    exact Option.noConfusion hi
  · intro b rb hb hvv i n hn
    rw [hset] at hn
    exact Option.noConfusion hn
  · intro i n hn
    rw [hset] at hn
    exact Option.noConfusion hn

theorem ReachableD.graphInv {st : SimState} (hr : ReachableD st) : GraphInv st := by
  obtain ⟨st0, hinit, hsteps⟩ := hr
  have h0 : JointSet.SetInv st0.set := by
    rw [hinit.1]
    exact JointSet.SetInv.new
  induction hsteps with
  | refl => exact Init.graphInv0 hinit
  | tail h12 hstep ih =>
    have hsteps' := Relation.ReflTransGen.mono (fun a b h => StepD.toStep h) h12
    have hsib := (steps_setInv hsteps' h0).1
    exact StepD.invD hstep hsib ih

/-- The distinct-body step of the example run. -/
theorem exampleStepD1 : StepD exampleInitState exampleState1 :=
  StepD.insert exampleInitState 0 1 7 ⟨true, false, 0, INVALID_U32⟩
    ⟨true, false, 0, INVALID_U32⟩ (by decide) rfl rfl (by decide)

theorem exampleReachableD1 : ReachableD exampleState1 :=
  ⟨exampleInitState, exampleInit, Relation.ReflTransGen.single exampleStepD1⟩


/-- C4: Cascading deletion completeness — on any reachable state of a
run of distinct-body calls, for a stored body with a valid cached graph
index, `remove_rigid_body` removes every incident joint: afterwards no
joint in the set references that body, every incident joint's handle no
longer resolves via `get`, both endpoint bodies of every removed joint
are unconditionally woken, the node array shrinks by exactly one (and
the edge array by exactly the number of incident joints), and if node
removal relocated the last node into the freed slot, the freed index is
written back into the relocated body's cached graph-index field. -/
theorem C4_cascading_deletion (st : SimState) (hr : ReachableD st) (b : Nat)
    (rb : RigidBody) (hb : st.bodies b = some rb)
    (hv : is_graph_index_valid rb.joint_graph_index = true) :
    (∀ e ∈ (st.set.remove_rigid_body st.bodies rb.joint_graph_index).1.graph.edges,
      e.weight.body1 ≠ b ∧ e.weight.body2 ≠ b) ∧
    (∀ e ∈ st.set.graph.edges,
      (e.a = rb.joint_graph_index ∨ e.b = rb.joint_graph_index) →
      (st.set.remove_rigid_body st.bodies rb.joint_graph_index).1.get e.weight.handle = none ∧
      e.weight.body1 ∈ (st.set.remove_rigid_body st.bodies rb.joint_graph_index).2.2 ∧
      e.weight.body2 ∈ (st.set.remove_rigid_body st.bodies rb.joint_graph_index).2.2) ∧
    (st.set.remove_rigid_body st.bodies rb.joint_graph_index).1.graph.nodes.length + 1 =
      st.set.graph.nodes.length ∧
    (st.set.remove_rigid_body st.bodies rb.joint_graph_index).1.graph.edges.length +
      (st.set.graph.edges.filter
        (fun e => decide (e.a = rb.joint_graph_index ∨ e.b = rb.joint_graph_index))).length =
      st.set.graph.edges.length ∧
    (rb.joint_graph_index + 1 ≠ st.set.graph.nodes.length →
      ∃ m, st.set.graph.nodes[st.set.graph.nodes.length - 1]? = some m ∧
        ((st.set.remove_rigid_body st.bodies rb.joint_graph_index).2.1 m.weight).map
          RigidBody.joint_graph_index = some rb.joint_graph_index) := by
  have hsi : JointSet.SetInv st.set := hr.toReachable.setInv
  have hgi : GraphInv st := hr.graphInv
  obtain ⟨_, _, h3, h4, h5, h6, h7, _⟩ := remove_rigid_body_spec st b rb hsi hgi hb hv
  exact ⟨h3, h4, h5, h6, h7⟩

theorem C4_witness :
    exampleState1.bodies 0 = some ⟨true, false, 0, 0⟩ ∧
    ((∀ e ∈ (exampleState1.set.remove_rigid_body exampleState1.bodies 0).1.graph.edges,
        e.weight.body1 ≠ 0 ∧ e.weight.body2 ≠ 0) ∧
      (∀ e ∈ exampleState1.set.graph.edges, (e.a = 0 ∨ e.b = 0) →
        (exampleState1.set.remove_rigid_body exampleState1.bodies 0).1.get e.weight.handle =
          none ∧
        e.weight.body1 ∈ (exampleState1.set.remove_rigid_body exampleState1.bodies 0).2.2 ∧
        e.weight.body2 ∈ (exampleState1.set.remove_rigid_body exampleState1.bodies 0).2.2) ∧
      (exampleState1.set.remove_rigid_body exampleState1.bodies 0).1.graph.nodes.length + 1 =
        exampleState1.set.graph.nodes.length ∧
      (exampleState1.set.remove_rigid_body exampleState1.bodies 0).1.graph.edges.length +
        (exampleState1.set.graph.edges.filter
          (fun e => decide (e.a = 0 ∨ e.b = 0))).length =
        exampleState1.set.graph.edges.length ∧
      (0 + 1 ≠ exampleState1.set.graph.nodes.length →
        ∃ m, exampleState1.set.graph.nodes[exampleState1.set.graph.nodes.length - 1]? =
            some m ∧
          ((exampleState1.set.remove_rigid_body exampleState1.bodies 0).2.1 m.weight).map
            RigidBody.joint_graph_index = some 0)) :=
  ⟨rfl, C4_cascading_deletion exampleState1 exampleReachableD1 0 ⟨true, false, 0, 0⟩ rfl
    (by decide)⟩

end Rapier
